import Mathlib

/-!
# Verification of the tassapi client core

A shallow embedding, in Lean 4, of the core algorithms of the `tassapi`
Python client library, together with proofs of the behavioural claims made
by its specification:

* the structural diff engine (`src/utils/json_patch_utils.py`) and the
  RFC 6902 round-trip law for `PatchableDict.as_json_patch`;
* the precision-preserving datetime codec (`src/utils/datetime_utils.py`);
* the response envelope (`src/tassapi/api/response.py`): safe statuses,
  `raise_for_status`, the `_has_more` pagination signal;
* the session manager (`src/api/sessions.py`): token-expiry logic,
  company-code validation, redirect-safe `Authorization` propagation;
* the pagination engine (`src/api/worker.py` / `src/api/models.py`);
* the `download` control flow of `TassWorker.download`.

JSON values are modelled by an inductive type; Python `dict`s are modelled
as canonical association lists whose keys are strictly sorted (a Python
dict has unique keys, and the diff engine iterates keys through `sorted()`,
so the strict-sorted canonical form mirrors exactly what the source code
observes).  Machine-level concerns (floats, interning) do not arise: the
payloads in question are JSON trees with string keys.
-/

namespace Tassapi

/-! ## JSON data model -/

/-- A JSON value.  Objects are canonical association lists: keys are
strictly sorted, mirroring a Python `dict` (unique keys) as iterated via
`sorted()` by the diff engine in `json_patch_utils.py`. -/
inductive Json where
  | null
  | bool (b : Bool)
  | num (n : Int)
  | str (s : String)
  | arr (elems : List Json)
  | obj (entries : List (String × Json))
deriving Repr

mutual

/-- Structural (Boolean) equality on `Json`, mirroring Python `==` on the
decoded payloads. -/
def Json.beq : Json → Json → Bool
  | .null, .null => true
  | .bool a, .bool b => a == b
  | .num a, .num b => a == b
  | .str a, .str b => a == b
  | .arr a, .arr b => Json.beqList a b
  | .obj a, .obj b => Json.beqObj a b
  | _, _ => false

/-- Elementwise equality of JSON arrays. -/
def Json.beqList : List Json → List Json → Bool
  | [], [] => true
  | x :: xs, y :: ys => Json.beq x y && Json.beqList xs ys
  | _, _ => false

/-- Entrywise equality of JSON objects (canonical form: order matters). -/
def Json.beqObj : List (String × Json) → List (String × Json) → Bool
  | [], [] => true
  | (k, v) :: xs, (k', v') :: ys => k == k' && Json.beq v v' && Json.beqObj xs ys
  | _, _ => false

end

instance : BEq Json := ⟨Json.beq⟩

mutual

theorem Json.beq_iff : ∀ {a b : Json}, Json.beq a b = true ↔ a = b
  | .null, .null => by simp [Json.beq]
  | .bool _, .bool _ => by simp [Json.beq]
  | .num _, .num _ => by simp [Json.beq]
  | .str _, .str _ => by simp [Json.beq]
  | .arr a, .arr b => by
      simp only [Json.beq, Json.arr.injEq]
      exact Json.beqList_iff
  | .obj a, .obj b => by
      simp only [Json.beq, Json.obj.injEq]
      exact Json.beqObj_iff
  | .null, .bool _ | .null, .num _ | .null, .str _ | .null, .arr _ | .null, .obj _
  | .bool _, .null | .bool _, .num _ | .bool _, .str _ | .bool _, .arr _ | .bool _, .obj _
  | .num _, .null | .num _, .bool _ | .num _, .str _ | .num _, .arr _ | .num _, .obj _
  | .str _, .null | .str _, .bool _ | .str _, .num _ | .str _, .arr _ | .str _, .obj _
  | .arr _, .null | .arr _, .bool _ | .arr _, .num _ | .arr _, .str _ | .arr _, .obj _
  | .obj _, .null | .obj _, .bool _ | .obj _, .num _ | .obj _, .str _ | .obj _, .arr _ => by
      simp [Json.beq]

theorem Json.beqList_iff : ∀ {a b : List Json}, Json.beqList a b = true ↔ a = b
  | [], [] => by simp [Json.beqList]
  | x :: xs, y :: ys => by
      simp only [Json.beqList, Bool.and_eq_true, List.cons.injEq]
      exact and_congr Json.beq_iff Json.beqList_iff
  | [], _ :: _ | _ :: _, [] => by simp [Json.beqList]

theorem Json.beqObj_iff : ∀ {a b : List (String × Json)}, Json.beqObj a b = true ↔ a = b
  | [], [] => by simp [Json.beqObj]
  | (k, v) :: xs, (k', v') :: ys => by
      simp only [Json.beqObj, Bool.and_eq_true, List.cons.injEq, Prod.mk.injEq, beq_iff_eq]
      rw [Json.beq_iff, Json.beqObj_iff, and_assoc]
  | [], _ :: _ | _ :: _, [] => by simp [Json.beqObj]

end

instance : DecidableEq Json := fun a b =>
  decidable_of_iff (Json.beq a b = true) Json.beq_iff

instance : LawfulBEq Json where
  eq_of_beq h := Json.beq_iff.mp h
  rfl := Json.beq_iff.mpr rfl

/-- Association-list lookup on a JSON object's entries, mirroring Python
`d[k]` / `k in d` on the dict that the entry list models. -/
def lookupKV (k : String) : List (String × Json) → Option Json
  | [] => none
  | (k', v) :: rest => if k' = k then some v else lookupKV k rest

/-- Key list of a JSON object's entries (`d.keys()`). -/
def keysOf (l : List (String × Json)) : List String := l.map Prod.fst

/-- The canonical-form invariant for object entry lists: keys strictly
increasing (hence unique), which is how a Python dict's key set looks when
iterated via `sorted()`. -/
def sortedKeys (l : List (String × Json)) : Prop :=
  l.Pairwise (fun a b => a.1 < b.1)

/-- Strict sortedness of an entry list's keys, decidably. -/
def Json.sortedb : List (String × Json) → Bool
  | [] => true
  | [_] => true
  | a :: b :: rest => decide (a.1 < b.1) && Json.sortedb (b :: rest)

theorem Json.sortedb_chain : ∀ {l : List (String × Json)},
    Json.sortedb l = true ↔ l.Chain' (fun a b => a.1 < b.1)
  | [] => by simp [Json.sortedb]
  | [a] => by simp [Json.sortedb]
  | a :: b :: rest => by
      simp only [Json.sortedb, Bool.and_eq_true, decide_eq_true_eq, List.chain'_cons]
      exact and_congr Iff.rfl Json.sortedb_chain

theorem Json.sortedb_iff {l : List (String × Json)} :
    Json.sortedb l = true ↔ sortedKeys l := by
  haveI : IsTrans (String × Json) (fun a b => a.1 < b.1) := ⟨fun _ _ _ => lt_trans⟩
  rw [Json.sortedb_chain, sortedKeys, List.chain'_iff_pairwise]

mutual

/-- `Json.WFb`: the canonical-form invariant, recursively: every object in
the tree has a strictly-sorted entry list.  `Bool`-valued so that concrete
witnesses can evaluate it. -/
def Json.WFb : Json → Bool
  | .null | .bool _ | .num _ | .str _ => true
  | .arr xs => Json.WFbList xs
  | .obj kvs => Json.sortedb kvs && Json.WFbObj kvs

def Json.WFbList : List Json → Bool
  | [] => true
  | x :: xs => Json.WFb x && Json.WFbList xs

def Json.WFbObj : List (String × Json) → Bool
  | [] => true
  | (_, v) :: rest => Json.WFb v && Json.WFbObj rest

end

/-! ## Structural diff engine

Embedding of `src/utils/json_patch_utils.py`. -/

/-- One JSON-Patch operation (`{"op": ..., "path": ..., "value": ...}`);
`remove` carries no value. -/
structure PatchOp where
  op : String
  path : String
  value : Option Json
deriving Repr, DecidableEq

/-- `_escape_token`: RFC 6901 escaping.  The source performs
`tkn.replace("~", "~0").replace("/", "~1")`; since the first replacement
introduces no `/` and the second no new `~0`, the two sequential passes
are exactly this single character-wise pass. -/
def escChars : List Char → List Char
  | [] => []
  | c :: r =>
      if c = '~' then '~' :: '0' :: escChars r
      else if c = '/' then '~' :: '1' :: escChars r
      else c :: escChars r

def escapeToken (t : String) : String := ⟨escChars t.data⟩

/-- `_join`: join a path with an escaped key token. -/
def joinPath (p k : String) : String :=
  if p = "" then "/" ++ escapeToken k else p ++ "/" ++ escapeToken k

/-- Shorthands for the four operation shapes emitted by `_json_diff`. -/
def testOp (p : String) (v : Json) : PatchOp := ⟨"test", p, some v⟩
def removeOp (p : String) : PatchOp := ⟨"remove", p, none⟩
def addOp (p : String) (v : Json) : PatchOp := ⟨"add", p, some v⟩
def replaceOp (p : String) (v : Json) : PatchOp := ⟨"replace", p, some v⟩

mutual

/-- `_json_diff(a, b, path)`.  With objects in canonical sorted form, the
source's `sorted(a_keys - b_keys)` is the filter of `a`'s entry list on
keys absent from `b` (and symmetrically), and `sorted(a_keys & b_keys)`
is handled by `diffCommon`, which walks `a`'s entries in order and skips
keys missing from `b`. -/
def jsonDiff (a b : Json) (path : String) : List PatchOp :=
  if a = b then []
  else
    match a, b with
    | .obj akvs, .obj bkvs =>
        let removals := (akvs.filter fun kv => (lookupKV kv.1 bkvs).isNone).flatMap
          fun kv => [testOp (joinPath path kv.1) kv.2, removeOp (joinPath path kv.1)]
        let additions := (bkvs.filter fun kv => (lookupKV kv.1 akvs).isNone).map
          fun kv => addOp (joinPath path kv.1) kv.2
        removals ++ additions ++ diffCommon akvs bkvs path
    | .arr _, .arr _ => [testOp path a, replaceOp path b]
    | _, _ => [testOp path a, replaceOp path b]

/-- The recursion over keys common to both objects: for each entry of `a`
(in canonical = sorted order), if the key also occurs in `b`, recurse on
the value pair at the extended path. -/
def diffCommon : List (String × Json) → List (String × Json) → String → List PatchOp
  | [], _, _ => []
  | (k, v) :: rest, bkvs, path =>
      (match lookupKV k bkvs with
       | some w => jsonDiff v w (joinPath path k)
       | none => []) ++ diffCommon rest bkvs path

end

/-! ## RFC 6902 patch application

Modelled from the spec: the repository generates patches but does not
apply them; the round-trip law interprets add/remove/replace/test per
RFC 6902, with paths decoded per RFC 6901.  `none` models an application
error (failed `test`, missing target, malformed pointer). -/

/-- RFC 6901 unescaping of a reference token: `~1` becomes `/` first,
then `~0` becomes `~` (the test order below realises exactly that). -/
def unescChars : List Char → List Char
  | [] => []
  | [c] => [c]
  | c :: d :: r =>
      if c = '~' ∧ d = '1' then '/' :: unescChars r
      else if c = '~' ∧ d = '0' then '~' :: unescChars r
      else c :: unescChars (d :: r)

/-- Split a character list on `/` separators. -/
def splitSlash : List Char → List (List Char)
  | [] => [[]]
  | c :: r =>
      if c = '/' then [] :: splitSlash r
      else
        match splitSlash r with
        | t :: ts => (c :: t) :: ts
        | [] => [[c]]

/-- Decode an RFC 6901 JSON Pointer into its reference tokens: the empty
string addresses the whole document; otherwise the pointer must start
with `/`, and tokens are the `/`-separated, unescaped segments. -/
def parsePointer (s : String) : Option (List String) :=
  match s.data with
  | [] => some []
  | '/' :: rest => some ((splitSlash rest).map fun t => ⟨unescChars t⟩)
  | _ => none

/-- An array-index reference token: digits only, with no leading zero
except for `0` itself. -/
def tokenToIndex (t : String) : Option Nat :=
  match t.data with
  | [] => none
  | [c] => if c.isDigit then some (c.toNat - '0'.toNat) else none
  | c :: rest =>
      if c.isDigit ∧ c ≠ '0' ∧ rest.all Char.isDigit then
        some ((c :: rest).foldl (fun n d => n * 10 + (d.toNat - '0'.toNat)) 0)
      else none

/-- Fetch the immediate child of a value addressed by one token. -/
def getChild (j : Json) (t : String) : Option Json :=
  match j with
  | .obj kvs => lookupKV t kvs
  | .arr xs => tokenToIndex t >>= xs.get?
  | _ => none

/-- Overwrite an existing entry's value, preserving entry order. -/
def setKV (k : String) (v : Json) : List (String × Json) → List (String × Json)
  | [] => []
  | (k', v') :: rest => if k' = k then (k', v) :: rest else (k', v') :: setKV k v rest

/-- Replace the immediate child addressed by one token (which must
exist). -/
def setChild (j : Json) (t : String) (v : Json) : Option Json :=
  match j with
  | .obj kvs => if (lookupKV t kvs).isSome then some (.obj (setKV t v kvs)) else none
  | .arr xs =>
      tokenToIndex t >>= fun i =>
        if i < xs.length then some (.arr (xs.set i v)) else none
  | _ => none

/-- Insert an entry into a canonical (key-sorted) entry list, replacing
the value if the key is already present. -/
def objInsert (k : String) (v : Json) : List (String × Json) → List (String × Json)
  | [] => [(k, v)]
  | (k', v') :: rest =>
      if k < k' then (k, v) :: (k', v') :: rest
      else if k' = k then (k, v) :: rest
      else (k', v') :: objInsert k v rest

/-- Remove an entry by key. -/
def objRemove (k : String) : List (String × Json) → List (String × Json)
  | [] => []
  | (k', v') :: rest => if k' = k then rest else (k', v') :: objRemove k rest

/-- `replace` navigation: the target must exist; the value at the full
path is swapped for `v`. -/
def replacePath (j : Json) : List String → Json → Option Json
  | [], v => some v
  | t :: ts, v =>
      getChild j t >>= fun w => replacePath w ts v >>= setChild j t

/-- `remove` navigation: the target must exist and is deleted (removing
the whole document is an error). -/
def removePath (j : Json) : List String → Option Json
  | [] => none
  | [t] =>
      match j with
      | .obj kvs => if (lookupKV t kvs).isSome then some (.obj (objRemove t kvs)) else none
      | .arr xs =>
          tokenToIndex t >>= fun i =>
            if i < xs.length then some (.arr (xs.eraseIdx i)) else none
      | _ => none
  | t :: ts@(_ :: _) =>
      getChild j t >>= fun w => removePath w ts >>= setChild j t

/-- `add` navigation: at the root the document is replaced; in an object
the member is inserted (or its value replaced); in an array the index may
be at most the length (`-` appends). -/
def addPath (j : Json) : List String → Json → Option Json
  | [], v => some v
  | [t], v =>
      match j with
      | .obj kvs => some (.obj (objInsert t v kvs))
      | .arr xs =>
          if t = "-" then some (.arr (xs ++ [v]))
          else
            tokenToIndex t >>= fun i =>
              if i ≤ xs.length then some (.arr (xs.take i ++ v :: xs.drop i)) else none
      | _ => none
  | t :: ts@(_ :: _), v =>
      getChild j t >>= fun w => addPath w ts v >>= setChild j t

/-- The value addressed by a token path, if any. -/
def Json.getPath : Json → List String → Option Json
  | j, [] => some j
  | j, t :: ts => getChild j t >>= fun w => w.getPath ts

/-- Apply a single RFC 6902 operation. -/
def applyOp (j : Json) (op : PatchOp) : Option Json :=
  parsePointer op.path >>= fun p =>
    if op.op = "add" then op.value >>= addPath j p
    else if op.op = "remove" then removePath j p
    else if op.op = "replace" then op.value >>= replacePath j p
    else if op.op = "test" then
      op.value >>= fun v => if j.getPath p = some v then some j else none
    else none

/-- Apply an ordered sequence of operations. -/
def applyOps (j : Json) : List PatchOp → Option Json
  | [] => some j
  | op :: ops => applyOp j op >>= fun j' => applyOps j' ops

/-! ### Pointer rendering and parsing agree

`_json_diff` renders paths with `_join`; the RFC 6902 interpreter decodes
them with `parsePointer`.  The lemmas here show that the pointer built for
a token list decodes back to exactly that token list. -/

/-- The token-list path a diff path string stands for. -/
def renderPath (p : List String) : String := p.foldl joinPath ""

theorem escChars_no_slash : ∀ cs : List Char, '/' ∉ escChars cs := by
  intro cs
  induction cs with
  | nil => simp [escChars]
  | cons c r ih =>
      by_cases h0 : c = '~'
      · simp [escChars, h0, ih]
      · by_cases h1 : c = '/'
        · simp [escChars, h0, h1, ih]
        · simp only [escChars, if_neg h0, if_neg h1, List.mem_cons]
          rintro (h | h)
          · exact h1 h.symm
          · exact ih h

theorem unescChars_cons_ne (c : Char) (rest : List Char) (h : c ≠ '~') :
    unescChars (c :: rest) = c :: unescChars rest := by
  match rest with
  | [] => rfl
  | d :: r =>
      rw [unescChars]
      rw [if_neg (by simp [h]), if_neg (by simp [h])]

theorem unesc_esc : ∀ cs : List Char, unescChars (escChars cs) = cs := by
  intro cs
  induction cs with
  | nil => rfl
  | cons c r ih =>
      by_cases h0 : c = '~'
      · subst h0
        rw [show escChars ('~' :: r) = '~' :: '0' :: escChars r by rw [escChars, if_pos rfl]]
        rw [unescChars, if_neg (by simp), if_pos ⟨rfl, rfl⟩, ih]
      · by_cases h1 : c = '/'
        · subst h1
          rw [show escChars ('/' :: r) = '~' :: '1' :: escChars r by
            rw [escChars, if_neg (by decide), if_pos rfl]]
          rw [unescChars, if_pos ⟨rfl, rfl⟩, ih]
        · rw [show escChars (c :: r) = c :: escChars r by
            rw [escChars, if_neg h0, if_neg h1]]
          rw [unescChars_cons_ne c _ h0, ih]

theorem splitSlash_no_slash {cs : List Char} (h : '/' ∉ cs) : splitSlash cs = [cs] := by
  induction cs with
  | nil => rfl
  | cons c r ih =>
      have hc : c ≠ '/' := fun hc => h (hc ▸ List.mem_cons_self c r)
      have hr : '/' ∉ r := fun hr => h (List.mem_cons_of_mem c hr)
      rw [splitSlash, if_neg hc, ih hr]

theorem splitSlash_append {pre : List Char} (h : '/' ∉ pre) (r : List Char) :
    splitSlash (pre ++ '/' :: r) = pre :: splitSlash r := by
  induction pre with
  | nil => simp [splitSlash]
  | cons c cs ih =>
      have hc : c ≠ '/' := fun hc => h (hc ▸ List.mem_cons_self c cs)
      have hcs : '/' ∉ cs := fun hcs => h (List.mem_cons_of_mem c hcs)
      rw [List.cons_append, splitSlash, if_neg hc, ih hcs]

/-- The flat character form of the pointer rendered for a token list. -/
def ptrChars (p : List String) : List Char :=
  p.flatMap fun t => '/' :: escChars t.data

theorem joinPath_data (acc k : String) :
    (joinPath acc k).data = acc.data ++ '/' :: escChars k.data := by
  by_cases h : acc = ""
  · subst h
    simp [joinPath, escapeToken]
  · simp [joinPath, h, escapeToken]

theorem foldl_joinPath_data (p : List String) :
    ∀ acc : String, (p.foldl joinPath acc).data = acc.data ++ ptrChars p := by
  induction p with
  | nil => intro acc; simp [ptrChars]
  | cons t ts ih =>
      intro acc
      rw [List.foldl_cons, ih, joinPath_data]
      rw [show ptrChars (t :: ts) = ('/' :: escChars t.data) ++ ptrChars ts by
        simp [ptrChars]]
      simp

theorem renderPath_data (p : List String) : (renderPath p).data = ptrChars p := by
  rw [renderPath, foldl_joinPath_data]
  rfl

theorem renderPath_append_single (p : List String) (k : String) :
    renderPath (p ++ [k]) = joinPath (renderPath p) k := by
  rw [renderPath, renderPath, List.foldl_append, List.foldl_cons, List.foldl_nil]

theorem splitSlash_ptrChars (t : String) (ts : List String) :
    splitSlash (escChars t.data ++ ptrChars ts) =
      escChars t.data :: ts.map (fun u => escChars u.data) := by
  induction ts generalizing t with
  | nil =>
      rw [ptrChars, List.flatMap_nil, List.append_nil,
        splitSlash_no_slash (escChars_no_slash t.data)]
      rfl
  | cons u us ih =>
      rw [ptrChars, List.flatMap_cons, show ('/' :: escChars u.data) ++ us.flatMap
          (fun v => '/' :: escChars v.data) = '/' :: (escChars u.data ++ ptrChars us) by simp [ptrChars],
        splitSlash_append (escChars_no_slash t.data), ih u, List.map_cons]

/-- Decoding the rendered pointer gives back exactly the token list. -/
theorem parse_renderPath (p : List String) : parsePointer (renderPath p) = some p := by
  rw [parsePointer, renderPath_data]
  match p with
  | [] => rfl
  | t :: ts =>
      rw [show ptrChars (t :: ts) = '/' :: (escChars t.data ++ ptrChars ts) by
        simp [ptrChars]]
      simp only [splitSlash_ptrChars, List.map_cons, List.map_map]
      congr 1
      congr 1
      · rw [unesc_esc]
      · conv_rhs => rw [← List.map_id ts]
        apply List.map_congr_left
        intro u _
        show (⟨unescChars (escChars u.data)⟩ : String) = u
        rw [unesc_esc]

/-! ### Canonical association lists -/

theorem sortedKeys_iff {l : List (String × Json)} :
    sortedKeys l ↔ (keysOf l).Pairwise (· < ·) := by
  rw [keysOf, List.pairwise_map]
  exact Iff.rfl

theorem sortedKeys.nodupKeys {l : List (String × Json)} (h : sortedKeys l) :
    (keysOf l).Nodup := by
  exact (sortedKeys_iff.mp h).imp ne_of_lt

theorem lookupKV_isSome_iff {k : String} :
    ∀ {l : List (String × Json)}, (lookupKV k l).isSome = true ↔ k ∈ keysOf l
  | [] => by simp [lookupKV, keysOf]
  | (k', v) :: rest => by
      by_cases h : k' = k
      · subst h
        simp [lookupKV, keysOf]
      · simp only [lookupKV, if_neg h, keysOf, List.map_cons, List.mem_cons]
        rw [show (rest.map Prod.fst : List String) = keysOf rest from rfl,
          lookupKV_isSome_iff]
        simp [Ne.symm h]

theorem lookupKV_eq_none_iff {k : String} {l : List (String × Json)} :
    lookupKV k l = none ↔ k ∉ keysOf l := by
  rw [← lookupKV_isSome_iff]
  cases lookupKV k l <;> simp

theorem lookupKV_cons_self {k : String} {v : Json} {rest : List (String × Json)} :
    lookupKV k ((k, v) :: rest) = some v := by
  simp [lookupKV]

theorem lookupKV_mem {l : List (String × Json)} {k : String} {v : Json}
    (nodup : (keysOf l).Nodup) (h : (k, v) ∈ l) : lookupKV k l = some v := by
  induction l with
  | nil => cases h
  | cons kv rest ih =>
      rcases List.mem_cons.mp h with h | h
      · subst h; exact lookupKV_cons_self
      · have hk : kv.1 ≠ k := by
          intro he
          have : k ∈ keysOf rest := List.mem_map.mpr ⟨(k, v), h, rfl⟩
          rw [keysOf, List.map_cons] at nodup
          exact (List.nodup_cons.mp nodup).1 (he ▸ this)
        rw [show lookupKV k (kv :: rest) = if kv.1 = k then some kv.2 else lookupKV k rest
            from rfl, if_neg hk]
        exact ih (List.nodup_cons.mp (by rwa [keysOf, List.map_cons] at nodup)).2 h

theorem lookupKV_some_mem {k : String} {v : Json} :
    ∀ {l : List (String × Json)}, lookupKV k l = some v → (k, v) ∈ l
  | [], h => by simp [lookupKV] at h
  | (k', v') :: rest, h => by
      by_cases he : k' = k
      · subst he
        rw [lookupKV_cons_self] at h
        cases h
        exact List.mem_cons_self _ _
      · rw [show lookupKV k ((k', v') :: rest) = if k' = k then some v' else lookupKV k rest
          from rfl, if_neg he] at h
        exact List.mem_cons_of_mem _ (lookupKV_some_mem h)

theorem setKV_keys (k : String) (v : Json) :
    ∀ l : List (String × Json), keysOf (setKV k v l) = keysOf l
  | [] => rfl
  | (k', v') :: rest => by
      by_cases h : k' = k
      · subst h; simp [setKV, keysOf]
      · simp only [setKV, if_neg h, keysOf, List.map_cons, List.cons.injEq, true_and]
        exact setKV_keys k v rest

theorem sortedKeys_congr {l1 l2 : List (String × Json)} (h : keysOf l1 = keysOf l2) :
    sortedKeys l1 → sortedKeys l2 := by
  rw [sortedKeys_iff, sortedKeys_iff, h]
  exact id

theorem setKV_lookup_self {l : List (String × Json)} {k : String} (v : Json)
    (h : (lookupKV k l).isSome) : lookupKV k (setKV k v l) = some v := by
  induction l with
  | nil => simp [lookupKV] at h
  | cons kv rest ih =>
      by_cases he : kv.1 = k
      · rw [show setKV k v (kv :: rest) = if kv.1 = k then (kv.1, v) :: rest
            else (kv.1, kv.2) :: setKV k v rest from rfl, if_pos he, he, lookupKV_cons_self]
      · rw [show setKV k v (kv :: rest) = if kv.1 = k then (kv.1, v) :: rest
            else (kv.1, kv.2) :: setKV k v rest from rfl, if_neg he]
        rw [show lookupKV k ((kv.1, kv.2) :: setKV k v rest) =
          if kv.1 = k then some kv.2 else lookupKV k (setKV k v rest) from rfl, if_neg he]
        apply ih
        rwa [show lookupKV k (kv :: rest) = if kv.1 = k then some kv.2 else lookupKV k rest
          from rfl, if_neg he] at h

theorem setKV_lookup_ne {l : List (String × Json)} {k k' : String} (v : Json)
    (h : k' ≠ k) : lookupKV k' (setKV k v l) = lookupKV k' l := by
  induction l with
  | nil => rfl
  | cons kv rest ih =>
      by_cases he : kv.1 = k
      · rw [show setKV k v (kv :: rest) = if kv.1 = k then (kv.1, v) :: rest
            else (kv.1, kv.2) :: setKV k v rest from rfl, if_pos he]
        have hne : kv.1 ≠ k' := fun hx => h (hx ▸ he ▸ rfl : k' = k)
        rw [show lookupKV k' ((kv.1, v) :: rest) =
          if kv.1 = k' then some v else lookupKV k' rest from rfl, if_neg hne]
        rw [show lookupKV k' (kv :: rest) =
          if kv.1 = k' then some kv.2 else lookupKV k' rest from rfl, if_neg hne]
      · rw [show setKV k v (kv :: rest) = if kv.1 = k then (kv.1, v) :: rest
            else (kv.1, kv.2) :: setKV k v rest from rfl, if_neg he]
        by_cases he' : kv.1 = k'
        · rw [show lookupKV k' ((kv.1, kv.2) :: setKV k v rest) =
            if kv.1 = k' then some kv.2 else lookupKV k' (setKV k v rest) from rfl, if_pos he']
          rw [show lookupKV k' (kv :: rest) =
            if kv.1 = k' then some kv.2 else lookupKV k' rest from rfl, if_pos he']
        · rw [show lookupKV k' ((kv.1, kv.2) :: setKV k v rest) =
            if kv.1 = k' then some kv.2 else lookupKV k' (setKV k v rest) from rfl, if_neg he']
          rw [show lookupKV k' (kv :: rest) =
            if kv.1 = k' then some kv.2 else lookupKV k' rest from rfl, if_neg he']
          exact ih

theorem setKV_self {k : String} {v : Json} :
    ∀ {l : List (String × Json)}, lookupKV k l = some v → setKV k v l = l
  | [], h => by simp [lookupKV] at h
  | (k', v') :: rest, h => by
      by_cases he : k' = k
      · subst he
        rw [lookupKV_cons_self] at h
        cases h
        simp [setKV]
      · rw [show lookupKV k ((k', v') :: rest) = if k' = k then some v' else lookupKV k rest
          from rfl, if_neg he] at h
        simp only [setKV, if_neg he, List.cons.injEq, true_and]
        exact setKV_self h

theorem objRemove_sublist (k : String) :
    ∀ l : List (String × Json), List.Sublist (objRemove k l) l
  | [] => List.Sublist.refl _
  | (k', v') :: rest => by
      by_cases h : k' = k
      · simp only [objRemove, if_pos h]
        exact List.sublist_cons_self _ _
      · simp only [objRemove, if_neg h]
        exact (objRemove_sublist k rest).cons₂ _

theorem objRemove_keys_sublist (k : String) (l : List (String × Json)) :
    List.Sublist (keysOf (objRemove k l)) (keysOf l) :=
  (objRemove_sublist k l).map Prod.fst

theorem sortedKeys.objRemove {l : List (String × Json)} (h : sortedKeys l) (k : String) :
    sortedKeys (objRemove k l) :=
  List.Pairwise.sublist (objRemove_sublist k l) h

theorem objRemove_lookup_self {l : List (String × Json)} (nodup : (keysOf l).Nodup)
    (k : String) : lookupKV k (objRemove k l) = none := by
  induction l with
  | nil => rfl
  | cons kv rest ih =>
      rw [keysOf, List.map_cons, List.nodup_cons] at nodup
      by_cases h : kv.1 = k
      · rw [show objRemove k (kv :: rest) = if kv.1 = k then rest
          else (kv.1, kv.2) :: objRemove k rest from rfl, if_pos h]
        exact lookupKV_eq_none_iff.mpr (h ▸ nodup.1)
      · rw [show objRemove k (kv :: rest) = if kv.1 = k then rest
          else (kv.1, kv.2) :: objRemove k rest from rfl, if_neg h]
        rw [show lookupKV k ((kv.1, kv.2) :: objRemove k rest) =
          if kv.1 = k then some kv.2 else lookupKV k (objRemove k rest) from rfl, if_neg h]
        exact ih nodup.2

theorem objRemove_lookup_ne {k k' : String} (h : k' ≠ k) :
    ∀ {l : List (String × Json)}, (keysOf l).Nodup →
      lookupKV k' (objRemove k l) = lookupKV k' l
  | [], _ => rfl
  | kv :: rest, nodup => by
      rw [keysOf, List.map_cons, List.nodup_cons] at nodup
      by_cases hh : kv.1 = k
      · rw [show objRemove k (kv :: rest) = if kv.1 = k then rest
          else (kv.1, kv.2) :: objRemove k rest from rfl, if_pos hh]
        have hne : kv.1 ≠ k' := fun hx => h (hx ▸ hh ▸ rfl : k' = k)
        rw [show lookupKV k' (kv :: rest) =
          if kv.1 = k' then some kv.2 else lookupKV k' rest from rfl, if_neg hne]
      · rw [show objRemove k (kv :: rest) = if kv.1 = k then rest
          else (kv.1, kv.2) :: objRemove k rest from rfl, if_neg hh]
        by_cases he : kv.1 = k'
        · rw [show lookupKV k' ((kv.1, kv.2) :: objRemove k rest) =
            if kv.1 = k' then some kv.2 else lookupKV k' (objRemove k rest) from rfl, if_pos he]
          rw [show lookupKV k' (kv :: rest) =
            if kv.1 = k' then some kv.2 else lookupKV k' rest from rfl, if_pos he]
        · rw [show lookupKV k' ((kv.1, kv.2) :: objRemove k rest) =
            if kv.1 = k' then some kv.2 else lookupKV k' (objRemove k rest) from rfl, if_neg he]
          rw [show lookupKV k' (kv :: rest) =
            if kv.1 = k' then some kv.2 else lookupKV k' rest from rfl, if_neg he]
          exact objRemove_lookup_ne h nodup.2

theorem objInsert_lookup_self (k : String) (v : Json) :
    ∀ l : List (String × Json), lookupKV k (objInsert k v l) = some v
  | [] => lookupKV_cons_self
  | (k', v') :: rest => by
      by_cases h1 : k < k'
      · rw [show objInsert k v ((k', v') :: rest) = if k < k' then (k, v) :: (k', v') :: rest
          else if k' = k then (k, v) :: rest else (k', v') :: objInsert k v rest from rfl,
          if_pos h1, lookupKV_cons_self]
      · by_cases h2 : k' = k
        · rw [show objInsert k v ((k', v') :: rest) = if k < k' then (k, v) :: (k', v') :: rest
            else if k' = k then (k, v) :: rest else (k', v') :: objInsert k v rest from rfl,
            if_neg h1, if_pos h2, lookupKV_cons_self]
        · rw [show objInsert k v ((k', v') :: rest) = if k < k' then (k, v) :: (k', v') :: rest
            else if k' = k then (k, v) :: rest else (k', v') :: objInsert k v rest from rfl,
            if_neg h1, if_neg h2]
          rw [show lookupKV k ((k', v') :: objInsert k v rest) =
            if k' = k then some v' else lookupKV k (objInsert k v rest) from rfl, if_neg h2]
          exact objInsert_lookup_self k v rest

theorem objInsert_lookup_ne {k k' : String} (v : Json) (h : k' ≠ k) :
    ∀ l : List (String × Json), lookupKV k' (objInsert k v l) = lookupKV k' l
  | [] => by
      rw [show objInsert k v [] = [(k, v)] from rfl]
      rw [show lookupKV k' [(k, v)] = if k = k' then some v else lookupKV k' [] from rfl,
        if_neg (Ne.symm h)]
  | (k'', v'') :: rest => by
      by_cases h1 : k < k''
      · rw [show objInsert k v ((k'', v'') :: rest) = if k < k'' then (k, v) :: (k'', v'') :: rest
          else if k'' = k then (k, v) :: rest else (k'', v'') :: objInsert k v rest from rfl,
          if_pos h1]
        rw [show lookupKV k' ((k, v) :: (k'', v'') :: rest) =
          if k = k' then some v else lookupKV k' ((k'', v'') :: rest) from rfl,
          if_neg (Ne.symm h)]
      · by_cases h2 : k'' = k
        · rw [show objInsert k v ((k'', v'') :: rest) = if k < k'' then (k, v) :: (k'', v'') :: rest
            else if k'' = k then (k, v) :: rest else (k'', v'') :: objInsert k v rest from rfl,
            if_neg h1, if_pos h2]
          rw [show lookupKV k' ((k, v) :: rest) =
            if k = k' then some v else lookupKV k' rest from rfl, if_neg (Ne.symm h)]
          rw [show lookupKV k' ((k'', v'') :: rest) =
            if k'' = k' then some v'' else lookupKV k' rest from rfl,
            if_neg (fun hx : k'' = k' => h (hx.symm.trans h2))]
        · rw [show objInsert k v ((k'', v'') :: rest) = if k < k'' then (k, v) :: (k'', v'') :: rest
            else if k'' = k then (k, v) :: rest else (k'', v'') :: objInsert k v rest from rfl,
            if_neg h1, if_neg h2]
          by_cases h3 : k'' = k'
          · rw [show lookupKV k' ((k'', v'') :: objInsert k v rest) =
              if k'' = k' then some v'' else lookupKV k' (objInsert k v rest) from rfl, if_pos h3]
            rw [show lookupKV k' ((k'', v'') :: rest) =
              if k'' = k' then some v'' else lookupKV k' rest from rfl, if_pos h3]
          · rw [show lookupKV k' ((k'', v'') :: objInsert k v rest) =
              if k'' = k' then some v'' else lookupKV k' (objInsert k v rest) from rfl, if_neg h3]
            rw [show lookupKV k' ((k'', v'') :: rest) =
              if k'' = k' then some v'' else lookupKV k' rest from rfl, if_neg h3]
            exact objInsert_lookup_ne v h rest

theorem objInsert_keys_subset {k : String} {v : Json} :
    ∀ {l : List (String × Json)} {x : String}, x ∈ keysOf (objInsert k v l) →
      x = k ∨ x ∈ keysOf l
  | [], x => by
      intro hx
      rw [show objInsert k v [] = [(k, v)] from rfl] at hx
      simp only [keysOf, List.map_cons, List.map_nil, List.mem_singleton] at hx
      exact Or.inl hx
  | (k', v') :: rest, x => by
      intro hx
      by_cases h1 : k < k'
      · rw [show objInsert k v ((k', v') :: rest) = (k, v) :: (k', v') :: rest by
          rw [objInsert, if_pos h1]] at hx
        simp only [keysOf, List.map_cons, List.mem_cons] at hx ⊢
        tauto
      · by_cases h2 : k' = k
        · rw [show objInsert k v ((k', v') :: rest) = (k, v) :: rest by
            rw [objInsert, if_neg h1, if_pos h2]] at hx
          simp only [keysOf, List.map_cons, List.mem_cons] at hx ⊢
          tauto
        · rw [show objInsert k v ((k', v') :: rest) = (k', v') :: objInsert k v rest by
            rw [objInsert, if_neg h1, if_neg h2]] at hx
          simp only [keysOf, List.map_cons, List.mem_cons] at hx ⊢
          rcases hx with hx | hx
          · exact Or.inr (Or.inl hx)
          · rcases objInsert_keys_subset hx with hx | hx
            · exact Or.inl hx
            · exact Or.inr (Or.inr hx)

theorem sortedKeys.objInsert {k : String} {v : Json} :
    ∀ {l : List (String × Json)}, sortedKeys l → sortedKeys (objInsert k v l)
  | [], _ => by
      rw [show Tassapi.objInsert k v [] = [(k, v)] from rfl]
      exact List.pairwise_singleton _ _
  | (k', v') :: rest, h => by
      rw [sortedKeys, List.pairwise_cons] at h
      by_cases h1 : k < k'
      · rw [show Tassapi.objInsert k v ((k', v') :: rest) = (k, v) :: (k', v') :: rest by
          rw [Tassapi.objInsert, if_pos h1]]
        rw [sortedKeys, List.pairwise_cons]
        refine ⟨fun kv hkv => ?_, List.Pairwise.cons h.1 h.2⟩
        rcases List.mem_cons.mp hkv with he | hm
        · rw [he]; exact h1
        · exact lt_trans h1 (h.1 kv hm)
      · by_cases h2 : k' = k
        · rw [show Tassapi.objInsert k v ((k', v') :: rest) = (k, v) :: rest by
            rw [Tassapi.objInsert, if_neg h1, if_pos h2]]
          rw [sortedKeys, List.pairwise_cons]
          exact ⟨fun kv hkv => h2 ▸ h.1 kv hkv, h.2⟩
        · rw [show Tassapi.objInsert k v ((k', v') :: rest) = (k', v') :: Tassapi.objInsert k v rest by
            rw [Tassapi.objInsert, if_neg h1, if_neg h2]]
          rw [sortedKeys, List.pairwise_cons]
          refine ⟨fun kv hkv => ?_, sortedKeys.objInsert h.2⟩
          have hx : kv.1 = k ∨ kv.1 ∈ keysOf rest :=
            objInsert_keys_subset (List.mem_map.mpr ⟨kv, hkv, rfl⟩)
          rcases hx with hx | hx
          · rw [hx]
            rcases lt_trichotomy k' k with hlt | heq | hgt
            · exact hlt
            · exact absurd heq h2
            · exact absurd hgt h1
          · rcases List.mem_map.mp hx with ⟨kv', hkv', he⟩
            exact he ▸ h.1 kv' hkv'

theorem sorted_ext : ∀ {l1 l2 : List (String × Json)}, sortedKeys l1 → sortedKeys l2 →
    (∀ k, lookupKV k l1 = lookupKV k l2) → l1 = l2
  | [], [], _, _, _ => rfl
  | [], (k2, v2) :: r2, _, _, hl => by
      have := hl k2
      rw [lookupKV_cons_self] at this
      exact absurd this.symm (by simp [lookupKV])
  | (k1, v1) :: r1, [], _, _, hl => by
      have := hl k1
      rw [lookupKV_cons_self] at this
      exact absurd this (by simp [lookupKV])
  | (k1, v1) :: r1, (k2, v2) :: r2, h1, h2, hl => by
      have hmem1 : k1 ∈ keysOf ((k2, v2) :: r2) := by
        rw [← lookupKV_isSome_iff, ← hl k1, lookupKV_cons_self]
        rfl
      have hmem2 : k2 ∈ keysOf ((k1, v1) :: r1) := by
        rw [← lookupKV_isSome_iff, hl k2, lookupKV_cons_self]
        rfl
      have hle1 : k2 ≤ k1 := by
        rw [keysOf, List.map_cons] at hmem1
        rcases List.mem_cons.mp hmem1 with he | hm
        · exact le_of_eq he.symm
        · rcases List.mem_map.mp hm with ⟨kv, hkv, he⟩
          exact le_of_lt (he ▸ (List.pairwise_cons.mp h2).1 kv hkv)
      have hle2 : k1 ≤ k2 := by
        rw [keysOf, List.map_cons] at hmem2
        rcases List.mem_cons.mp hmem2 with he | hm
        · exact le_of_eq he.symm
        · rcases List.mem_map.mp hm with ⟨kv, hkv, he⟩
          exact le_of_lt (he ▸ (List.pairwise_cons.mp h1).1 kv hkv)
      have hk : k1 = k2 := le_antisymm hle2 hle1
      subst hk
      have hv : v1 = v2 := by
        have := hl k1
        rw [lookupKV_cons_self, lookupKV_cons_self] at this
        exact Option.some.inj this
      subst hv
      have htail : r1 = r2 := by
        apply sorted_ext (List.pairwise_cons.mp h1).2 (List.pairwise_cons.mp h2).2
        intro k
        by_cases he : k = k1
        · subst he
          rw [lookupKV_eq_none_iff.mpr, lookupKV_eq_none_iff.mpr]
          · intro hmem
            rcases List.mem_map.mp hmem with ⟨kv, hkv, hx⟩
            exact lt_irrefl k (hx ▸ (List.pairwise_cons.mp h2).1 kv hkv : k < k)
          · intro hmem
            rcases List.mem_map.mp hmem with ⟨kv, hkv, hx⟩
            exact lt_irrefl k (hx ▸ (List.pairwise_cons.mp h1).1 kv hkv : k < k)
        · have := hl k
          rw [show lookupKV k ((k1, v1) :: r1) = if k1 = k then some v1 else lookupKV k r1
            from rfl, if_neg (Ne.symm he)] at this
          rw [show lookupKV k ((k1, v1) :: r2) = if k1 = k then some v1 else lookupKV k r2
            from rfl, if_neg (Ne.symm he)] at this
          exact this
      rw [htail]

/-! ### Navigation lemmas for patch application -/

theorem applyOps_append (j : Json) (l1 l2 : List PatchOp) :
    applyOps j (l1 ++ l2) = applyOps j l1 >>= fun j' => applyOps j' l2 := by
  induction l1 generalizing j with
  | nil => simp [applyOps]
  | cons op ops ih =>
      rw [List.cons_append, applyOps, applyOps]
      cases applyOp j op with
      | none => simp
      | some j' => simp [ih j']

theorem getPath_append (p q : List String) :
    ∀ j : Json, j.getPath (p ++ q) = j.getPath p >>= fun s => s.getPath q := by
  induction p with
  | nil => intro j; simp [Json.getPath]
  | cons t ts ih =>
      intro j
      rw [List.cons_append, Json.getPath, Json.getPath]
      cases getChild j t with
      | none => simp
      | some w => simp [ih w]

theorem setChild_isSome {j : Json} {t : String} (v : Json)
    (h : (getChild j t).isSome) : (setChild j t v).isSome := by
  cases j with
  | obj kvs =>
      simp only [getChild] at h
      simp [setChild, h]
  | arr xs =>
      simp only [getChild] at h
      rcases Option.isSome_iff_exists.mp h with ⟨w, hw⟩
      rcases Option.bind_eq_some.mp hw with ⟨i, hi, hget⟩
      have hlt : i < xs.length := List.get?_eq_some.mp hget |>.1
      simp [setChild, hi, hlt]
  | null => simp [getChild] at h
  | bool b => simp [getChild] at h
  | num n => simp [getChild] at h
  | str s => simp [getChild] at h

theorem setKV_setKV (k : String) (v w : Json) :
    ∀ l : List (String × Json), setKV k w (setKV k v l) = setKV k w l
  | [] => rfl
  | (k', v') :: rest => by
      by_cases he : k' = k
      · simp [setKV, he]
      · simp only [setKV, if_neg he, List.cons.injEq, true_and]
        exact setKV_setKV k v w rest

theorem replacePath_isSome {v : Json} :
    ∀ {p : List String} {j s : Json}, j.getPath p = some s →
      (replacePath j p v).isSome
  | [], j, s, _ => rfl
  | t :: ts, j, s, h => by
      rw [Json.getPath] at h
      rcases Option.bind_eq_some.mp h with ⟨w, hw, hrest⟩
      have hr := replacePath_isSome (v := v) hrest
      rcases Option.isSome_iff_exists.mp hr with ⟨w', hw'⟩
      rw [replacePath, hw]
      simp only [Option.bind_eq_bind, Option.some_bind, hw', Option.some_bind]
      have hg : (getChild j t).isSome := by rw [hw]; rfl
      exact setChild_isSome _ hg

theorem getPath_setChild {j : Json} {t : String} {v j' : Json}
    (h : setChild j t v = some j') : getChild j' t = some v := by
  cases j with
  | obj kvs =>
      simp only [setChild] at h
      by_cases hs : (lookupKV t kvs).isSome
      · rw [if_pos hs] at h
        cases h
        show lookupKV t (setKV t v kvs) = some v
        exact setKV_lookup_self v hs
      · rw [if_neg hs] at h; cases h
  | arr xs =>
      simp only [setChild] at h
      rcases Option.bind_eq_some.mp h with ⟨i, hi, hset⟩
      by_cases hlt : i < xs.length
      · rw [if_pos hlt] at hset
        cases hset
        simp only [getChild, hi, Option.some_bind]
        exact List.get?_set_eq_of_lt v (by simpa using hlt)
      · rw [if_neg hlt] at hset; cases hset
  | null => simp [setChild] at h
  | bool b => simp [setChild] at h
  | num n => simp [setChild] at h
  | str s => simp [setChild] at h

theorem getPath_replacePath {v : Json} :
    ∀ {p : List String} {j j' : Json}, replacePath j p v = some j' →
      j'.getPath p = some v
  | [], j, j', h => by
      cases h; rfl
  | t :: ts, j, j', h => by
      rw [replacePath] at h
      rcases Option.bind_eq_some.mp h with ⟨w, hw, h2⟩
      rcases Option.bind_eq_some.mp h2 with ⟨w', hw', hset⟩
      rw [Json.getPath, getPath_setChild hset]
      simpa using getPath_replacePath hw'

theorem setChild_setChild {j : Json} {t : String} {v w : Json} {j' : Json}
    (h : setChild j t v = some j') : setChild j' t w = setChild j t w := by
  cases j with
  | obj kvs =>
      simp only [setChild] at h
      by_cases hs : (lookupKV t kvs).isSome
      · rw [if_pos hs] at h
        cases h
        have h1 : (lookupKV t (setKV t v kvs)).isSome := by
          rw [setKV_lookup_self v hs]; rfl
        show (if (lookupKV t (setKV t v kvs)).isSome then
            some (Json.obj (setKV t w (setKV t v kvs))) else none)
          = (if (lookupKV t kvs).isSome then some (Json.obj (setKV t w kvs)) else none)
        rw [if_pos h1, if_pos hs, setKV_setKV]
      · rw [if_neg hs] at h; cases h
  | arr xs =>
      simp only [setChild] at h
      rcases Option.bind_eq_some.mp h with ⟨i, hi, hset⟩
      by_cases hlt : i < xs.length
      · rw [if_pos hlt] at hset
        cases hset
        show (tokenToIndex t >>= fun n =>
            if n < (xs.set i v).length then some (Json.arr ((xs.set i v).set n w)) else none)
          = (tokenToIndex t >>= fun n =>
            if n < xs.length then some (Json.arr (xs.set n w)) else none)
        rw [hi, show ((some i >>= fun n =>
            if n < (xs.set i v).length then some (Json.arr ((xs.set i v).set n w)) else none)
            : Option Json)
          = if i < (xs.set i v).length then some (Json.arr ((xs.set i v).set i w)) else none
          from rfl, show ((some i >>= fun n =>
            if n < xs.length then some (Json.arr (xs.set n w)) else none) : Option Json)
          = if i < xs.length then some (Json.arr (xs.set i w)) else none from rfl,
          List.length_set, if_pos hlt, if_pos hlt, List.set_set]
      · rw [if_neg hlt] at hset; cases hset
  | null => simp [setChild] at h
  | bool b => simp [setChild] at h
  | num n => simp [setChild] at h
  | str s => simp [setChild] at h

theorem replacePath_replacePath {v w : Json} :
    ∀ {p : List String} {j j' : Json}, replacePath j p v = some j' →
      replacePath j' p w = replacePath j p w
  | [], j, j', h => by cases h; rfl
  | t :: ts, j, j', h => by
      rw [replacePath] at h
      rcases Option.bind_eq_some.mp h with ⟨x, hx, h2⟩
      rcases Option.bind_eq_some.mp h2 with ⟨x', hx', hset⟩
      rw [replacePath, replacePath, getPath_setChild (v := x') hset, hx]
      simp only [Option.bind_eq_bind, Option.some_bind]
      rw [replacePath_replacePath hx']
      cases replacePath x ts w with
      | none => simp
      | some y =>
          simp only [Option.bind_eq_bind, Option.some_bind]
          exact setChild_setChild hset

theorem replacePath_extend {s v : Json} (q : List String) :
    ∀ {p : List String} {j : Json}, j.getPath p = some s →
      replacePath j (p ++ q) v = replacePath s q v >>= fun m => replacePath j p m
  | [], j, h => by
      have hs : j = s := Option.some.inj h
      subst hs
      rw [List.nil_append]
      cases hr : replacePath j q v with
      | none => rfl
      | some m => rfl
  | t :: ts, j, h => by
      rw [Json.getPath] at h
      rcases Option.bind_eq_some.mp h with ⟨w, hw, hrest⟩
      rw [List.cons_append, replacePath, hw]
      simp only [Option.bind_eq_bind, Option.some_bind]
      rw [replacePath_extend q hrest]
      cases replacePath s q v with
      | none => simp
      | some m =>
          simp only [Option.bind_eq_bind, Option.some_bind]
          rw [replacePath, hw]
          simp

theorem removePath_extend {s : Json} {q : List String} (hq : q ≠ []) :
    ∀ {p : List String} {j : Json}, j.getPath p = some s →
      removePath j (p ++ q) = removePath s q >>= fun m => replacePath j p m
  | [], j, h => by
      have hs : j = s := Option.some.inj h
      subst hs
      rw [List.nil_append]
      cases hr : removePath j q with
      | none => rfl
      | some m => rfl
  | t :: ts, j, h => by
      rw [Json.getPath] at h
      rcases Option.bind_eq_some.mp h with ⟨w, hw, hrest⟩
      have hne : ts ++ q ≠ [] := fun hx => hq (List.append_eq_nil.mp hx).2
      rw [List.cons_append, show removePath j (t :: (ts ++ q)) =
        getChild j t >>= fun w => removePath w (ts ++ q) >>= setChild j t by
          match hts : ts ++ q with
          | [] => exact absurd hts hne
          | u :: us => rw [removePath], hw]
      simp only [Option.bind_eq_bind, Option.some_bind]
      rw [removePath_extend hq hrest]
      cases removePath s q with
      | none => simp
      | some m =>
          simp only [Option.bind_eq_bind, Option.some_bind]
          rw [replacePath, hw]
          simp

theorem addPath_extend {s v : Json} {q : List String} (hq : q ≠ []) :
    ∀ {p : List String} {j : Json}, j.getPath p = some s →
      addPath j (p ++ q) v = addPath s q v >>= fun m => replacePath j p m
  | [], j, h => by
      have hs : j = s := Option.some.inj h
      subst hs
      rw [List.nil_append]
      cases hr : addPath j q v with
      | none => rfl
      | some m => rfl
  | t :: ts, j, h => by
      rw [Json.getPath] at h
      rcases Option.bind_eq_some.mp h with ⟨w, hw, hrest⟩
      have hne : ts ++ q ≠ [] := fun hx => hq (List.append_eq_nil.mp hx).2
      rw [List.cons_append, show addPath j (t :: (ts ++ q)) v =
        getChild j t >>= fun w => addPath w (ts ++ q) v >>= setChild j t by
          match hts : ts ++ q with
          | [] => exact absurd hts hne
          | u :: us => rw [addPath], hw]
      simp only [Option.bind_eq_bind, Option.some_bind]
      rw [addPath_extend hq hrest]
      cases addPath s q v with
      | none => simp
      | some m =>
          simp only [Option.bind_eq_bind, Option.some_bind]
          rw [replacePath, hw]
          simp

theorem replacePath_self {p : List String} {j v : Json} (h : j.getPath p = some v) :
    replacePath j p v = some j := by
  induction p generalizing j with
  | nil =>
      cases h
      rfl
  | cons t ts ih =>
      rw [Json.getPath] at h
      rcases Option.bind_eq_some.mp h with ⟨w, hw, hrest⟩
      rw [replacePath, hw]
      simp only [Option.bind_eq_bind, Option.some_bind]
      rw [ih hrest]
      simp only [Option.bind_eq_bind, Option.some_bind]
      cases j with
      | obj kvs =>
          simp only [getChild] at hw
          simp only [setChild]
          rw [if_pos (by rw [hw]; rfl), setKV_self hw]
      | arr xs =>
          simp only [getChild] at hw
          rcases Option.bind_eq_some.mp hw with ⟨i, hi, hget⟩
          have hlt : i < xs.length := (List.get?_eq_some.mp hget).1
          have hxs : xs.set i w = xs := by
            apply List.ext_get?
            intro n
            by_cases hn : n = i
            · subst hn
              rw [List.get?_set_eq_of_lt w hlt]
              exact hget.symm
            · exact List.get?_set_ne w _ (fun hx => hn hx.symm)
          simp only [setChild, hi, Option.bind_eq_bind, Option.some_bind]
          rw [if_pos hlt, hxs]
      | null => simp [getChild] at hw
      | bool b => simp [getChild] at hw
      | num n => simp [getChild] at hw
      | str s => simp [getChild] at hw


/-! ### Unfolding the four operation kinds -/

theorem applyOp_test {doc : Json} {sp : String} {p : List String}
    (hs : parsePointer sp = some p) (v : Json) :
    applyOp doc (testOp sp v) =
      if doc.getPath p = some v then some doc else none := by
  simp [applyOp, testOp, hs]

theorem applyOp_remove {doc : Json} {sp : String} {p : List String}
    (hs : parsePointer sp = some p) :
    applyOp doc (removeOp sp) = removePath doc p := by
  simp [applyOp, removeOp, hs]

theorem applyOp_add {doc : Json} {sp : String} {p : List String}
    (hs : parsePointer sp = some p) (v : Json) :
    applyOp doc (addOp sp v) = addPath doc p v := by
  simp [applyOp, addOp, hs]

theorem applyOp_replace {doc : Json} {sp : String} {p : List String}
    (hs : parsePointer sp = some p) (v : Json) :
    applyOp doc (replaceOp sp v) = replacePath doc p v := by
  simp [applyOp, replaceOp, hs]

/-! ### Fold characterisations for the three object stages -/

theorem foldl_objRemove_sorted :
    ∀ (rl : List (String × Json)) {cur : List (String × Json)}, sortedKeys cur →
      sortedKeys (rl.foldl (fun c kv => objRemove kv.1 c) cur)
  | [], _, h => h
  | kv :: rest, cur, h => foldl_objRemove_sorted rest (h.objRemove kv.1)

theorem foldl_objRemove_lookup :
    ∀ (rl : List (String × Json)) {cur : List (String × Json)} (k : String),
      (keysOf cur).Nodup →
      lookupKV k (rl.foldl (fun c kv => objRemove kv.1 c) cur) =
        if k ∈ keysOf rl then none else lookupKV k cur
  | [], cur, k, _ => by simp [keysOf]
  | kv :: rest, cur, k, nodup => by
      rw [List.foldl_cons]
      have nodup' : (keysOf (objRemove kv.1 cur)).Nodup :=
        List.Nodup.sublist (objRemove_keys_sublist kv.1 cur) nodup
      rw [foldl_objRemove_lookup rest k nodup']
      by_cases hmem : k ∈ keysOf rest
      · rw [if_pos hmem, if_pos (by
          rw [keysOf, List.map_cons]
          exact List.mem_cons_of_mem _ hmem)]
      · rw [if_neg hmem]
        by_cases hk : k = kv.1
        · subst hk
          rw [objRemove_lookup_self nodup, if_pos (by
            rw [keysOf, List.map_cons]
            exact List.mem_cons_self _ _)]
        · rw [objRemove_lookup_ne (Ne.symm (fun hx => hk hx.symm)) nodup, if_neg (by
            rw [keysOf, List.map_cons]
            intro hx
            rcases List.mem_cons.mp hx with hx | hx
            · exact hk hx
            · exact hmem hx)]

theorem foldl_objInsert_sorted :
    ∀ (al : List (String × Json)) {cur : List (String × Json)}, sortedKeys cur →
      sortedKeys (al.foldl (fun c kv => objInsert kv.1 kv.2 c) cur)
  | [], _, h => h
  | kv :: rest, cur, h => foldl_objInsert_sorted rest h.objInsert

theorem foldl_objInsert_lookup :
    ∀ (al : List (String × Json)) {cur : List (String × Json)} (k : String),
      (keysOf al).Nodup →
      lookupKV k (al.foldl (fun c kv => objInsert kv.1 kv.2 c) cur) =
        match lookupKV k al with
        | some w => some w
        | none => lookupKV k cur
  | [], cur, k, _ => by simp [lookupKV]
  | (k0, w0) :: rest, cur, k, nodup => by
      rw [keysOf, List.map_cons, List.nodup_cons] at nodup
      rw [List.foldl_cons, foldl_objInsert_lookup rest k nodup.2]
      by_cases hk : k0 = k
      · subst hk
        have hnone : lookupKV k0 rest = none := lookupKV_eq_none_iff.mpr nodup.1
        rw [hnone, lookupKV_cons_self, objInsert_lookup_self]
      · rw [show lookupKV k ((k0, w0) :: rest) =
          if k0 = k then some w0 else lookupKV k rest from rfl, if_neg hk]
        cases lookupKV k rest with
        | some w => rfl
        | none => rw [objInsert_lookup_ne w0 (fun hx => hk hx.symm)]

/-- The third diff stage: walk `cl` in order and, for each key that also
occurs in `bkvs`, overwrite its value in the accumulator with the `bkvs`
value (mirroring what the recursive common-key diffs achieve). -/
def commonResult (bkvs : List (String × Json)) (cl cur : List (String × Json)) :
    List (String × Json) :=
  cl.foldl (fun c kv =>
    match lookupKV kv.1 bkvs with
    | some w => setKV kv.1 w c
    | none => c) cur

theorem commonResult_keys (bkvs : List (String × Json)) :
    ∀ (cl : List (String × Json)) (cur : List (String × Json)),
      keysOf (commonResult bkvs cl cur) = keysOf cur
  | [], cur => rfl
  | kv :: rest, cur => by
      rw [commonResult, List.foldl_cons]
      cases lookupKV kv.1 bkvs with
      | some w =>
          show keysOf (commonResult bkvs rest (setKV kv.1 w cur)) = _
          rw [commonResult_keys bkvs rest, setKV_keys]
      | none => exact commonResult_keys bkvs rest cur

theorem commonResult_lookup (bkvs : List (String × Json)) :
    ∀ (cl : List (String × Json)) {cur : List (String × Json)} (k : String),
      (keysOf cl).Nodup →
      (∀ kv ∈ cl, (lookupKV kv.1 bkvs).isSome = true →
        (lookupKV kv.1 cur).isSome = true) →
      lookupKV k (commonResult bkvs cl cur) =
        if k ∈ keysOf cl ∧ (lookupKV k bkvs).isSome = true then lookupKV k bkvs
        else lookupKV k cur
  | [], cur, k, _, _ => by simp [commonResult, keysOf]
  | (k0, v0) :: rest, cur, k, nodup, hcur => by
      rw [keysOf, List.map_cons, List.nodup_cons] at nodup
      rw [commonResult, List.foldl_cons]
      cases hb : lookupKV k0 bkvs with
      | some w =>
          have hcur' : ∀ kv ∈ rest, (lookupKV kv.1 bkvs).isSome = true →
              (lookupKV kv.1 (setKV k0 w cur)).isSome = true := by
            intro kv hkv hbs
            have hne : kv.1 ≠ k0 := by
              intro hx
              exact nodup.1 (hx ▸ List.mem_map.mpr ⟨kv, hkv, rfl⟩)
            rw [setKV_lookup_ne w hne]
            exact hcur kv (List.mem_cons_of_mem _ hkv) hbs
          show lookupKV k (commonResult bkvs rest (setKV k0 w cur)) =
            if k ∈ keysOf ((k0, v0) :: rest) ∧ (lookupKV k bkvs).isSome = true
            then lookupKV k bkvs else lookupKV k cur
          rw [commonResult_lookup bkvs rest k nodup.2 hcur']
          by_cases hmem : k ∈ keysOf rest ∧ (lookupKV k bkvs).isSome = true
          · rw [if_pos hmem, if_pos ⟨by
              rw [keysOf, List.map_cons]
              exact List.mem_cons_of_mem _ hmem.1, hmem.2⟩]
          · rw [if_neg hmem]
            by_cases hk : k = k0
            · subst hk
              have hks : (lookupKV k cur).isSome = true :=
                hcur (k, v0) (List.mem_cons_self _ _) (by rw [hb]; rfl)
              rw [setKV_lookup_self w hks, if_pos ⟨by
                rw [keysOf, List.map_cons]
                exact List.mem_cons_self _ _, by rw [hb]; rfl⟩, hb]
            · rw [setKV_lookup_ne w hk, if_neg (by
                rintro ⟨hmem2, hbs⟩
                rw [keysOf, List.map_cons] at hmem2
                rcases List.mem_cons.mp hmem2 with hx | hx
                · exact hk hx
                · exact hmem ⟨hx, hbs⟩)]
      | none =>
          show lookupKV k (commonResult bkvs rest cur) =
            if k ∈ keysOf ((k0, v0) :: rest) ∧ (lookupKV k bkvs).isSome = true
            then lookupKV k bkvs else lookupKV k cur
          rw [commonResult_lookup bkvs rest k nodup.2
            (fun kv hkv => hcur kv (List.mem_cons_of_mem _ hkv))]
          by_cases hmem : k ∈ keysOf rest ∧ (lookupKV k bkvs).isSome = true
          · rw [if_pos hmem, if_pos ⟨by
              rw [keysOf, List.map_cons]
              exact List.mem_cons_of_mem _ hmem.1, hmem.2⟩]
          · rw [if_neg hmem]
            by_cases hk : k = k0
            · subst hk
              rw [if_neg (by
                rintro ⟨_, hbs⟩
                rw [hb] at hbs
                exact Bool.false_ne_true hbs)]
            · rw [if_neg (by
                rintro ⟨hmem2, hbs⟩
                rw [keysOf, List.map_cons] at hmem2
                rcases List.mem_cons.mp hmem2 with hx | hx
                · exact hk hx
                · exact hmem ⟨hx, hbs⟩)]

/-! ### Applying the three op groups emitted for an object pair -/

/-- A `test`-then-`replace` pair at the current path rewrites the value at
that path (the scalar / array / type-mismatch case of `_json_diff`). -/
theorem testReplaceApply {doc a b : Json} {p : List String}
    (hget : doc.getPath p = some a) :
    applyOps doc [testOp (renderPath p) a, replaceOp (renderPath p) b] =
      replacePath doc p b := by
  rw [applyOps, applyOp_test (parse_renderPath p) a, if_pos hget]
  simp only [Option.bind_eq_bind, Option.some_bind]
  rw [applyOps, applyOp_replace (parse_renderPath p) b]
  cases replacePath doc p b with
  | none => rfl
  | some d => rfl

theorem remSeqApply :
    ∀ (rl : List (String × Json)) {cur : List (String × Json)} {doc : Json}
      {p : List String},
      (keysOf rl).Nodup →
      sortedKeys cur →
      (∀ kv ∈ rl, lookupKV kv.1 cur = some kv.2) →
      doc.getPath p = some (.obj cur) →
      applyOps doc (rl.flatMap fun kv =>
        [testOp (joinPath (renderPath p) kv.1) kv.2,
         removeOp (joinPath (renderPath p) kv.1)]) =
      replacePath doc p (.obj (rl.foldl (fun c kv => objRemove kv.1 c) cur))
  | [], cur, doc, p, _, _, _, hget => by
      rw [List.flatMap_nil, List.foldl_nil]
      exact (replacePath_self hget).symm ▸ rfl
  | (k, v) :: rest, cur, doc, p, nodup, hsort, hlook, hget => by
      rw [keysOf, List.map_cons, List.nodup_cons] at nodup
      have hs : parsePointer (joinPath (renderPath p) k) = some (p ++ [k]) := by
        rw [← renderPath_append_single, parse_renderPath]
      have hlk : lookupKV k cur = some v := hlook (k, v) (List.mem_cons_self _ _)
      have hgetk : doc.getPath (p ++ [k]) = some v := by
        rw [getPath_append, hget]
        simp only [Option.bind_eq_bind, Option.some_bind]
        have hgc : getChild (Json.obj cur) k = some v := hlk
        rw [Json.getPath, hgc]
        rfl
      rw [List.flatMap_cons, List.cons_append, List.cons_append, List.nil_append,
        applyOps, applyOp_test hs v, if_pos hgetk]
      simp only [Option.bind_eq_bind, Option.some_bind]
      rw [applyOps, applyOp_remove hs,
        removePath_extend (by simp : ([k] : List String) ≠ []) hget]
      have hrm : removePath (Json.obj cur) [k] = some (Json.obj (objRemove k cur)) := by
        simp [removePath, hlk]
      rw [hrm]
      simp only [Option.bind_eq_bind, Option.some_bind]
      rcases Option.isSome_iff_exists.mp
        (replacePath_isSome (v := Json.obj (objRemove k cur)) hget) with ⟨doc1, hdoc1⟩
      rw [hdoc1]
      simp only [Option.bind_eq_bind, Option.some_bind]
      have hget1 : doc1.getPath p = some (.obj (objRemove k cur)) :=
        getPath_replacePath hdoc1
      have hlook' : ∀ kv ∈ rest, lookupKV kv.1 (objRemove k cur) = some kv.2 := by
        intro kv hkv
        have hne : kv.1 ≠ k := by
          intro hx
          exact nodup.1 (hx ▸ List.mem_map.mpr ⟨kv, hkv, rfl⟩)
        rw [objRemove_lookup_ne hne hsort.nodupKeys]
        exact hlook kv (List.mem_cons_of_mem _ hkv)
      rw [List.foldl_cons,
        remSeqApply rest nodup.2 (hsort.objRemove k) hlook' hget1,
        replacePath_replacePath hdoc1]

theorem addSeqApply :
    ∀ (al : List (String × Json)) {cur : List (String × Json)} {doc : Json}
      {p : List String},
      doc.getPath p = some (.obj cur) →
      applyOps doc (al.map fun kv =>
        addOp (joinPath (renderPath p) kv.1) kv.2) =
      replacePath doc p (.obj (al.foldl (fun c kv => objInsert kv.1 kv.2 c) cur))
  | [], cur, doc, p, hget => by
      rw [List.map_nil, List.foldl_nil]
      exact (replacePath_self hget).symm ▸ rfl
  | (k, v) :: rest, cur, doc, p, hget => by
      have hs : parsePointer (joinPath (renderPath p) k) = some (p ++ [k]) := by
        rw [← renderPath_append_single, parse_renderPath]
      rw [List.map_cons, applyOps, applyOp_add hs v,
        addPath_extend (by simp : ([k] : List String) ≠ []) hget]
      have hadd : addPath (Json.obj cur) [k] v = some (Json.obj (objInsert k v cur)) := by
        simp [addPath]
      rw [hadd]
      simp only [Option.bind_eq_bind, Option.some_bind]
      rcases Option.isSome_iff_exists.mp
        (replacePath_isSome (v := Json.obj (objInsert k v cur)) hget) with ⟨doc1, hdoc1⟩
      rw [hdoc1]
      simp only [Option.bind_eq_bind, Option.some_bind]
      have hget1 : doc1.getPath p = some (.obj (objInsert k v cur)) :=
        getPath_replacePath hdoc1
      rw [List.foldl_cons, addSeqApply rest hget1, replacePath_replacePath hdoc1]

/-! ### The round-trip theorem -/

theorem WFb_obj_sorted {kvs : List (String × Json)}
    (h : (Json.obj kvs).WFb = true) : sortedKeys kvs := by
  rw [Json.WFb, Bool.and_eq_true] at h
  exact Json.sortedb_iff.mp h.1

theorem WFb_obj_entries {kvs : List (String × Json)}
    (h : (Json.obj kvs).WFb = true) : Json.WFbObj kvs = true := by
  rw [Json.WFb, Bool.and_eq_true] at h
  exact h.2

theorem WFbObj_mem : ∀ {l : List (String × Json)} {k : String} {v : Json},
    Json.WFbObj l = true → (k, v) ∈ l → v.WFb = true
  | (k', v') :: rest, k, v, h, hm => by
      rw [Json.WFbObj, Bool.and_eq_true] at h
      rcases List.mem_cons.mp hm with he | hm
      · cases he
        exact h.1
      · exact WFbObj_mem h.2 hm

/-- Unfolding: equal values diff to no operations. -/
theorem jsonDiff_self (a : Json) (path : String) : jsonDiff a a path = [] := by
  rw [jsonDiff.eq_def, if_pos rfl]

/-- Unfolding: the object/object arm of `_json_diff`. -/
theorem jsonDiff_obj {akvs bkvs : List (String × Json)} (path : String)
    (hab : Json.obj akvs ≠ Json.obj bkvs) :
    jsonDiff (Json.obj akvs) (Json.obj bkvs) path =
      ((akvs.filter fun kv => (lookupKV kv.1 bkvs).isNone).flatMap fun kv =>
          [testOp (joinPath path kv.1) kv.2, removeOp (joinPath path kv.1)]) ++
        (((bkvs.filter fun kv => (lookupKV kv.1 akvs).isNone).map fun kv =>
            addOp (joinPath path kv.1) kv.2) ++
          diffCommon akvs bkvs path) := by
  rw [jsonDiff.eq_def, if_neg hab]
  split
  all_goals simp_all

/-- Unfolding: every arm other than object/object emits a test/replace
pair for the whole current value. -/
theorem jsonDiff_testReplace {a b : Json} (path : String) (hab : a ≠ b)
    (hno : ∀ akvs bkvs, a = Json.obj akvs → b = Json.obj bkvs → False) :
    jsonDiff a b path = [testOp path a, replaceOp path b] := by
  rw [jsonDiff.eq_def, if_neg hab]
  split
  · next akvs bkvs => exact (hno akvs bkvs rfl rfl).elim
  · rfl
  · rfl

/-- Unfolding: the common-key walk, empty case. -/
theorem diffCommon_nil (bkvs : List (String × Json)) (path : String) :
    diffCommon [] bkvs path = [] := by
  rw [diffCommon.eq_def]

/-- Unfolding: the common-key walk, cons case. -/
theorem diffCommon_cons (k : String) (v : Json)
    (rest bkvs : List (String × Json)) (path : String) :
    diffCommon ((k, v) :: rest) bkvs path =
      (match lookupKV k bkvs with
       | some w => jsonDiff v w (joinPath path k)
       | none => []) ++ diffCommon rest bkvs path := by
  rw [diffCommon.eq_def]

mutual

/-- Main induction: applying the diff generated for the value pair
`(a, b)` at pointer `p` to any document holding `a` at `p` replaces that
occurrence by `b`. -/
theorem diffApply (a b : Json) (hWa : a.WFb = true) (hWb : b.WFb = true) :
    ∀ {doc : Json} {p : List String}, doc.getPath p = some a →
      applyOps doc (jsonDiff a b (renderPath p)) = replacePath doc p b := by
  intro doc p hget
  by_cases hab : a = b
  · subst hab
    rw [jsonDiff_self]
    exact (replacePath_self hget).symm
  · cases a with
    | null =>
        rw [jsonDiff_testReplace _ hab (fun _ _ h1 _ => Json.noConfusion h1)]
        exact testReplaceApply hget
    | bool ab =>
        rw [jsonDiff_testReplace _ hab (fun _ _ h1 _ => Json.noConfusion h1)]
        exact testReplaceApply hget
    | num an =>
        rw [jsonDiff_testReplace _ hab (fun _ _ h1 _ => Json.noConfusion h1)]
        exact testReplaceApply hget
    | str as =>
        rw [jsonDiff_testReplace _ hab (fun _ _ h1 _ => Json.noConfusion h1)]
        exact testReplaceApply hget
    | arr aarr =>
        rw [jsonDiff_testReplace _ hab (fun _ _ h1 _ => Json.noConfusion h1)]
        exact testReplaceApply hget
    | obj akvs =>
      cases b with
      | null =>
          rw [jsonDiff_testReplace _ hab (fun _ _ _ h2 => Json.noConfusion h2)]
          exact testReplaceApply hget
      | bool bb =>
          rw [jsonDiff_testReplace _ hab (fun _ _ _ h2 => Json.noConfusion h2)]
          exact testReplaceApply hget
      | num bn =>
          rw [jsonDiff_testReplace _ hab (fun _ _ _ h2 => Json.noConfusion h2)]
          exact testReplaceApply hget
      | str bs =>
          rw [jsonDiff_testReplace _ hab (fun _ _ _ h2 => Json.noConfusion h2)]
          exact testReplaceApply hget
      | arr barr =>
          rw [jsonDiff_testReplace _ hab (fun _ _ _ h2 => Json.noConfusion h2)]
          exact testReplaceApply hget
      | obj bkvs =>
      rw [jsonDiff_obj _ hab]
      have sa : sortedKeys akvs := WFb_obj_sorted hWa
      have wa : Json.WFbObj akvs = true := WFb_obj_entries hWa
      have sb : sortedKeys bkvs := WFb_obj_sorted hWb
      have wb : Json.WFbObj bkvs = true := WFb_obj_entries hWb
      have na : (keysOf akvs).Nodup := sa.nodupKeys
      have nb : (keysOf bkvs).Nodup := sb.nodupKeys
      have hnodup_rl : (keysOf (akvs.filter fun kv => (lookupKV kv.1 bkvs).isNone)).Nodup :=
        List.Nodup.sublist (List.Sublist.map Prod.fst (List.filter_sublist _)) na
      have hnodup_al : (keysOf (bkvs.filter fun kv => (lookupKV kv.1 akvs).isNone)).Nodup :=
        List.Nodup.sublist (List.Sublist.map Prod.fst (List.filter_sublist _)) nb
      have hlook_rl : ∀ kv ∈ (akvs.filter fun kv => (lookupKV kv.1 bkvs).isNone),
          lookupKV kv.1 akvs = some kv.2 :=
        fun kv hkv => lookupKV_mem na (List.mem_of_mem_filter hkv)
      have hrlkeys : ∀ k, k ∈ keysOf (akvs.filter fun kv => (lookupKV kv.1 bkvs).isNone) ↔
          k ∈ keysOf akvs ∧ lookupKV k bkvs = none := by
        intro k
        constructor
        · intro hk
          rcases List.mem_map.mp hk with ⟨kv, hkv, rfl⟩
          refine ⟨List.mem_map.mpr ⟨kv, List.mem_of_mem_filter hkv, rfl⟩, ?_⟩
          exact Option.isNone_iff_eq_none.mp (by simpa using List.of_mem_filter hkv)
        · rintro ⟨hka, hkb⟩
          rcases List.mem_map.mp hka with ⟨kv, hkv, rfl⟩
          exact List.mem_map.mpr ⟨kv, List.mem_filter.mpr ⟨hkv, by rw [hkb]; rfl⟩, rfl⟩
      -- stage 1: removals
      have h1 := remSeqApply (akvs.filter fun kv => (lookupKV kv.1 bkvs).isNone)
        hnodup_rl sa hlook_rl hget
      rcases Option.isSome_iff_exists.mp (replacePath_isSome
        (v := Json.obj ((akvs.filter fun kv => (lookupKV kv.1 bkvs).isNone).foldl
          (fun c kv => objRemove kv.1 c) akvs)) hget) with ⟨doc1, hdoc1⟩
      have hget1 := getPath_replacePath hdoc1
      -- stage 2: additions
      have h2 := addSeqApply (bkvs.filter fun kv => (lookupKV kv.1 akvs).isNone) hget1
      rcases Option.isSome_iff_exists.mp (replacePath_isSome
        (v := Json.obj ((bkvs.filter fun kv => (lookupKV kv.1 akvs).isNone).foldl
          (fun c kv => objInsert kv.1 kv.2 c)
          ((akvs.filter fun kv => (lookupKV kv.1 bkvs).isNone).foldl
            (fun c kv => objRemove kv.1 c) akvs))) hget1) with ⟨doc2, hdoc2⟩
      have hget2 := getPath_replacePath hdoc2
      -- lookups in the stage-2 accumulator
      have hcur1 : ∀ k, lookupKV k ((akvs.filter fun kv => (lookupKV kv.1 bkvs).isNone).foldl
          (fun c kv => objRemove kv.1 c) akvs) =
          if k ∈ keysOf (akvs.filter fun kv => (lookupKV kv.1 bkvs).isNone) then none
          else lookupKV k akvs :=
        fun k => foldl_objRemove_lookup _ k na
      have hcur2 : ∀ k, lookupKV k ((bkvs.filter fun kv => (lookupKV kv.1 akvs).isNone).foldl
          (fun c kv => objInsert kv.1 kv.2 c)
          ((akvs.filter fun kv => (lookupKV kv.1 bkvs).isNone).foldl
            (fun c kv => objRemove kv.1 c) akvs)) =
          match lookupKV k (bkvs.filter fun kv => (lookupKV kv.1 akvs).isNone) with
          | some w => some w
          | none => lookupKV k ((akvs.filter fun kv => (lookupKV kv.1 bkvs).isNone).foldl
              (fun c kv => objRemove kv.1 c) akvs) :=
        fun k => foldl_objInsert_lookup _ k hnodup_al
      have hALnone : ∀ k, k ∈ keysOf akvs →
          lookupKV k (bkvs.filter fun kv => (lookupKV kv.1 akvs).isNone) = none := by
        intro k hka
        rw [lookupKV_eq_none_iff]
        intro hkal
        rcases List.mem_map.mp hkal with ⟨kv, hkv, rfl⟩
        have := List.of_mem_filter hkv
        rw [Option.isNone_iff_eq_none, lookupKV_eq_none_iff] at this
        · exact this hka
      have hlook2 : ∀ kv ∈ akvs, (lookupKV kv.1 bkvs).isSome = true →
          lookupKV kv.1 ((bkvs.filter fun kv => (lookupKV kv.1 akvs).isNone).foldl
            (fun c kv => objInsert kv.1 kv.2 c)
            ((akvs.filter fun kv => (lookupKV kv.1 bkvs).isNone).foldl
              (fun c kv => objRemove kv.1 c) akvs)) = some kv.2 := by
        intro kv hkv hbs
        rw [hcur2, hALnone kv.1 (List.mem_map.mpr ⟨kv, hkv, rfl⟩), hcur1,
          if_neg (fun hx => by
            rw [(hrlkeys kv.1).1 hx |>.2] at hbs
            exact Bool.false_ne_true hbs)]
        exact lookupKV_mem na hkv
      -- stage 3: common keys
      have h3 := diffCommonApply akvs bkvs wa wb na hlook2 hget2
      -- assemble
      rw [applyOps_append, h1, hdoc1]
      simp only [Option.bind_eq_bind, Option.some_bind]
      rw [applyOps_append, h2, hdoc2]
      simp only [Option.bind_eq_bind, Option.some_bind]
      rw [h3, replacePath_replacePath hdoc2, replacePath_replacePath hdoc1]
      -- the final accumulator is exactly bkvs
      have hfinal : commonResult bkvs akvs
          ((bkvs.filter fun kv => (lookupKV kv.1 akvs).isNone).foldl
            (fun c kv => objInsert kv.1 kv.2 c)
            ((akvs.filter fun kv => (lookupKV kv.1 bkvs).isNone).foldl
              (fun c kv => objRemove kv.1 c) akvs)) = bkvs := by
        apply sorted_ext _ sb
        · intro k
          rw [commonResult_lookup bkvs akvs k na
            (fun kv hkv hbs => by rw [hlook2 kv hkv hbs]; rfl)]
          by_cases hpos : k ∈ keysOf akvs ∧ (lookupKV k bkvs).isSome = true
          · rw [if_pos hpos]
          · rw [if_neg hpos, hcur2]
            cases hal : lookupKV k (bkvs.filter fun kv => (lookupKV kv.1 akvs).isNone) with
            | some w =>
                have hmem : (k, w) ∈ bkvs := List.mem_of_mem_filter (lookupKV_some_mem hal)
                rw [lookupKV_mem nb hmem]
            | none =>
                rw [hcur1]
                by_cases hin : k ∈ keysOf (akvs.filter fun kv => (lookupKV kv.1 bkvs).isNone)
                · rw [if_pos hin, ((hrlkeys k).1 hin).2]
                · rw [if_neg hin]
                  by_cases hka : k ∈ keysOf akvs
                  · cases hbk : lookupKV k bkvs with
                    | some w => exact absurd ⟨hka, by rw [hbk]; rfl⟩ hpos
                    | none => exact absurd ((hrlkeys k).2 ⟨hka, hbk⟩) hin
                  · rw [lookupKV_eq_none_iff.mpr hka]
                    cases hbk : lookupKV k bkvs with
                    | some w =>
                        have hmem : (k, w) ∈ (bkvs.filter fun kv =>
                            (lookupKV kv.1 akvs).isNone) :=
                          List.mem_filter.mpr ⟨lookupKV_some_mem hbk, by
                            rw [Option.isNone_iff_eq_none, lookupKV_eq_none_iff]
                            exact hka⟩
                        rw [lookupKV_mem hnodup_al hmem] at hal
                        cases hal
                    | none => rfl
        · apply sortedKeys_congr (commonResult_keys bkvs akvs _).symm
          exact foldl_objInsert_sorted _ (foldl_objRemove_sorted _ sa)
      rw [hfinal]
termination_by sizeOf a

/-- The common-key recursion: each key of `cl` also present in `bkvs` has
its value rewritten (in the subtree at `p`) to the `bkvs` value. -/
theorem diffCommonApply (cl bkvs : List (String × Json))
    (hWcl : Json.WFbObj cl = true) (hWb : Json.WFbObj bkvs = true) :
    ∀ {cur : List (String × Json)} {doc : Json} {p : List String},
      (keysOf cl).Nodup →
      (∀ kv ∈ cl, (lookupKV kv.1 bkvs).isSome = true →
        lookupKV kv.1 cur = some kv.2) →
      doc.getPath p = some (.obj cur) →
      applyOps doc (diffCommon cl bkvs (renderPath p)) =
        replacePath doc p (.obj (commonResult bkvs cl cur)) := by
  intro cur doc p hnodup hlook hget
  match cl, hWcl, hnodup, hlook with
  | [], _, _, _ =>
      rw [diffCommon_nil, commonResult, List.foldl_nil]
      exact (replacePath_self hget).symm
  | (k, v) :: rest, hWcl, hnodup, hlook =>
      rw [keysOf, List.map_cons, List.nodup_cons] at hnodup
      rw [Json.WFbObj, Bool.and_eq_true] at hWcl
      rw [diffCommon_cons]
      cases hbk : lookupKV k bkvs with
      | none =>
          rw [List.nil_append]
          have hres : commonResult bkvs ((k, v) :: rest) cur =
              commonResult bkvs rest cur := by
            rw [commonResult, List.foldl_cons, hbk]
            rfl
          rw [hres]
          exact diffCommonApply rest bkvs hWcl.2 hWb hnodup.2
            (fun kv hkv => hlook kv (List.mem_cons_of_mem _ hkv)) hget
      | some w =>
          have hlk : lookupKV k cur = some v :=
            hlook (k, v) (List.mem_cons_self _ _) (by rw [hbk]; rfl)
          have hgetk : doc.getPath (p ++ [k]) = some v := by
            rw [getPath_append, hget]
            simp only [Option.bind_eq_bind, Option.some_bind]
            have hgc : getChild (Json.obj cur) k = some v := hlk
            rw [Json.getPath, hgc]
            rfl
          rw [applyOps_append, ← renderPath_append_single,
            diffApply v w hWcl.1 (WFbObj_mem hWb (lookupKV_some_mem hbk)) hgetk,
            replacePath_extend [k] hget]
          have hrepl : replacePath (Json.obj cur) [k] w =
              some (Json.obj (setKV k w cur)) := by
            rw [replacePath]
            have hgc : getChild (Json.obj cur) k = some v := hlk
            rw [hgc]
            simp only [Option.bind_eq_bind, Option.some_bind]
            show (some w >>= setChild (Json.obj cur) k) = _
            simp only [Option.bind_eq_bind, Option.some_bind]
            show (if (lookupKV k cur).isSome = true then
              some (Json.obj (setKV k w cur)) else none) = _
            rw [if_pos (by rw [hlk]; rfl)]
          rw [hrepl]
          simp only [Option.bind_eq_bind, Option.some_bind]
          rcases Option.isSome_iff_exists.mp (replacePath_isSome
            (v := Json.obj (setKV k w cur)) hget) with ⟨doc1, hdoc1⟩
          rw [hdoc1]
          simp only [Option.bind_eq_bind, Option.some_bind]
          have hget1 : doc1.getPath p = some (.obj (setKV k w cur)) :=
            getPath_replacePath hdoc1
          have hlook' : ∀ kv ∈ rest, (lookupKV kv.1 bkvs).isSome = true →
              lookupKV kv.1 (setKV k w cur) = some kv.2 := by
            intro kv hkv hbs
            have hne : kv.1 ≠ k := by
              intro hx
              exact hnodup.1 (hx ▸ List.mem_map.mpr ⟨kv, hkv, rfl⟩)
            rw [setKV_lookup_ne w hne]
            exact hlook kv (List.mem_cons_of_mem _ hkv) hbs
          rw [diffCommonApply rest bkvs hWcl.2 hWb hnodup.2 hlook' hget1,
            replacePath_replacePath hdoc1]
          have hres : commonResult bkvs ((k, v) :: rest) cur =
              commonResult bkvs rest (setKV k w cur) := by
            rw [commonResult, List.foldl_cons, hbk]
            rfl
          rw [hres]
termination_by sizeOf cl

end

/-! ## `PatchableDict` (`src/tassapi/utils/models.py`)

A `PatchableDict` is a dict subclass holding a snapshot of its own content
(a deep copy taken at construction); `as_json_patch` diffs the snapshot
against the live content, and only `update_snapshot` moves the baseline.
In the functional model a deep copy is simply the value itself. -/

structure PatchableDict where
  snapshot : List (String × Json)
  entries : List (String × Json)

/-- `__init__`: the snapshot is a deep copy of the freshly built content. -/
def PatchableDict.init (entries : List (String × Json)) : PatchableDict :=
  ⟨entries, entries⟩

/-- `update_snapshot`: copy the current content into the snapshot. -/
def PatchableDict.update_snapshot (d : PatchableDict) : PatchableDict :=
  ⟨d.entries, d.entries⟩

/-- `as_json_patch`: diff the snapshot against the live content. -/
def PatchableDict.as_json_patch (d : PatchableDict) (path : String) : List PatchOp :=
  jsonDiff (.obj d.snapshot) (.obj d.entries) path

/-- C2: for every `PatchableDict` with snapshot `S` and current content
`M` (canonical JSON objects), applying the ordered operation sequence of
`as_json_patch()` to `S` under RFC 6902 semantics transforms `S` into
exactly `M`; in particular every `test` operation succeeds against the
document state it meets, i.e. asserts a value actually present. -/
theorem C2_patch_roundtrip (d : PatchableDict)
    (hS : (Json.obj d.snapshot).WFb = true) (hM : (Json.obj d.entries).WFb = true) :
    applyOps (Json.obj d.snapshot) (d.as_json_patch "") = some (Json.obj d.entries) := by
  have h := @diffApply (Json.obj d.snapshot) (Json.obj d.entries) hS hM
    (Json.obj d.snapshot) [] rfl
  rw [show renderPath [] = "" from rfl] at h
  rw [PatchableDict.as_json_patch, h]
  rfl

/-- Witness for C2 at a concrete dictionary: snapshot
`{"a": 1, "b": {"x": "old", "y": 2}, "c": [1, 2]}` mutated to
`{"b": {"x": "new", "y": 2}, "c": [1], "d": null}`. -/
theorem C2_patch_roundtrip_witness :
    (Json.obj [("a", Json.num 1),
      ("b", Json.obj [("x", Json.str "old"), ("y", Json.num 2)]),
      ("c", Json.arr [Json.num 1, Json.num 2])]).WFb = true ∧
    (Json.obj [("b", Json.obj [("x", Json.str "new"), ("y", Json.num 2)]),
      ("c", Json.arr [Json.num 1]), ("d", Json.null)]).WFb = true ∧
    applyOps
      (Json.obj [("a", Json.num 1),
        ("b", Json.obj [("x", Json.str "old"), ("y", Json.num 2)]),
        ("c", Json.arr [Json.num 1, Json.num 2])])
      ((PatchableDict.mk
        [("a", Json.num 1),
         ("b", Json.obj [("x", Json.str "old"), ("y", Json.num 2)]),
         ("c", Json.arr [Json.num 1, Json.num 2])]
        [("b", Json.obj [("x", Json.str "new"), ("y", Json.num 2)]),
         ("c", Json.arr [Json.num 1]), ("d", Json.null)]).as_json_patch "") =
      some (Json.obj [("b", Json.obj [("x", Json.str "new"), ("y", Json.num 2)]),
        ("c", Json.arr [Json.num 1]), ("d", Json.null)]) := by
  have hS : (Json.obj [("a", Json.num 1),
      ("b", Json.obj [("x", Json.str "old"), ("y", Json.num 2)]),
      ("c", Json.arr [Json.num 1, Json.num 2])]).WFb = true := by
    simp [Json.WFb, Json.WFbObj, Json.WFbList, Json.sortedb]
    decide
  have hM : (Json.obj [("b", Json.obj [("x", Json.str "new"), ("y", Json.num 2)]),
      ("c", Json.arr [Json.num 1]), ("d", Json.null)]).WFb = true := by
    simp [Json.WFb, Json.WFbObj, Json.WFbList, Json.sortedb]
    decide
  exact ⟨hS, hM, C2_patch_roundtrip ⟨_, _⟩ hS hM⟩

/-! ## Precision-preserving datetime codec (`src/utils/datetime_utils.py`)

CPython's `strptime` matches each directive with a regex from
`Lib/_strptime.py` (`%Y` exactly four digits; `%m` `1[0-2]|0[1-9]|[1-9]`;
`%d` `3[01]|[12]\d|0[1-9]|[1-9]`; `%H` `2[0-3]|[0-1]\d|\d`;
`%M` `[0-5]\d|\d`; `%S` `6[0-1]|[0-5]\d|\d`; `%f` `[0-9]{1,6}`) joined with
the literal characters, anchored on both ends, and then validates the
date by constructing a `datetime` (raising `ValueError` for such things as
February 30 or second 61).  The matcher below realises exactly that:
each directive yields its regex alternatives in order, and the format is
matched with backtracking, as a regex engine would. -/

/-- Python exceptions distinguished by the codec paths. -/
inductive PyExc where
  | keyError
  | typeError
  | valueError
  | unboundLocalError
deriving DecidableEq, Repr

/-- A decimal digit character. -/
def digitChar : Nat → Char
  | 0 => '0' | 1 => '1' | 2 => '2' | 3 => '3' | 4 => '4'
  | 5 => '5' | 6 => '6' | 7 => '7' | 8 => '8' | _ => '9'

/-- Zero-padded `k`-digit decimal rendering of `n` (low digit last). -/
def padDigits : Nat → Nat → List Char
  | 0, _ => []
  | k + 1, n => padDigits k (n / 10) ++ [digitChar (n % 10)]

/-- Numeric value of a digit string (as `int` does for digits). -/
def valDigits (ds : List Char) : Nat :=
  ds.foldl (fun a c => a * 10 + (c.toNat - 48)) 0

/-- The time-tuple a `strptime` call produces (what `datetime(...)`
receives). -/
structure DT where
  y : Nat
  m : Nat
  d : Nat
  hh : Nat
  mm : Nat
  ss : Nat
  micro : Nat
deriving DecidableEq, Repr

def isLeapYear (y : Nat) : Bool :=
  (y % 4 = 0 && y % 100 ≠ 0) || y % 400 = 0

def daysInMonth (y m : Nat) : Nat :=
  if m = 2 then (if isLeapYear y then 29 else 28)
  else if m = 4 ∨ m = 6 ∨ m = 9 ∨ m = 11 then 30
  else 31

/-- The `datetime(...)` constructor's validation. -/
def validDT (t : DT) : Bool :=
  decide (1 ≤ t.y ∧ t.y ≤ 9999 ∧ 1 ≤ t.m ∧ t.m ≤ 12 ∧ 1 ≤ t.d) &&
  decide (t.d ≤ daysInMonth t.y t.m) &&
  decide (t.hh ≤ 23 ∧ t.mm ≤ 59 ∧ t.ss ≤ 59 ∧ t.micro ≤ 999999)

/-- One token of a `strptime`/`strftime` format string. -/
inductive FmtTok where
  | lit (c : Char)
  | dY | dm | dd | dH | dM | dS | df
deriving DecidableEq, Repr

/-- Tokenize a format string (`none` for a directive the codec never
uses). -/
def tokenizeFmt : List Char → Option (List FmtTok)
  | [] => some []
  | '%' :: c :: r =>
      (match c with
       | 'Y' => some FmtTok.dY
       | 'm' => some FmtTok.dm
       | 'd' => some FmtTok.dd
       | 'H' => some FmtTok.dH
       | 'M' => some FmtTok.dM
       | 'S' => some FmtTok.dS
       | 'f' => some FmtTok.df
       | _ => none) >>= fun t => (tokenizeFmt r).map (t :: ·)
  | '%' :: [] => none
  | c :: r => (tokenizeFmt r).map (FmtTok.lit c :: ·)

/-- The regex alternatives of a directive, in the alternation order of
`_strptime.TimeRE`, each as (matched characters, remaining input). -/
def alts : FmtTok → List Char → List (List Char × List Char)
  | .dY, a :: b :: c :: d :: r =>
      if a.isDigit ∧ b.isDigit ∧ c.isDigit ∧ d.isDigit then [([a, b, c, d], r)] else []
  | .dY, _ => []
  | .dm, cs =>
      (match cs with
       | a :: b :: r => if a = '1' ∧ '0' ≤ b ∧ b ≤ '2' then [([a, b], r)] else []
       | _ => []) ++
      (match cs with
       | a :: b :: r => if a = '0' ∧ '1' ≤ b ∧ b ≤ '9' then [([a, b], r)] else []
       | _ => []) ++
      (match cs with
       | a :: r => if '1' ≤ a ∧ a ≤ '9' then [([a], r)] else []
       | _ => [])
  | .dd, cs =>
      (match cs with
       | a :: b :: r => if a = '3' ∧ ('0' = b ∨ b = '1') then [([a, b], r)] else []
       | _ => []) ++
      (match cs with
       | a :: b :: r => if (a = '1' ∨ a = '2') ∧ b.isDigit then [([a, b], r)] else []
       | _ => []) ++
      (match cs with
       | a :: b :: r => if a = '0' ∧ '1' ≤ b ∧ b ≤ '9' then [([a, b], r)] else []
       | _ => []) ++
      (match cs with
       | a :: r => if '1' ≤ a ∧ a ≤ '9' then [([a], r)] else []
       | _ => [])
  | .dH, cs =>
      (match cs with
       | a :: b :: r => if a = '2' ∧ '0' ≤ b ∧ b ≤ '3' then [([a, b], r)] else []
       | _ => []) ++
      (match cs with
       | a :: b :: r => if (a = '0' ∨ a = '1') ∧ b.isDigit then [([a, b], r)] else []
       | _ => []) ++
      (match cs with
       | a :: r => if a.isDigit then [([a], r)] else []
       | _ => [])
  | .dM, cs =>
      (match cs with
       | a :: b :: r => if '0' ≤ a ∧ a ≤ '5' ∧ b.isDigit then [([a, b], r)] else []
       | _ => []) ++
      (match cs with
       | a :: r => if a.isDigit then [([a], r)] else []
       | _ => [])
  | .dS, cs =>
      (match cs with
       | a :: b :: r => if a = '6' ∧ ('0' = b ∨ b = '1') then [([a, b], r)] else []
       | _ => []) ++
      (match cs with
       | a :: b :: r => if '0' ≤ a ∧ a ≤ '5' ∧ b.isDigit then [([a, b], r)] else []
       | _ => []) ++
      (match cs with
       | a :: r => if a.isDigit then [([a], r)] else []
       | _ => [])
  | .df, cs =>
      [6, 5, 4, 3, 2, 1].filterMap fun k =>
        let pre := cs.take k
        if pre.length = k ∧ pre.all Char.isDigit then some (pre, cs.drop k) else none
  | .lit _, _ => []

/-- Raw per-directive matches of one format run. -/
structure RawMatch where
  y : Option (List Char) := none
  m : Option (List Char) := none
  d : Option (List Char) := none
  hh : Option (List Char) := none
  mm : Option (List Char) := none
  ss : Option (List Char) := none
  f : Option (List Char) := none
deriving DecidableEq, Repr

def RawMatch.set (raw : RawMatch) : FmtTok → List Char → RawMatch
  | .dY, ds => { raw with y := some ds }
  | .dm, ds => { raw with m := some ds }
  | .dd, ds => { raw with d := some ds }
  | .dH, ds => { raw with hh := some ds }
  | .dM, ds => { raw with mm := some ds }
  | .dS, ds => { raw with ss := some ds }
  | .df, ds => { raw with f := some ds }
  | .lit _, _ => raw

def firstSome : List α → (α → Option β) → Option β
  | [], _ => none
  | x :: xs, f =>
      match f x with
      | some b => some b
      | none => firstSome xs f

/-- Run a tokenized format against an input with regex-style
backtracking; the whole input must be consumed. -/
def mrun : List FmtTok → List Char → Option RawMatch
  | [], [] => some {}
  | [], _ :: _ => none
  | .lit _ :: _, [] => none
  | .lit c :: ts, c' :: cs => if c = c' then mrun ts cs else none
  | .dY :: ts, cs => firstSome (alts .dY cs) fun p => (mrun ts p.2).map (·.set .dY p.1)
  | .dm :: ts, cs => firstSome (alts .dm cs) fun p => (mrun ts p.2).map (·.set .dm p.1)
  | .dd :: ts, cs => firstSome (alts .dd cs) fun p => (mrun ts p.2).map (·.set .dd p.1)
  | .dH :: ts, cs => firstSome (alts .dH cs) fun p => (mrun ts p.2).map (·.set .dH p.1)
  | .dM :: ts, cs => firstSome (alts .dM cs) fun p => (mrun ts p.2).map (·.set .dM p.1)
  | .dS :: ts, cs => firstSome (alts .dS cs) fun p => (mrun ts p.2).map (·.set .dS p.1)
  | .df :: ts, cs => firstSome (alts .df cs) fun p => (mrun ts p.2).map (·.set .df p.1)

/-- `%f` semantics: pad the matched digits to six places on the right. -/
def microOfRaw : Option (List Char) → Nat
  | none => 0
  | some ds => valDigits (ds ++ List.replicate (6 - ds.length) '0')

/-- `datetime.strptime(s, fmt)`: regex match plus `datetime` validation;
unmatched fields take `strptime`'s defaults (year 1900, month 1, day 1). -/
def strptimeModel (fmt s : String) : Option DT :=
  tokenizeFmt fmt.data >>= fun toks =>
    mrun toks s.data >>= fun raw =>
      let t : DT := {
        y := (raw.y.map valDigits).getD 1900
        m := (raw.m.map valDigits).getD 1
        d := (raw.d.map valDigits).getD 1
        hh := (raw.hh.map valDigits).getD 0
        mm := (raw.mm.map valDigits).getD 0
        ss := (raw.ss.map valDigits).getD 0
        micro := microOfRaw raw.f }
      if validDT t then some t else none

/-- `DateTimeFormats.candidates` (source order matters). -/
def DateTimeFormats.candidates : List String :=
  ["%Y-%m-%d",
   "%Y-%m-%dT%H:%M:%S",
   "%Y-%m-%dT%H:%M:%SZ",
   "%Y-%m-%dT%H:%M:%S.%f",
   "%Y-%m-%dT%H:%M:%S.%fZ",
   "%Y-%m-%d %H:%M:%S",
   "%Y-%m-%d %H:%M:%SZ",
   "%Y-%m-%d %H:%M:%S.%f",
   "%Y-%m-%d %H:%M:%S.%fZ"]

/-- `DateTimeFormats.ms_precision` (the hook's default precision). -/
def DateTimeFormats.ms_precision : Nat := 3

/-- `DateTimeFormats.field_candidates`. -/
def DateTimeFormats.field_candidates : List String :=
  ["absent_date", "birth_date", "date_arrival", "dob", "doe", "dol",
   "end_date", "expiry_date", "finish_date", "jour_date", "last_occ_date",
   "lst_up_date", "note_date", "photo_update_on", "shed_end_date",
   "shed_start_date", "start_date", "str_ent_date", "term_date",
   "tran_date", "valid_date", "visa_expiry", "corr_date", "date_uploaded",
   "note_date", "par_date", "update_on", "updated_on", "abs_from_time",
   "abs_to_time", "absent_time", "med_time"]

/-- ASCII lowercasing of a string (`str.lower()` / `str.casefold()` on
the ASCII keys and headers this client handles). -/
def toLowerStr (s : String) : String := ⟨s.data.map Char.toLower⟩

/-- `_clamp_ms_precision`: clamp to 0–6. -/
def clampMsPrecision (n : Nat) : Nat := if n > 6 then 6 else n

/-- `str.removesuffix("Z")` on a format string. -/
def removeSuffixZ (f : String) : String :=
  if f.data.getLast? = some 'Z' then ⟨f.data.dropLast⟩ else f

/-- `normalize_for_strptime`: strip one trailing `Z` or `z` and remember
it did so. -/
def normalize_for_strptime (s : String) : String × Bool :=
  let had_z := s.data.getLast? = some 'Z' ∨ s.data.getLast? = some 'z'
  (if had_z then ⟨s.data.dropLast⟩ else s, had_z)

/-- Count leading decimal digits. -/
def countDigits : List Char → Nat
  | [] => 0
  | c :: r => if c.isDigit then countDigits r + 1 else 0

/-- `fraction_re.search`: the first `\.(\d+)` occurrence's digit count. -/
def findFrac : List Char → Option Nat
  | [] => none
  | '.' :: r => if countDigits r > 0 then some (countDigits r) else findFrac r
  | _ :: r => findFrac r

/-- `infer_ms_precision`. -/
def infer_ms_precision (s : String) : Nat :=
  clampMsPrecision ((findFrac s.data).getD 0)

/-- `iso_timestamp_ptn.match` — the anchored regex
`^\d{4}-(0[1-9]|1[0-2])-(0[1-9]|[12]\d|3[01])T([01]\d|2[0-3]):[0-5]\d:[0-5]\d(\.\d{0,6})?$`
as a deterministic recognizer (every alternation is decided by its first
character, and the optional fraction must reach the end of the string). -/
def isoTimestampMatch (cs : List Char) : Bool :=
  match cs with
  | y1 :: y2 :: y3 :: y4 :: '-' :: m1 :: m2 :: '-' :: d1 :: d2 :: 'T' ::
      h1 :: h2 :: ':' :: mi1 :: mi2 :: ':' :: s1 :: s2 :: rest =>
      (y1.isDigit && y2.isDigit && y3.isDigit && y4.isDigit) &&
      ((m1 = '0' && '1' ≤ m2 && m2 ≤ '9') || (m1 = '1' && '0' ≤ m2 && m2 ≤ '2')) &&
      ((d1 = '0' && '1' ≤ d2 && d2 ≤ '9') || ((d1 = '1' || d1 = '2') && d2.isDigit) ||
        (d1 = '3' && (d2 = '0' || d2 = '1'))) &&
      (((h1 = '0' || h1 = '1') && h2.isDigit) || (h1 = '2' && '0' ≤ h2 && h2 ≤ '3')) &&
      ('0' ≤ mi1 && mi1 ≤ '5' && mi2.isDigit) &&
      ('0' ≤ s1 && s1 ≤ '5' && s2.isDigit) &&
      (match rest with
       | [] => true
       | '.' :: ds => ds.length ≤ 6 && ds.all Char.isDigit
       | _ => false)
  | _ => false

/-- The `ParsedDatetime` value: a timestamp plus round-trip metadata. -/
structure ParsedDatetime where
  dt : DT
  fmt : Option String
  ms_precision : Nat
  parse_method : Option String
  had_z : Bool
deriving DecidableEq, Repr

/-- First candidate format that `strptime`-parses the normalized string
(the candidate is remembered verbatim, with its `Z` suffix if any;
parsing always strips that suffix first). -/
def firstParse : List String → String → Option (String × DT)
  | [], _ => none
  | f :: fs, norm =>
      match strptimeModel (removeSuffixZ f) norm with
      | some t => some (f, t)
      | none => firstParse fs norm

/-- `datetime_from_string`.  The final pattern-match fallback in the
source refers to the loop variable `parsed`, which is never bound when
every `strptime` attempt failed, so whenever that branch is taken the
call dies with `UnboundLocalError` instead of returning; the model keeps
that behaviour as the `unboundLocalError` outcome. -/
def datetime_from_string (dt : String) (formats : List String)
    (fmt : Option String) (ms_precision : Option Nat) :
    Except PyExc ParsedDatetime :=
  let norm := (normalize_for_strptime dt).1
  let had_z := (normalize_for_strptime dt).2
  let p := match ms_precision with
    | some n => clampMsPrecision n
    | none => infer_ms_precision norm
  match fmt with
  | some f =>
      match strptimeModel (removeSuffixZ f) norm with
      | some t => .ok ⟨t, some f, p, some "manual", had_z⟩
      | none => .error .valueError
  | none =>
      match firstParse formats norm with
      | some (f, t) => .ok ⟨t, some f, p, some "strptime", had_z⟩
      | none =>
          if isoTimestampMatch dt.data then .error .unboundLocalError
          else .error .valueError

/-- `strftime` on the directives the codec uses (`%Y` zero-padded to four
digits, as CPython renders it on the supported platforms). -/
def renderTok (t : DT) (p : Nat) : FmtTok → List Char
  | .lit c => [c]
  | .dY => padDigits 4 t.y
  | .dm => padDigits 2 t.m
  | .dd => padDigits 2 t.d
  | .dH => padDigits 2 t.hh
  | .dM => padDigits 2 t.mm
  | .dS => padDigits 2 t.ss
  | .df => (padDigits 6 t.micro).take p

/-- `strfprecisetime`: like `strftime` but the `%f` field is cut to
`ms_precision` digits (the sentinel-replacement in the source is exactly
this token-level rendering).  `none` models a `strftime` error. -/
def strfprecisetime (pd : ParsedDatetime) (fmt : String) (p : Nat) : Option String :=
  (tokenizeFmt fmt.data).map fun toks =>
    ⟨toks.flatMap (renderTok pd.dt (clampMsPrecision p))⟩

/-- `datetime.__str__` (the fallback when no format is stored):
`YYYY-MM-DD HH:MM:SS[.ffffff]`, the fraction only when non-zero. -/
def fallbackStr (t : DT) : String :=
  ⟨padDigits 4 t.y ++ '-' :: padDigits 2 t.m ++ '-' :: padDigits 2 t.d ++
    ' ' :: padDigits 2 t.hh ++ ':' :: padDigits 2 t.mm ++ ':' :: padDigits 2 t.ss ++
    (if t.micro = 0 then [] else '.' :: padDigits 6 t.micro)⟩

/-- `ParsedDatetime.__str__`: render with the stored format (`Z`
stripped), at the remembered precision, re-appending `Z` when the source
string carried one; fall back to the plain form when that fails. -/
def ParsedDatetime.toStr (pd : ParsedDatetime) : String :=
  match pd.fmt with
  | some f =>
      match strfprecisetime pd (removeSuffixZ f) pd.ms_precision with
      | some s => s ++ (if pd.had_z then "Z" else "")
      | none => fallbackStr pd.dt
  | none => fallbackStr pd.dt

/-! ### The JSON decoding hook -/

/-- A decoded-JSON value after hook processing: plain JSON plus
`ParsedDatetime` objects substituted for recognized timestamp strings. -/
inductive HookVal where
  | null
  | bool (b : Bool)
  | num (n : Int)
  | str (s : String)
  | pdt (p : ParsedDatetime)
  | arr (elems : List HookVal)
  | obj (entries : List (String × HookVal))
deriving Repr

mutual

/-- Plain JSON trivially embeds into the hook-value universe. -/
def Json.toHookVal : Json → HookVal
  | .null => .null
  | .bool b => .bool b
  | .num n => .num n
  | .str s => .str s
  | .arr xs => .arr (Json.toHookValList xs)
  | .obj kvs => .obj (Json.toHookValObj kvs)

def Json.toHookValList : List Json → List HookVal
  | [] => []
  | x :: xs => Json.toHookVal x :: Json.toHookValList xs

def Json.toHookValObj : List (String × Json) → List (String × HookVal)
  | [] => []
  | (k, v) :: rest => (k, Json.toHookVal v) :: Json.toHookValObj rest

end

mutual

/-- `parse_datetime_from_json_value` with the hook's arguments (candidate
formats, no explicit format, precision 3): every string is attempted;
`ValueError`/`TypeError` leave the original string; any other exception
(the `UnboundLocalError` of the pattern fallback) propagates.  Lists and
dicts are converted recursively; any other value passes through. -/
def parse_datetime_from_json_value : Json → Except PyExc HookVal
  | .str s =>
      match datetime_from_string s DateTimeFormats.candidates none
          (some DateTimeFormats.ms_precision) with
      | .ok pd => .ok (.pdt pd)
      | .error .valueError => .ok (.str s)
      | .error .typeError => .ok (.str s)
      | .error e => .error e
  | .arr xs => (parseJsonValueList xs).map .arr
  | .obj kvs => (parseJsonValueObj kvs).map .obj
  | .null => .ok .null
  | .bool b => .ok (.bool b)
  | .num n => .ok (.num n)

def parseJsonValueList : List Json → Except PyExc (List HookVal)
  | [] => .ok []
  | x :: xs => do
      let v ← parse_datetime_from_json_value x
      let vs ← parseJsonValueList xs
      .ok (v :: vs)

def parseJsonValueObj : List (String × Json) → Except PyExc (List (String × HookVal))
  | [] => .ok []
  | (k, v) :: rest => do
      let v' ← parse_datetime_from_json_value v
      let rest' ← parseJsonValueObj rest
      .ok ((k, v') :: rest')

end

/-- `datetime_obj_hook` with default arguments: each entry whose key
case-insensitively matches the fixed field-candidate set has its value
converted by `parse_datetime_from_json_value`; all other entries pass
through unmodified. -/
def datetime_obj_hook (kvs : List (String × Json)) :
    Except PyExc (List (String × HookVal)) :=
  kvs.mapM fun kv =>
    if DateTimeFormats.field_candidates.contains (toLowerStr kv.1) then
      (parse_datetime_from_json_value kv.2).map (⟨kv.1, ·⟩)
    else
      .ok ⟨kv.1, kv.2.toHookVal⟩

/-- C9 (code bug): the decoding hook CAN raise.  For the input
`{"dob": "2024-01-02T03:04:05."}` the key matches the candidate set and
the value fails every `strptime` candidate, yet still matches the
`iso_timestamp_ptn` fallback (`(\.\d{0,6})?` accepts a bare trailing
dot); that branch returns `finalize(parsed, ...)` with the loop variable
`parsed` never assigned, so `UnboundLocalError` — which
`parse_datetime_from_json_value` does not catch — escapes from the hook
instead of the value being left as its original string. -/
theorem C9_hook_raises_on_bare_dot_timestamp :
    datetime_obj_hook [("dob", Json.str "2024-01-02T03:04:05.")] =
      .error .unboundLocalError := rfl

/-- C3 (counterexample): `strptime` is lenient about zero padding, so
`"2024-1-2"` matches the candidate format `"%Y-%m-%d"`, but serializing
the parsed value renders the canonical padded form `"2024-01-02"`,
which differs from the input — the round-trip law fails as stated. -/
theorem C3_counterexample_nonpadded :
    (datetime_from_string "2024-1-2" DateTimeFormats.candidates none none).map
        ParsedDatetime.toStr = .ok "2024-01-02" ∧
      ("2024-01-02" : String) ≠ "2024-1-2" :=
  ⟨rfl, by decide⟩

/-! ## Session manager (`src/api/sessions.py`)

Wall-clock instants are modelled as integers (seconds); `datetime.now()`
becomes an explicit `now` argument, and `timedelta(seconds=offset)`
subtraction becomes integer subtraction. -/

/-- `TassAPIServer`, the fields the session logic reads. -/
structure TassAPIServer where
  cmpy_code : String
  token_expire_offset : Int

/-- `APITokenData`: token string, absolute expiry instant, and the
authorized-tenant records (string-keyed string dicts). -/
structure APITokenData where
  token : String
  token_expiry_date : Int
  allowed_companies : List (List (String × String))

/-- The `APISession` state the claims concern: configuration, the
`Authorization` default header, and the stored auth data. -/
structure APISession where
  server : TassAPIServer
  authHeader : Option String
  auth_data : Option APITokenData

/-- `has_token`: `bool(self.headers.get("Authorization", False))` — the
header must be present and non-empty. -/
def APISession.has_token (s : APISession) : Bool :=
  match s.authHeader with
  | some a => a ≠ ""
  | none => false

/-- `token_expired`, exactly as coded:
`expired = not adjusted_expire_time <= datetime.now()`. -/
def APISession.token_expired (s : APISession) (now : Int) : Bool :=
  match s.auth_data with
  | none => true
  | some ad =>
      let adjusted_expire_time := ad.token_expiry_date - s.server.token_expire_offset
      !(decide (adjusted_expire_time ≤ now))

/-- `authenticated`: `self.has_token and not self.token_expired`. -/
def APISession.authenticated (s : APISession) (now : Int) : Bool :=
  s.has_token && !(s.token_expired now)

/-- C1 (code bug): `token_expired` has its comparison inverted, so
`authenticated` is the negation of what the spec states.  At the failing
input — a session that just authenticated (`Authorization` set, expiry
3600 s away, offset 60 s, `now = 996400`) — the current time is well
before `expiry − offset`, yet the session reports NOT authenticated; and
once time passes `expiry − offset` (`now = 999999`) it reports
authenticated. -/
theorem C1_authenticated_inverted :
    (APISession.authenticated
        ⟨⟨"COMP", 60⟩, some "Bearer tok", some ⟨"tok", 1000000, []⟩⟩ 996400 = false ∧
      (996400 : Int) ≤ 1000000 - 60) ∧
    (APISession.authenticated
        ⟨⟨"COMP", 60⟩, some "Bearer tok", some ⟨"tok", 1000000, []⟩⟩ 999999 = true ∧
      ¬((999999 : Int) ≤ 1000000 - 60)) := by
  refine ⟨⟨rfl, by decide⟩, ⟨rfl, by decide⟩⟩

/-- Substring containment on character lists (`needle in haystack`). -/
def isPrefixChars : List Char → List Char → Bool
  | [], _ => true
  | _ :: _, [] => false
  | c :: cs, d :: ds => c = d && isPrefixChars cs ds

/-- Python's `in` on strings: `strContains hay needle` holds iff `needle`
occurs in `hay` as a contiguous substring (the empty needle always
does). -/
def strContains (hay needle : String) : Bool :=
  go needle.data hay.data
where
  go (n : List Char) : List Char → Bool
    | [] => n.isEmpty
    | c :: h => isPrefixChars n (c :: h) || go n h

/-- `dict.get(k, default)` on a string-valued record. -/
def recGet (k : String) (rec : List (String × String)) (dflt : String) : String :=
  match rec.find? (fun kv => kv.1 == k) with
  | some kv => kv.2
  | none => dflt

/-- `allowed_companies`: the stored list, when auth data exists. -/
def APISession.allowed_companies (s : APISession) :
    Option (List (List (String × String))) :=
  match s.auth_data with
  | some ad => some ad.allowed_companies
  | none => none

/-- `valid_company_code`, exactly as coded: when the list is truthy,
the loop body RETURNS on its first iteration, testing only the first
record, and with substring (`in`) rather than equality. -/
def APISession.valid_company_code (s : APISession) : Bool :=
  match s.allowed_companies with
  | some (cmpy :: _) => strContains (recGet "cmpy_code" cmpy "") s.server.cmpy_code
  | _ => false

/-- C8 (counterexample): the configured code `"BBB"` equals the
tenant-code field of the second record, so the claim says
`valid_company_code` is true — but the code inspects only the first
record and returns false. -/
theorem C8_counterexample_second_record :
    (APISession.valid_company_code
      ⟨⟨"BBB", 60⟩, some "Bearer tok",
        some ⟨"tok", 0, [[("cmpy_code", "AAA")], [("cmpy_code", "BBB")]]⟩⟩) = false ∧
    ([[("cmpy_code", "AAA")], [("cmpy_code", "BBB")]].any
      (fun rec => recGet "cmpy_code" rec "" == "BBB")) = true := by
  exact ⟨rfl, rfl⟩

/-- C8 (amended): `valid_company_code` is true iff authentication data is
present, its `allowed_companies` list is non-empty, and the configured
company code occurs as a substring of the FIRST record's `cmpy_code`
field (missing field read as the empty string); in particular it is
false with no auth data or an empty list. -/
theorem C8_valid_company_amended (s : APISession) :
    s.valid_company_code = true ↔
      ∃ ad first rest, s.auth_data = some ad ∧
        ad.allowed_companies = first :: rest ∧
        strContains (recGet "cmpy_code" first "") s.server.cmpy_code = true := by
  constructor
  · intro h
    rcases had : s.auth_data with _ | ad
    · simp only [APISession.valid_company_code, APISession.allowed_companies, had] at h
      exact absurd h (by decide)
    · rcases hlist : ad.allowed_companies with _ | ⟨first, rest⟩
      · simp only [APISession.valid_company_code, APISession.allowed_companies,
          had, hlist] at h
        exact absurd h (by decide)
      · simp only [APISession.valid_company_code, APISession.allowed_companies,
          had, hlist] at h
        exact ⟨ad, first, rest, rfl, hlist, h⟩
  · rintro ⟨ad, first, rest, had, hlist, hsub⟩
    simp only [APISession.valid_company_code, APISession.allowed_companies, had, hlist]
    exact hsub

/-- Witness for C8's amended claim: configured code `"BB"` is a substring
of the first record's `"ABBA"`. -/
theorem C8_valid_company_amended_witness :
    (APISession.valid_company_code
      ⟨⟨"BB", 60⟩, some "Bearer tok",
        some ⟨"tok", 0, [[("cmpy_code", "ABBA")]]⟩⟩) = true :=
  (C8_valid_company_amended _).mpr
    ⟨⟨"tok", 0, [[("cmpy_code", "ABBA")]]⟩, [("cmpy_code", "ABBA")], [],
      rfl, rfl, rfl⟩

/-! ## Response envelope (`src/tassapi/api/response.py`) -/

/-- The slice of a wrapped response the claims concern.  `body` is the
result `json()` would return (`none` when decoding raises). -/
structure RespModel where
  status : Int
  content_type : Option String
  content_disposition : Option String
  url : String
  body : Option Json
deriving Repr

/-- Membership in `self.safe_statuses = DEFAULT_SAFE_HTTP_OK ∪ extra`
where `DEFAULT_SAFE_HTTP_OK = set(range(200, 400))`. -/
def safeStatusMem (extra : List Int) (code : Int) : Bool :=
  decide (200 ≤ code ∧ code < 400) || extra.contains code

/-- `resp_ok`: the status code is in the safe set. -/
def APIResponse.resp_ok (status : Int) (extra : List Int) : Bool :=
  safeStatusMem extra status

/-- `raise_for_status`, reduced to whether it raises: when the response
is not OK, an error type (and hence a non-empty message) exists exactly
for 4xx and 5xx statuses, and only a non-empty message is raised.  (The
message text itself — reason, URL and best-effort API error details — is
immaterial to whether an exception is raised.) -/
def APIResponse.raiseForStatusRaises (status : Int) (extra : List Int) : Bool :=
  if APIResponse.resp_ok status extra then false
  else if 400 ≤ status ∧ status < 500 then true
  else if 500 ≤ status ∧ status < 600 then true
  else false

/-- C4 (counterexample): a response with status 100 and no extra safe
codes is NOT in the union `200–399 ∪ ∅`, so the claim requires
`raise_for_status` to raise — but the code only raises for 4xx/5xx and
returns silently. -/
theorem C4_counterexample_status100 :
    APIResponse.resp_ok 100 [] = false ∧
      APIResponse.raiseForStatusRaises 100 [] = false := by
  exact ⟨rfl, rfl⟩

/-- C4 (amended): `raise_for_status` raises an HTTP error iff the status
code is NOT in the union of 200–399 and the extra safe codes AND lies in
400–599; in particular 404 with `safe_statuses={404}` does not raise and
404 without it does. -/
theorem C4_raise_iff_amended (status : Int) (extra : List Int) :
    APIResponse.raiseForStatusRaises status extra = true ↔
      (APIResponse.resp_ok status extra = false ∧
        (400 ≤ status ∧ status < 600)) := by
  rw [APIResponse.raiseForStatusRaises]
  by_cases hok : APIResponse.resp_ok status extra
  · rw [if_pos hok]
    simp [hok]
  · rw [if_neg hok]
    by_cases h4 : 400 ≤ status ∧ status < 500
    · rw [if_pos h4]
      simp only [Bool.not_eq_true] at hok
      simp [hok]
      omega
    · rw [if_neg h4]
      by_cases h5 : 500 ≤ status ∧ status < 600
      · rw [if_pos h5]
        simp only [Bool.not_eq_true] at hok
        simp [hok]
        omega
      · rw [if_neg h5]
        simp only [Bool.not_eq_true] at hok
        simp [hok]
        omega

/-- The 404 instances named by the claim, covered by the amended law. -/
theorem C4_raise_iff_amended_404 :
    APIResponse.raiseForStatusRaises 404 [404] = false ∧
      APIResponse.raiseForStatusRaises 404 [] = true := ⟨rfl, rfl⟩

/-- `has_json`: `"application/json" in headers.get("content-type", "").casefold()`. -/
def APIResponse.has_json (r : RespModel) : Bool :=
  strContains (toLowerStr (r.content_type.getD "")) "application/json"

/-- `urlparse(url).query`: the part after the first `?`, cut at `#`. -/
def queryOf (url : String) : List Char :=
  (url.data.dropWhile (· ≠ '?')).drop 1 |>.takeWhile (· ≠ '#')

/-- Split a character list on a separator. -/
def splitOnChar (sep : Char) : List Char → List (List Char)
  | [] => [[]]
  | c :: r =>
      if c = sep then [] :: splitOnChar sep r
      else
        match splitOnChar sep r with
        | t :: ts => (c :: t) :: ts
        | [] => [[c]]

/-- `parse_qs(query)[key][0]`: the first `key=value` pair of the query
with a non-empty value (blank values are dropped by `parse_qs`); `none`
models the `KeyError` when the key is absent. -/
def parseQsFirst (key : String) (q : List Char) : Option String :=
  (splitOnChar '&' q).filterMap (fun pair =>
    match splitOnChar '=' pair with
    | k :: v :: rest =>
        if k = key.data ∧ (v :: rest).foldl (· ++ ·) [] ≠ [] then
          some (⟨(String.intercalate "=" ((v :: rest).map (⟨·⟩))).data⟩ : String)
        else none
    | _ => none)
  |>.head?

/-- `int(s)` on a query-parameter string: optional sign then digits. -/
def pyInt (s : String) : Option Int :=
  match s.data with
  | '-' :: ds => if ds ≠ [] ∧ ds.all Char.isDigit then some (-(valDigits ds : Int)) else none
  | '+' :: ds => if ds ≠ [] ∧ ds.all Char.isDigit then some ((valDigits ds : Int)) else none
  | ds => if ds ≠ [] ∧ ds.all Char.isDigit then some ((valDigits ds : Int)) else none

/-- Python `len()` over a decoded JSON value: arrays, objects and strings
are sized; other values raise `TypeError`. -/
def pyLen : Json → Option Nat
  | .arr xs => some xs.length
  | .obj kvs => some kvs.length
  | .str s => some s.length
  | _ => none

/-- Array-shapedness of a decoded payload. -/
def Json.isArr : Json → Bool
  | .arr _ => true
  | _ => false

/-- The `$top` value read back from the response URL. -/
def topParam (r : RespModel) : Option Int :=
  parseQsFirst "$top" (queryOf r.url) >>= pyInt

/-- Lift an optional value into `Except`, tagging the absent case with
the Python exception the source raises there. -/
def optToExc (e : PyExc) : Option α → Except PyExc α
  | some a => .ok a
  | none => .error e

theorem excBind_ok {ε α β : Type} (a : α) (f : α → Except ε β) :
    (Except.ok a : Except ε α).bind f = f a := rfl

theorem excBind_error {ε α β : Type} (e : ε) (f : α → Except ε β) :
    (Except.error e : Except ε α).bind f = .error e := rfl

/-- `_has_more()` with no explicit `expected`: no JSON → `False`;
otherwise `len(self.json()) == int(parse_qs(urlparse(url).query)["$top"][0])`,
raising `ValueError` when the body fails to decode, `TypeError` when it
has no length, `KeyError` when `$top` is absent, and `ValueError` when
it is not an integer literal. -/
def APIResponse.hasMore (r : RespModel) : Except PyExc Bool :=
  if ¬ APIResponse.has_json r then .ok false
  else
    (optToExc .valueError r.body).bind fun body =>
    (optToExc .typeError (pyLen body)).bind fun n =>
    (optToExc .keyError (parseQsFirst "$top" (queryOf r.url))).bind fun ts =>
    (optToExc .valueError (pyInt ts)).bind fun t =>
    .ok (decide ((n : Int) = t))

/-- C6 (counterexample): an object-shaped payload with one key and
`$top=1` in the echoed URL makes `has_more` true although the payload is
not array-shaped — `len()` simply counts the object's keys. -/
theorem C6_counterexample_object_payload :
    APIResponse.hasMore
        ⟨200, some "application/json", none, "https://h/x?$top=1",
          some (Json.obj [("a", Json.num 1)])⟩ = .ok true ∧
      (Json.obj [("a", Json.num 1)]).isArr = false := ⟨rfl, rfl⟩

/-- C6 (amended): `has_more` returns `true` iff the response declares
JSON, the body decodes, the decoded payload has a Python length (array
elements, object keys, or string characters — array-shapedness is NOT
required), the sent URL echoes a `$top` integer, and the two numbers
are equal. -/
theorem C6_has_more_amended (r : RespModel) :
    APIResponse.hasMore r = .ok true ↔
      (APIResponse.has_json r = true ∧
        ∃ j n t, r.body = some j ∧ pyLen j = some n ∧ topParam r = some t ∧
          (n : Int) = t) := by
  rw [APIResponse.hasMore]
  by_cases hj : APIResponse.has_json r
  · rw [if_neg (by simp [hj])]
    rcases hb : r.body with _ | j
    · simp only [optToExc, excBind_error]
      simp [hj]
    · rcases hl : pyLen j with _ | n
      · simp only [optToExc, excBind_ok, hl, excBind_error]
        simp [hj, hl]
      · rcases ht : parseQsFirst "$top" (queryOf r.url) with _ | ts
        · simp only [optToExc, excBind_ok, hl, ht, excBind_error]
          simp [hj, hl, topParam, ht]
        · rcases hi : pyInt ts with _ | t
          · simp only [optToExc, excBind_ok, hl, ht, hi, excBind_error]
            simp [hj, hl, topParam, ht, hi]
          · simp only [optToExc, excBind_ok, hl, ht, hi]
            constructor
            · intro h
              refine ⟨hj, j, n, t, rfl, hl, ?_, ?_⟩
              · rw [topParam, ht]
                simp [hi]
              · simpa using h
            · rintro ⟨-, j2, n2, t2, hj2, hn2, ht2, he⟩
              cases hj2
              rw [hl] at hn2
              cases hn2
              rw [topParam, ht] at ht2
              simp only [Option.bind_eq_bind, Option.some_bind, hi] at ht2
              cases ht2
              simp [he]
  · rw [if_pos (by simp only [Bool.not_eq_true] at hj ⊢; exact hj)]
    simp only [Bool.not_eq_true] at hj
    simp [hj]

/-! ## `TassWorker.download` (`src/api/worker.py`) -/

/-- `parse_has_file_stream`: `"attachment"` or `"inline"` occurs in the
lowercased `content-disposition` header (empty when missing). -/
def parse_has_file_stream (cd : Option String) : Bool :=
  strContains (toLowerStr (cd.getD "")) "attachment" ||
    strContains (toLowerStr (cd.getD "")) "inline"

/-- `set(range(0, 999))`: the safe statuses `download` passes to its GET. -/
def downloadSafeStatuses : List Int := (List.range 999).map Int.ofNat

/-- The observable outcome of one `download` call. -/
inductive DownloadOutcome where
  | raised
  | noStream
  | wrote (filename : String)
deriving DecidableEq, Repr

/-- `download`: issue the GET with every status 0–998 declared safe (so
`raise_for_status` runs against that set), return `(r, None)` without
touching the filesystem when no file stream is indicated, and otherwise
stream the body into the destination file. -/
def TassWorker.download (r : RespModel) (out_fn : String) : DownloadOutcome :=
  if APIResponse.raiseForStatusRaises r.status downloadSafeStatuses then .raised
  else if ¬ parse_has_file_stream r.content_disposition then .noStream
  else .wrote out_fn

/-- C10: `download` never raises an HTTP status error — its GET declares
every status in 0–998 safe, which covers the whole raising range
400–599 — and a response without a file-stream `Content-Disposition`
yields the `(response, None)` outcome with no file written. -/
theorem C10_download_never_raises (r : RespModel) (fn : String) :
    TassWorker.download r fn ≠ .raised ∧
      (parse_has_file_stream r.content_disposition = false →
        TassWorker.download r fn = .noStream) := by
  have hsafe : APIResponse.raiseForStatusRaises r.status downloadSafeStatuses = false := by
    rw [APIResponse.raiseForStatusRaises]
    by_cases hok : APIResponse.resp_ok r.status downloadSafeStatuses
    · rw [if_pos hok]
    · have hnotmem : r.status ∉ downloadSafeStatuses := by
        intro hmem
        apply hok
        rw [APIResponse.resp_ok, safeStatusMem,
          show downloadSafeStatuses.contains r.status = true from
            List.elem_iff.mpr hmem, Bool.or_true]
      have hrange : ¬(0 ≤ r.status ∧ r.status < 999) := by
        rintro ⟨h0, h9⟩
        apply hnotmem
        rw [downloadSafeStatuses]
        refine List.mem_map.mpr ⟨r.status.toNat, List.mem_range.mpr (by omega), ?_⟩
        rw [show Int.ofNat r.status.toNat = (r.status.toNat : Int) from rfl, Int.toNat_of_nonneg h0]
      rw [if_neg hok, if_neg (fun h => hrange ⟨by omega, by omega⟩),
        if_neg (fun h => hrange ⟨by omega, by omega⟩)]
  constructor
  · rw [TassWorker.download, hsafe]
    simp only [Bool.false_eq_true, if_false]
    split
    · simp
    · simp
  · intro hfs
    rw [TassWorker.download, hsafe]
    simp [hfs]

/-- Witness for C10 at a concrete 404 response with no
`Content-Disposition`: no raise, and the `(response, None)` outcome. -/
theorem C10_download_never_raises_witness :
    TassWorker.download ⟨404, some "application/json", none, "https://h/x", none⟩
        "f" ≠ .raised ∧
      TassWorker.download ⟨404, some "application/json", none, "https://h/x", none⟩
        "f" = .noStream :=
  ⟨(C10_download_never_raises _ _).1, (C10_download_never_raises _ _).2 rfl⟩

/-! ## Redirect-safe `Authorization` propagation
(`PreserveAuthenticationAdapter`, `src/api/sessions.py`)

The origin parser models `urllib.parse.urlparse` for conventional
`scheme://[user@]host[:port]/...` URLs: the scheme is what precedes
`://` (lowercased — `urlparse` already lowercases it), the network
location runs to the next `/`, `?` or `#`, user-information before a
last `@` is discarded, the hostname is lowercased, and the port is the
digit run after `:` (`urlparse` yields `None` for an absent or empty
port; an out-of-range or non-numeric port raises and is modelled as
`none`). -/

/-- Everything before the first `://`, if any, and the rest. -/
def splitScheme : List Char → Option (List Char × List Char)
  | [] => none
  | ':' :: '/' :: '/' :: r => some ([], r)
  | c :: r => (splitScheme r).map fun p => (c :: p.1, p.2)

/-- Drop the userinfo part: everything up to the last `@`. -/
def afterLastAt (cs : List Char) : List Char :=
  match splitOnChar '@' cs with
  | [] => cs
  | parts => parts.getLast!

/-- Digits-only port value, `none` otherwise (absent, empty, invalid). -/
def parsePort (cs : List Char) : Option Int :=
  if cs ≠ [] ∧ cs.all Char.isDigit ∧ valDigits cs ≤ 65535 then
    some (valDigits cs : Int)
  else none

/-- A parsed origin: scheme, hostname, and port. -/
structure Origin where
  scheme : String
  hostname : String
  port : Option Int
deriving DecidableEq, Repr

/-- `_parse_origin`: scheme and hostname lowercased; the port defaults
to 80 for `http` and 443 for `https` when absent, `None` otherwise. -/
def parse_origin (url : String) : Origin :=
  match splitScheme url.data with
  | none => ⟨"", "", none⟩
  | some (sch, rest) =>
      let scheme := toLowerStr ⟨sch⟩
      let netloc := afterLastAt (rest.takeWhile fun c => c ≠ '/' ∧ c ≠ '?' ∧ c ≠ '#')
      let host := netloc.takeWhile (· ≠ ':')
      let portPart := (netloc.dropWhile (· ≠ ':')).drop 1
      let rawPort := if netloc.any (· = ':') then parsePort portPart else none
      let port := match rawPort with
        | some v => some v
        | none =>
            if scheme = "http" then some 80
            else if scheme = "https" then some 443
            else none
      ⟨scheme, toLowerStr ⟨host⟩, port⟩

/-- `_is_same_origin`. -/
def is_same_origin (u1 u2 : String) : Bool :=
  parse_origin u1 = parse_origin u2

/-- The request state the adapter manipulates: current URL, current
`Authorization` header, and the two per-request attributes the adapter
stores on first send. -/
structure PreparedRequest where
  url : String
  authorization : Option String
  originalUrl : Option String
  originalAuth : Option (Option String)
deriving DecidableEq, Repr

/-- `PreserveAuthenticationAdapter.send`, up to the hand-off to the
underlying transport: store the original URL and `Authorization` on
first send, and on a redirect request (URL differs from the stored
original) restore the original `Authorization` — but only when the
header is currently absent, the original value was truthy, and the two
URLs share an origin. -/
def adapterSend (req : PreparedRequest) : PreparedRequest :=
  let req :=
    match req.originalUrl with
    | none => { req with originalUrl := some req.url, originalAuth := some req.authorization }
    | some _ => req
  match req.originalUrl, req.originalAuth with
  | some ourl, some oauth =>
      if req.url ≠ ourl then
        match oauth, req.authorization with
        | some a, none =>
            if a ≠ "" ∧ is_same_origin ourl req.url then
              { req with authorization := some a }
            else req
        | _, _ => req
      else req
  | _, _ => req

/-- C5: for a redirected request (URL differs from the stored original)
whose headers lack `Authorization` and whose original request carried a
non-empty `Authorization` value, the adapter re-attaches the original
header exactly when the redirect target has the same origin as the
original URL — same (lowercased) scheme, same lowercased host, and same
port with defaults 80/`http` and 443/`https` applied when absent; a
cross-origin redirect request is never given the header. -/
theorem C5_redirect_auth_same_origin (ourl url a : String) (ha : a ≠ "")
    (hred : url ≠ ourl) :
    ((adapterSend ⟨url, none, some ourl, some (some a)⟩).authorization = some a ↔
      parse_origin ourl = parse_origin url) ∧
    (parse_origin ourl ≠ parse_origin url →
      (adapterSend ⟨url, none, some ourl, some (some a)⟩).authorization = none) := by
  have hstep : adapterSend ⟨url, none, some ourl, some (some a)⟩ =
      if a ≠ "" ∧ is_same_origin ourl url then
        { url := url, authorization := some a, originalUrl := some ourl,
          originalAuth := some (some a) }
      else ⟨url, none, some ourl, some (some a)⟩ := by
    rw [adapterSend]
    simp only [if_pos hred]
  constructor
  · rw [hstep]
    by_cases hso : is_same_origin ourl url
    · rw [if_pos ⟨ha, hso⟩]
      exact iff_of_true rfl (of_decide_eq_true hso)
    · rw [if_neg (fun h => hso h.2)]
      exact iff_of_false (fun h => Option.noConfusion h)
        (fun h => hso (decide_eq_true h))
  · intro hne
    rw [hstep, if_neg (fun h => hne (of_decide_eq_true h.2))]

/-- Witness for C5: a redirect from `https://api.example.com/a` to
`https://API.example.com:443/b` is same-origin (case-insensitive host,
default port 443 applied), so the header is restored. -/
theorem C5_redirect_auth_same_origin_witness :
    ("Bearer tok" : String) ≠ "" ∧
      ("https://API.example.com:443/b" : String) ≠ "https://api.example.com/a" ∧
      (adapterSend ⟨"https://API.example.com:443/b", none,
        some "https://api.example.com/a", some (some "Bearer tok")⟩).authorization
        = some "Bearer tok" := by
  refine ⟨by decide, by decide, ?_⟩
  exact (C5_redirect_auth_same_origin "https://api.example.com/a"
    "https://API.example.com:443/b" "Bearer tok" (by decide) (by decide)).1.mpr (by decide)

/-! ## Pagination (`TassWorker.paginate`, `src/api/worker.py`;
`Page`/`PaginatedResult`, `src/api/models.py`)

`APIResponse.data` runs `parse_json_with_hooks(self.r.json(),
hooks=(datetime_obj_hook,))`.  The `_walk` of `parse_json_with_hooks`
applies the hook to each mapping and then recurses into the resulting
values.  The model fuses the hook application into the walk: a
candidate-key entry's value is converted by
`parse_datetime_from_json_value` (which itself recurses) and a
non-candidate entry's value is walked.  This is extensionally the
source's behaviour: re-walking a hook-converted subtree is the identity,
since `ParsedDatetime` values and non-mapping leaves pass `_walk`
through, and a second hook application inside a converted mapping
re-parses only values that are still strings — which fail with the same
`ValueError`/`TypeError` again and stay strings (`PatchableDict`
wrapping, irrelevant to the record values, is not modelled). -/

mutual

/-- `parse_json_with_hooks` with `hooks=(datetime_obj_hook,)`. -/
def respWalk : Json → Except PyExc HookVal
  | .obj kvs => (respWalkObj kvs).map .obj
  | .arr xs => (respWalkList xs).map .arr
  | .null => .ok .null
  | .bool b => .ok (.bool b)
  | .num n => .ok (.num n)
  | .str s => .ok (.str s)

def respWalkList : List Json → Except PyExc (List HookVal)
  | [] => .ok []
  | x :: xs => do
      let v ← respWalk x
      let vs ← respWalkList xs
      .ok (v :: vs)

def respWalkObj : List (String × Json) → Except PyExc (List (String × HookVal))
  | [] => .ok []
  | (k, v) :: rest => do
      let v' ←
        if DateTimeFormats.field_candidates.contains (toLowerStr k) then
          parse_datetime_from_json_value v
        else respWalk v
      let rest' ← respWalkObj rest
      .ok ((k, v') :: rest')

end

/-- `APIResponse.data`: `[]` when the response is not JSON, otherwise
the hook-processed decode of the body (`ValueError` when decoding
fails). -/
def APIResponse.data (r : RespModel) : Except PyExc HookVal :=
  if APIResponse.has_json r = false then .ok (.arr [])
  else
    match r.body with
    | some j => respWalk j
    | none => .error .valueError

/-- Python iteration over a decoded value (`yield from page.data`):
array elements, object keys, string characters; other values raise
`TypeError`. -/
def pyIterHV : HookVal → Except PyExc (List HookVal)
  | .arr xs => .ok xs
  | .obj kvs => .ok (kvs.map fun kv => .str kv.1)
  | .str s => .ok (s.data.map fun c => .str ⟨[c]⟩)
  | _ => .error .typeError

/-- `Page`: the dataclass yielded per iteration. -/
structure Page where
  response : RespModel
  offset : Int
  top : Int
  page_num : Nat
deriving Repr

/-- `Page.data`: this page's records. -/
def Page.data (p : Page) : Except PyExc HookVal :=
  APIResponse.data p.response

/-- `list(pager())` can end three ways: a finite page list, a Python
exception out of `has_more`, or no observed termination within the
modelled number of loop iterations. -/
inductive PagerResult where
  | pages (ps : List Page)
  | raised (e : PyExc)
  | diverged
deriving Repr

/-- The `while True` pager loop of `paginate`, one constructor per
iteration of the modelled iteration budget: fetch the page at the
current `$skip` (the transport is the `fetch` argument), yield it, stop
when `has_more` is false, else advance `$skip` by the fixed
`offset = 100` and the page number by one. -/
def pagerAux (fetch : Int → RespModel) : Nat → Int → Nat → PagerResult
  | 0, _, _ => .diverged
  | fuel + 1, current_skip, page =>
      let resp := fetch current_skip
      let pg : Page := ⟨resp, current_skip, 100, page⟩
      match APIResponse.hasMore resp with
      | .error e => .raised e
      | .ok false => .pages [pg]
      | .ok true =>
          match pagerAux fetch fuel (current_skip + 100) (page + 1) with
          | .pages ps => .pages (pg :: ps)
          | other => other

/-- `paginate` with no caller params: `top, offset, skip = 100, 100, 0`,
so the loop starts at `$skip = 0`, page number `0`. -/
def TassWorker.paginate (fetch : Int → RespModel) (fuel : Nat) : PagerResult :=
  pagerAux fetch fuel 0 0

/-- `PaginatedResult.data`: all records across the pages, in page
order. -/
def PaginatedResult.data (ps : List Page) : Except PyExc (List HookVal) :=
  (ps.mapM fun p => (Page.data p).bind pyIterHV).map List.join

/-- A JSON page response at a given `$skip`: status 200, JSON content
type, the sent `$top=100` echoed in the URL, and `n` records numbered
from `skip`. -/
def pageRespAt (skip : Int) (n : Nat) : RespModel :=
  ⟨200, some "application/json", none, "https://h/items?$top=100&$skip=0",
    some (.arr ((List.range n).map fun i => Json.num (skip + i)))⟩

/-- A server yielding pages of 100, 100 and 37 records. -/
def fetch3 (skip : Int) : RespModel :=
  pageRespAt skip (if skip < 200 then 100 else 37)

/-- A server whose first page has 40 records. -/
def fetch1 (skip : Int) : RespModel :=
  pageRespAt skip 40

set_option maxRecDepth 8000 in
/-- C7: against a server returning JSON arrays of 100, 100 and 37
records (with `$top=100` readable from each response URL), `paginate`
terminates with exactly 3 pages, zero-based page numbers 0, 1, 2 and
skip values 0, 100, 200, and `.data` is the 237-record concatenation of
the pages' records in page order; against a server whose first page has
40 records, exactly 1 page is produced. -/
theorem C7_pagination_scenarios :
    (∃ ps, TassWorker.paginate fetch3 10 = .pages ps ∧
      ps.length = 3 ∧
      ps.map Page.page_num = [0, 1, 2] ∧
      ps.map Page.offset = [0, 100, 200] ∧
      PaginatedResult.data ps =
        .ok ((List.range 237).map fun i => HookVal.num i)) ∧
    (∃ qs, TassWorker.paginate fetch1 10 = .pages qs ∧ qs.length = 1) := by
  refine ⟨⟨[⟨fetch3 0, 0, 100, 0⟩, ⟨fetch3 100, 100, 100, 1⟩,
      ⟨fetch3 200, 200, 100, 2⟩], ?_, rfl, rfl, rfl, ?_⟩,
    ⟨[⟨fetch1 0, 0, 100, 0⟩], ?_, rfl⟩⟩
  · rfl
  · rfl
  · rfl

/-! ## The datetime round trip on canonical inputs (C3, amended)

Digit-rendering arithmetic used to reason about zero-padded fields. -/

theorem digitChar_isDigit (n : Nat) : (digitChar n).isDigit = true := by
  rcases n with _|_|_|_|_|_|_|_|_|n <;> rfl

theorem digitChar_toNat (n : Nat) (h : n ≤ 9) : (digitChar n).toNat - 48 = n := by
  interval_cases n <;> rfl

theorem zero_le_digitChar (n : Nat) : '0' ≤ digitChar n := by
  rcases n with _|_|_|_|_|_|_|_|_|n <;>
    first
    | decide
    | exact show ('0' : Char) ≤ '9' by decide

theorem digitChar_le_five (n : Nat) (h : n ≤ 5) : digitChar n ≤ '5' := by
  interval_cases n <;> decide

theorem digitChar_ne_six (n : Nat) (h : n ≤ 5) : (digitChar n = '6') = False := by
  interval_cases n <;> decide

theorem padDigits_length (k n : Nat) : (padDigits k n).length = k := by
  induction k generalizing n with
  | zero => rfl
  | succ k ih => simp [padDigits, ih]

theorem padDigits_all_digit (k n : Nat) :
    ∀ c ∈ padDigits k n, c.isDigit = true := by
  induction k generalizing n with
  | zero => intro c hc; cases hc
  | succ k ih =>
      intro c hc
      rw [padDigits] at hc
      rcases List.mem_append.mp hc with h | h
      · exact ih _ _ h
      · rw [List.mem_singleton] at h
        rw [h]
        exact digitChar_isDigit _

theorem padDigits_succ (k n : Nat) :
    padDigits (k + 1) n = padDigits k (n / 10) ++ [digitChar (n % 10)] := rfl

theorem valDigits_append_single (ds : List Char) (c : Char) :
    valDigits (ds ++ [c]) = valDigits ds * 10 + (c.toNat - 48) := by
  rw [valDigits, valDigits, List.foldl_append]
  rfl

theorem valDigits_padDigits (k n : Nat) (h : n < 10 ^ k) :
    valDigits (padDigits k n) = n := by
  induction k generalizing n with
  | zero =>
      rw [pow_zero] at h
      interval_cases n
      rfl
  | succ k ih =>
      have hdiv : n / 10 < 10 ^ k := by
        rw [Nat.div_lt_iff_lt_mul (by norm_num)]
        calc n < 10 ^ (k + 1) := h
        _ = 10 ^ k * 10 := pow_succ 10 k
      rw [padDigits_succ, valDigits_append_single, ih (n / 10) hdiv,
        digitChar_toNat _ (by omega)]
      omega

theorem padDigits_split (a b n : Nat) :
    padDigits (a + b) n = padDigits a (n / 10 ^ b) ++ padDigits b (n % 10 ^ b) := by
  induction b generalizing n with
  | zero => simp [padDigits]
  | succ b ih =>
      have h1 : a + (b + 1) = (a + b) + 1 := by omega
      have h2 : n / 10 / 10 ^ b = n / 10 ^ (b + 1) := by
        rw [Nat.div_div_eq_div_mul, pow_succ, Nat.mul_comm]
      have h3 : n / 10 % 10 ^ b = n % 10 ^ (b + 1) / 10 := by
        rw [Nat.div_mod_eq_mod_mul_div, pow_succ, Nat.mul_comm]
      have h4 : n % 10 = n % 10 ^ (b + 1) % 10 := by
        rw [Nat.mod_mod_of_dvd n (dvd_pow_self 10 b.succ_ne_zero)]
      rw [h1, padDigits_succ, ih (n / 10), h2, h3, h4, List.append_assoc,
        padDigits_succ]

theorem padDigits_zero (k : Nat) : padDigits k 0 = List.replicate k '0' := by
  induction k with
  | zero => rfl
  | succ k ih =>
      rw [padDigits_succ, Nat.zero_div, Nat.zero_mod, ih, List.replicate_succ']
      rfl

theorem padDigits_two (n : Nat) :
    padDigits 2 n = [digitChar (n / 10 % 10), digitChar (n % 10)] := by
  simp [padDigits]

theorem padDigits_four (n : Nat) :
    padDigits 4 n = [digitChar (n / 10 / 10 / 10 % 10), digitChar (n / 10 / 10 % 10),
      digitChar (n / 10 % 10), digitChar (n % 10)] := by
  simp [padDigits]

/-! How one directive of a format consumes a zero-padded field of the
input.  Each lemma propagates the rest of the match in `Option.map`
form, so it covers success and failure of the remaining directives
alike; the one-digit regex alternatives never resurrect a failed match
because the character after the two-digit field (a separator or the
format's next literal) is not a digit. -/

theorem ne_digit_of_not_digit {fsep : Char} (hsep : fsep.isDigit = false)
    (b : Char) (hb : b.isDigit = true) : (fsep = b) = False := by
  simp only [eq_iff_iff, iff_false]
  intro h
  rw [h, hb] at hsep
  cases hsep

theorem mrun_lit (c : Char) (ts : List FmtTok) (cs : List Char) :
    mrun (.lit c :: ts) (c :: cs) = mrun ts cs := by
  simp [mrun]

theorem mrun_lit_ne {c c' : Char} (h : (c = c') = False) (ts : List FmtTok)
    (cs : List Char) : mrun (.lit c :: ts) (c' :: cs) = none := by
  simp [mrun, h]

theorem mrun_dY_step (y : Nat) (ts : List FmtTok) (rest : List Char) :
    mrun (.dY :: ts) (padDigits 4 y ++ rest) =
      (mrun ts rest).map (·.set .dY (padDigits 4 y)) := by
  rw [padDigits_four]
  cases hmr : mrun ts rest <;>
    simp [mrun, alts, firstSome, digitChar_isDigit, hmr]

theorem mrun_dm_lit (m : Nat) (h1 : 1 ≤ m) (h2 : m ≤ 12) (fsep : Char)
    (hsep : fsep.isDigit = false) (ts : List FmtTok) (c : Char) (rest : List Char) :
    mrun (.dm :: .lit fsep :: ts) (padDigits 2 m ++ c :: rest) =
      (mrun (.lit fsep :: ts) (c :: rest)).map (·.set .dm (padDigits 2 m)) := by
  have n0 := ne_digit_of_not_digit hsep '0' rfl
  have n1 := ne_digit_of_not_digit hsep '1' rfl
  have n2 := ne_digit_of_not_digit hsep '2' rfl
  have n3 := ne_digit_of_not_digit hsep '3' rfl
  have n4 := ne_digit_of_not_digit hsep '4' rfl
  have n5 := ne_digit_of_not_digit hsep '5' rfl
  have n6 := ne_digit_of_not_digit hsep '6' rfl
  have n7 := ne_digit_of_not_digit hsep '7' rfl
  have n8 := ne_digit_of_not_digit hsep '8' rfl
  have n9 := ne_digit_of_not_digit hsep '9' rfl
  interval_cases m <;>
    cases hmr : (if fsep = c then mrun ts rest else none) <;>
      simp [mrun, alts, firstSome, padDigits, digitChar, hmr,
        n0, n1, n2, n3, n4, n5, n6, n7, n8, n9]

theorem mrun_dd_lit (d : Nat) (h1 : 1 ≤ d) (h2 : d ≤ 31) (fsep : Char)
    (hsep : fsep.isDigit = false) (ts : List FmtTok) (c : Char) (rest : List Char) :
    mrun (.dd :: .lit fsep :: ts) (padDigits 2 d ++ c :: rest) =
      (mrun (.lit fsep :: ts) (c :: rest)).map (·.set .dd (padDigits 2 d)) := by
  have n0 := ne_digit_of_not_digit hsep '0' rfl
  have n1 := ne_digit_of_not_digit hsep '1' rfl
  have n2 := ne_digit_of_not_digit hsep '2' rfl
  have n3 := ne_digit_of_not_digit hsep '3' rfl
  have n4 := ne_digit_of_not_digit hsep '4' rfl
  have n5 := ne_digit_of_not_digit hsep '5' rfl
  have n6 := ne_digit_of_not_digit hsep '6' rfl
  have n7 := ne_digit_of_not_digit hsep '7' rfl
  have n8 := ne_digit_of_not_digit hsep '8' rfl
  have n9 := ne_digit_of_not_digit hsep '9' rfl
  interval_cases d <;>
    cases hmr : (if fsep = c then mrun ts rest else none) <;>
      simp [mrun, alts, firstSome, padDigits, digitChar, hmr,
        n0, n1, n2, n3, n4, n5, n6, n7, n8, n9]

theorem mrun_dd_end (d : Nat) (h1 : 1 ≤ d) (h2 : d ≤ 31) :
    mrun [.dd] (padDigits 2 d) = some { d := some (padDigits 2 d) } := by
  interval_cases d <;> rfl

theorem mrun_dd_end_more (d : Nat) (h1 : 1 ≤ d) (h2 : d ≤ 31) (c : Char)
    (rest : List Char) : mrun [.dd] (padDigits 2 d ++ c :: rest) = none := by
  interval_cases d <;> simp [mrun, alts, firstSome]

theorem mrun_dH_lit (v : Nat) (h2 : v ≤ 23) (fsep : Char)
    (hsep : fsep.isDigit = false) (ts : List FmtTok) (c : Char) (rest : List Char) :
    mrun (.dH :: .lit fsep :: ts) (padDigits 2 v ++ c :: rest) =
      (mrun (.lit fsep :: ts) (c :: rest)).map (·.set .dH (padDigits 2 v)) := by
  have n0 := ne_digit_of_not_digit hsep '0' rfl
  have n1 := ne_digit_of_not_digit hsep '1' rfl
  have n2 := ne_digit_of_not_digit hsep '2' rfl
  have n3 := ne_digit_of_not_digit hsep '3' rfl
  have n4 := ne_digit_of_not_digit hsep '4' rfl
  have n5 := ne_digit_of_not_digit hsep '5' rfl
  have n6 := ne_digit_of_not_digit hsep '6' rfl
  have n7 := ne_digit_of_not_digit hsep '7' rfl
  have n8 := ne_digit_of_not_digit hsep '8' rfl
  have n9 := ne_digit_of_not_digit hsep '9' rfl
  interval_cases v <;>
    cases hmr : (if fsep = c then mrun ts rest else none) <;>
      simp [mrun, alts, firstSome, padDigits, digitChar, hmr,
        n0, n1, n2, n3, n4, n5, n6, n7, n8, n9]

theorem mrun_dM_lit (v : Nat) (h2 : v ≤ 59) (fsep : Char)
    (hsep : fsep.isDigit = false) (ts : List FmtTok) (c : Char) (rest : List Char) :
    mrun (.dM :: .lit fsep :: ts) (padDigits 2 v ++ c :: rest) =
      (mrun (.lit fsep :: ts) (c :: rest)).map (·.set .dM (padDigits 2 v)) := by
  rw [padDigits_two]
  have hv10 : v / 10 % 10 = v / 10 := Nat.mod_eq_of_lt (by omega)
  have ha0 : '0' ≤ digitChar (v / 10 % 10) := zero_le_digitChar _
  have ha5 : digitChar (v / 10 % 10) ≤ '5' := by
    rw [hv10]; exact digitChar_le_five _ (by omega)
  have hb : (digitChar (v % 10)).isDigit = true := digitChar_isDigit _
  have hnb := ne_digit_of_not_digit hsep (digitChar (v % 10)) hb
  cases hmr : (if fsep = c then mrun ts rest else none) <;>
    simp [mrun, alts, firstSome, digitChar_isDigit, ha0, ha5, hb, hmr, hnb]

theorem mrun_dS_lit (v : Nat) (h2 : v ≤ 59) (fsep : Char)
    (hsep : fsep.isDigit = false) (ts : List FmtTok) (c : Char) (rest : List Char) :
    mrun (.dS :: .lit fsep :: ts) (padDigits 2 v ++ c :: rest) =
      (mrun (.lit fsep :: ts) (c :: rest)).map (·.set .dS (padDigits 2 v)) := by
  rw [padDigits_two]
  have hv10 : v / 10 % 10 = v / 10 := Nat.mod_eq_of_lt (by omega)
  have ha0 : '0' ≤ digitChar (v / 10 % 10) := zero_le_digitChar _
  have ha5 : digitChar (v / 10 % 10) ≤ '5' := by
    rw [hv10]; exact digitChar_le_five _ (by omega)
  have ha6 : (digitChar (v / 10 % 10) = '6') = False := by
    rw [hv10]; exact digitChar_ne_six _ (by omega)
  have hb : (digitChar (v % 10)).isDigit = true := digitChar_isDigit _
  have hnb := ne_digit_of_not_digit hsep (digitChar (v % 10)) hb
  cases hmr : (if fsep = c then mrun ts rest else none) <;>
    simp [mrun, alts, firstSome, digitChar_isDigit, ha0, ha5, ha6, hb, hmr, hnb]

theorem mrun_dS_end (v : Nat) (h2 : v ≤ 59) :
    mrun [.dS] (padDigits 2 v) = some { ss := some (padDigits 2 v) } := by
  interval_cases v <;> rfl

theorem mrun_dS_end_more (v : Nat) (h2 : v ≤ 59) (c : Char) (rest : List Char) :
    mrun [.dS] (padDigits 2 v ++ c :: rest) = none := by
  interval_cases v <;> simp [mrun, alts, firstSome]

theorem mrun_df_end (ds : List Char) (h1 : ds ≠ []) (h6 : ds.length ≤ 6)
    (hd : ∀ c ∈ ds, c.isDigit = true) :
    mrun [.df] ds = some { f := some ds } := by
  rcases ds with _ | ⟨a, _ | ⟨b, _ | ⟨c, _ | ⟨d, _ | ⟨e, _ | ⟨g, rest⟩⟩⟩⟩⟩⟩
  · exact absurd rfl h1
  · have ha := hd a (by simp)
    simp [mrun, alts, firstSome, RawMatch.set, ha]
  · have ha := hd a (by simp)
    have hb := hd b (by simp)
    simp [mrun, alts, firstSome, RawMatch.set, ha, hb]
  · have ha := hd a (by simp)
    have hb := hd b (by simp)
    have hc := hd c (by simp)
    simp [mrun, alts, firstSome, RawMatch.set, ha, hb, hc]
  · have ha := hd a (by simp)
    have hb := hd b (by simp)
    have hc := hd c (by simp)
    have hd' := hd d (by simp)
    simp [mrun, alts, firstSome, RawMatch.set, ha, hb, hc, hd']
  · have ha := hd a (by simp)
    have hb := hd b (by simp)
    have hc := hd c (by simp)
    have hd' := hd d (by simp)
    have he := hd e (by simp)
    simp [mrun, alts, firstSome, RawMatch.set, ha, hb, hc, hd', he]
  · rcases rest with _ | ⟨g', rest⟩
    · have ha := hd a (by simp)
      have hb := hd b (by simp)
      have hc := hd c (by simp)
      have hd' := hd d (by simp)
      have he := hd e (by simp)
      have hg := hd g (by simp)
      simp [mrun, alts, firstSome, RawMatch.set, ha, hb, hc, hd', he, hg]
    · exfalso
      simp only [List.length_cons] at h6
      omega

/-! The canonical (zero-padded) input family of the amended round-trip
law. -/

/-- The two canonical timestamp layouts: date only, or date plus time
with a `T` or blank separator and `p` fractional digits (`p = 0`
meaning no fraction). -/
inductive CanonShape where
  | dateOnly
  | dateTime (sepT : Bool) (p : Nat)
deriving DecidableEq, Repr

/-- The fractional tail: nothing, or `.` plus the first `p` digits of
the six-digit microsecond field. -/
def timeTail (t : DT) (p : Nat) : List Char :=
  if p = 0 then [] else '.' :: (padDigits 6 t.micro).take p

/-- The canonical zero-padded rendering of a timestamp in a layout. -/
def canonChars (t : DT) : CanonShape → List Char
  | .dateOnly =>
      padDigits 4 t.y ++ '-' :: (padDigits 2 t.m ++ '-' :: padDigits 2 t.d)
  | .dateTime sepT p =>
      padDigits 4 t.y ++ '-' :: (padDigits 2 t.m ++ '-' :: (padDigits 2 t.d ++
        (if sepT then 'T' else ' ') :: (padDigits 2 t.hh ++ ':' ::
          (padDigits 2 t.mm ++ ':' :: (padDigits 2 t.ss ++ timeTail t p)))))

/-- Canonical string: the layout's characters plus an optional `Z`. -/
def canonStr (t : DT) (sh : CanonShape) (z : Bool) : String :=
  ⟨canonChars t sh ++ if z then ['Z'] else []⟩

/-- Side conditions tying a timestamp to a layout: a date-only string
shows no time fields, a fraction-free string has no microseconds, and a
`p`-digit fraction (1–6 digits) shows the whole microsecond value (the
hidden low digits are zero). -/
def shapeOK (t : DT) : CanonShape → Prop
  | .dateOnly => t.hh = 0 ∧ t.mm = 0 ∧ t.ss = 0 ∧ t.micro = 0
  | .dateTime _ p => p ≤ 6 ∧ (p = 0 → t.micro = 0) ∧
      (1 ≤ p → t.micro % 10 ^ (6 - p) = 0)

theorem string_data_mk (cs : List Char) : (String.mk cs).data = cs := rfl

theorem padDigits_ne_nil (k n : Nat) (h : 1 ≤ k) : padDigits k n ≠ [] := by
  intro he
  have hl := padDigits_length k n
  rw [he] at hl
  simp at hl
  omega

theorem dot_notin_pad (k n : Nat) : '.' ∉ padDigits k n := by
  intro h
  have := padDigits_all_digit k n _ h
  exact absurd this (by decide)

theorem findFrac_cons_ne {c : Char} (hc : ¬ c = '.') (r : List Char) :
    findFrac (c :: r) = findFrac r := by
  rw [findFrac.eq_def]
  split
  all_goals simp_all

theorem findFrac_append_digits (pre : List Char)
    (h : ∀ c ∈ pre, c.isDigit = true) (suf : List Char) :
    findFrac (pre ++ suf) = findFrac suf := by
  induction pre with
  | nil => rfl
  | cons c pre ih =>
      have hc : ¬ c = '.' := by
        intro h'
        have hdig := h c (List.mem_cons_self c pre)
        rw [h'] at hdig
        exact absurd hdig (by decide)
      rw [List.cons_append, findFrac_cons_ne hc,
        ih fun c h' => h c (List.mem_cons_of_mem _ h')]

theorem countDigits_all (ds : List Char) (h : ∀ c ∈ ds, c.isDigit = true) :
    countDigits ds = ds.length := by
  induction ds with
  | nil => rfl
  | cons c r ih =>
      simp [countDigits, h c (List.mem_cons_self c r),
        ih fun c h' => h c (List.mem_cons_of_mem _ h')]

theorem findFrac_dot_digits (ds : List Char) (h1 : ds ≠ [])
    (hd : ∀ c ∈ ds, c.isDigit = true) :
    findFrac ('.' :: ds) = some ds.length := by
  have hcd : countDigits ds = ds.length := countDigits_all ds hd
  have hpos : 0 < ds.length := List.length_pos.mpr h1
  simp [findFrac, hcd, hpos]

theorem findFrac_no_dot (cs : List Char) (h : '.' ∉ cs) : findFrac cs = none := by
  induction cs with
  | nil => rfl
  | cons c r ih =>
      have hc : ¬ c = '.' := by
        intro h'
        rw [h'] at h
        exact h (List.mem_cons_self _ _)
      rw [findFrac_cons_ne hc, ih fun h' => h (List.mem_cons_of_mem _ h')]

theorem getLast_append_ne_nil {α : Type} (l1 l2 : List α) (h : l2 ≠ []) :
    (l1 ++ l2).getLast? = l2.getLast? := by
  induction l1 with
  | nil => rfl
  | cons a l1 ih =>
      rcases hl : l1 ++ l2 with _ | ⟨b, r⟩
      · exact absurd (List.append_eq_nil.mp hl).2 h
      · rw [List.cons_append, hl, List.getLast?_cons_cons, ← hl, ih]

theorem getLast_cons_ne_nil {α : Type} (a : α) (l : List α) (h : l ≠ []) :
    (a :: l).getLast? = l.getLast? := by
  have he : a :: l = [a] ++ l := rfl
  rw [he, getLast_append_ne_nil _ _ h]

theorem getLast_digit_of_all (cs : List Char) (h : cs ≠ [])
    (hd : ∀ c ∈ cs, c.isDigit = true) :
    ∃ c, cs.getLast? = some c ∧ c.isDigit = true := by
  refine ⟨cs.getLast h, ?_, hd _ (List.getLast_mem h)⟩
  exact List.getLast?_eq_getLast cs h

theorem take_pad_digits (p k n : Nat) (c : Char)
    (hc : c ∈ (padDigits k n).take p) : c.isDigit = true :=
  padDigits_all_digit k n c (List.take_subset _ _ hc)

theorem take_pad_ne_nil (p k n : Nat) (hp : 1 ≤ p) (hk : 1 ≤ k) :
    (padDigits k n).take p ≠ [] := by
  intro he
  have hl : ((padDigits k n).take p).length = min p (padDigits k n).length :=
    List.length_take _ _
  rw [he, padDigits_length] at hl
  simp at hl
  omega

/-- Every canonical string ends in a decimal digit — so stripping a
trailing `Z` is visible in the layout. -/
theorem canonChars_last_digit (t : DT) (sh : CanonShape) :
    ∃ c, (canonChars t sh).getLast? = some c ∧ c.isDigit = true := by
  cases sh with
  | dateOnly =>
      rw [show canonChars t .dateOnly = padDigits 4 t.y ++ '-' ::
          (padDigits 2 t.m ++ '-' :: padDigits 2 t.d) from rfl,
        getLast_append_ne_nil _ _ (by simp),
        getLast_cons_ne_nil _ _ (by simp),
        getLast_append_ne_nil _ _ (by simp),
        getLast_cons_ne_nil _ _ (padDigits_ne_nil 2 t.d (by omega))]
      exact getLast_digit_of_all _ (padDigits_ne_nil 2 t.d (by omega))
        (padDigits_all_digit 2 t.d)
  | dateTime sepT p =>
      rw [show canonChars t (.dateTime sepT p) = padDigits 4 t.y ++ '-' ::
          (padDigits 2 t.m ++ '-' :: (padDigits 2 t.d ++
            (if sepT then 'T' else ' ') :: (padDigits 2 t.hh ++ ':' ::
              (padDigits 2 t.mm ++ ':' :: (padDigits 2 t.ss ++ timeTail t p)))))
          from rfl,
        getLast_append_ne_nil _ _ (by simp),
        getLast_cons_ne_nil _ _ (by simp),
        getLast_append_ne_nil _ _ (by simp),
        getLast_cons_ne_nil _ _ (by simp),
        getLast_append_ne_nil _ _ (by simp),
        getLast_cons_ne_nil _ _ (by simp),
        getLast_append_ne_nil _ _ (by simp),
        getLast_cons_ne_nil _ _ (by simp),
        getLast_append_ne_nil _ _ (by simp),
        getLast_cons_ne_nil _ _
          (fun he => padDigits_ne_nil 2 t.ss (by omega)
            (List.append_eq_nil.mp he).1)]
      rcases Nat.eq_zero_or_pos p with hp | hp
      · rw [hp, show timeTail t 0 = [] from rfl, List.append_nil]
        exact getLast_digit_of_all _ (padDigits_ne_nil 2 t.ss (by omega))
          (padDigits_all_digit 2 t.ss)
      · rw [show timeTail t p = '.' :: (padDigits 6 t.micro).take p from by
          rw [timeTail, if_neg (by omega)],
          getLast_append_ne_nil _ _ (by simp),
          getLast_cons_ne_nil _ _ (take_pad_ne_nil p 6 t.micro (by omega) (by omega))]
        exact getLast_digit_of_all _ (take_pad_ne_nil p 6 t.micro (by omega) (by omega))
          (fun c hc => take_pad_digits p 6 t.micro c hc)

/-- A date-only canonical string contains no fraction. -/
theorem findFrac_canon_date (t : DT) : findFrac (canonChars t .dateOnly) = none := by
  rw [show canonChars t .dateOnly = padDigits 4 t.y ++ '-' ::
      (padDigits 2 t.m ++ '-' :: padDigits 2 t.d) from rfl,
    findFrac_append_digits _ (padDigits_all_digit 4 t.y) _,
    findFrac_cons_ne (by decide),
    findFrac_append_digits _ (padDigits_all_digit 2 t.m) _,
    findFrac_cons_ne (by decide)]
  exact findFrac_no_dot _ (dot_notin_pad 2 t.d)

/-- A fraction-free timestamp canonical string contains no fraction. -/
theorem findFrac_canon_p0 (t : DT) (sepT : Bool) :
    findFrac (canonChars t (.dateTime sepT 0)) = none := by
  have hsep : ¬ (if sepT then 'T' else ' ') = '.' := by cases sepT <;> decide
  rw [show canonChars t (.dateTime sepT 0) = padDigits 4 t.y ++ '-' ::
      (padDigits 2 t.m ++ '-' :: (padDigits 2 t.d ++
        (if sepT then 'T' else ' ') :: (padDigits 2 t.hh ++ ':' ::
          (padDigits 2 t.mm ++ ':' :: (padDigits 2 t.ss ++ []))))) from rfl,
    List.append_nil,
    findFrac_append_digits _ (padDigits_all_digit 4 t.y) _,
    findFrac_cons_ne (by decide),
    findFrac_append_digits _ (padDigits_all_digit 2 t.m) _,
    findFrac_cons_ne (by decide),
    findFrac_append_digits _ (padDigits_all_digit 2 t.d) _,
    findFrac_cons_ne hsep,
    findFrac_append_digits _ (padDigits_all_digit 2 t.hh) _,
    findFrac_cons_ne (by decide),
    findFrac_append_digits _ (padDigits_all_digit 2 t.mm) _,
    findFrac_cons_ne (by decide)]
  exact findFrac_no_dot _ (dot_notin_pad 2 t.ss)

/-- The first fraction of a canonical timestamp with a `p`-digit
fraction is the fraction itself. -/
theorem findFrac_canon_frac (t : DT) (sepT : Bool) (p : Nat) (hp : 1 ≤ p) :
    findFrac (canonChars t (.dateTime sepT p)) =
      some ((padDigits 6 t.micro).take p).length := by
  have hsep : ¬ (if sepT then 'T' else ' ') = '.' := by cases sepT <;> decide
  rw [show canonChars t (.dateTime sepT p) = padDigits 4 t.y ++ '-' ::
      (padDigits 2 t.m ++ '-' :: (padDigits 2 t.d ++
        (if sepT then 'T' else ' ') :: (padDigits 2 t.hh ++ ':' ::
          (padDigits 2 t.mm ++ ':' :: (padDigits 2 t.ss ++ timeTail t p)))))
      from rfl,
    findFrac_append_digits _ (padDigits_all_digit 4 t.y) _,
    findFrac_cons_ne (by decide),
    findFrac_append_digits _ (padDigits_all_digit 2 t.m) _,
    findFrac_cons_ne (by decide),
    findFrac_append_digits _ (padDigits_all_digit 2 t.d) _,
    findFrac_cons_ne hsep,
    findFrac_append_digits _ (padDigits_all_digit 2 t.hh) _,
    findFrac_cons_ne (by decide),
    findFrac_append_digits _ (padDigits_all_digit 2 t.mm) _,
    findFrac_cons_ne (by decide),
    findFrac_append_digits _ (padDigits_all_digit 2 t.ss) _,
    show timeTail t p = '.' :: (padDigits 6 t.micro).take p from by
      rw [timeTail, if_neg (by omega)]]
  exact findFrac_dot_digits _ (take_pad_ne_nil p 6 t.micro hp (by omega))
    (take_pad_digits p 6 t.micro)

/-- Stripping the optional `Z` of a canonical string recovers the
layout's characters and the `Z` flag. -/
theorem normalize_canon (t : DT) (sh : CanonShape) (z : Bool) :
    normalize_for_strptime (canonStr t sh z) = (⟨canonChars t sh⟩, z) := by
  obtain ⟨c, hlast, hdig⟩ := canonChars_last_digit t sh
  cases z with
  | false =>
      have hne1 : ¬((canonChars t sh).getLast? = some 'Z' ∨
          (canonChars t sh).getLast? = some 'z') := by
        rw [hlast]
        rintro (h | h) <;> rw [Option.some_inj] at h <;> subst h <;>
          exact absurd hdig (by decide)
      simp [canonStr, normalize_for_strptime, string_data_mk, hne1]
  | true =>
      have hZ : (canonChars t sh ++ ['Z']).getLast? = some 'Z' := by
        rw [getLast_append_ne_nil _ _ (by simp)]
        rfl
      simp [canonStr, normalize_for_strptime, string_data_mk, hZ,
        List.dropLast_concat]

/-! Whole-format runs on canonical inputs: the matching candidate
succeeds with the padded fields captured verbatim, and every earlier
candidate fails. -/

theorem mrun_date_end (y m d : Nat) (hm1 : 1 ≤ m) (hm2 : m ≤ 12)
    (hd1 : 1 ≤ d) (hd2 : d ≤ 31) :
    mrun [.dY, .lit '-', .dm, .lit '-', .dd]
      (padDigits 4 y ++ '-' :: (padDigits 2 m ++ '-' :: padDigits 2 d)) =
      some { y := some (padDigits 4 y), m := some (padDigits 2 m),
             d := some (padDigits 2 d) } := by
  rw [mrun_dY_step, mrun_lit, mrun_dm_lit m hm1 hm2 '-' (by decide),
    mrun_lit, mrun_dd_end d hd1 hd2]
  rfl

theorem mrun_date_end_more (y m d : Nat) (hm1 : 1 ≤ m) (hm2 : m ≤ 12)
    (hd1 : 1 ≤ d) (hd2 : d ≤ 31) (c : Char) (rest : List Char) :
    mrun [.dY, .lit '-', .dm, .lit '-', .dd]
      (padDigits 4 y ++ '-' :: (padDigits 2 m ++ '-' ::
        (padDigits 2 d ++ c :: rest))) = none := by
  rw [mrun_dY_step, mrun_lit, mrun_dm_lit m hm1 hm2 '-' (by decide),
    mrun_lit, mrun_dd_end_more d hd1 hd2 c rest]
  rfl

theorem mrun_full_nofrac (y m d hh mm ss : Nat) (hm1 : 1 ≤ m) (hm2 : m ≤ 12)
    (hd1 : 1 ≤ d) (hd2 : d ≤ 31) (hh2 : hh ≤ 23) (hmm2 : mm ≤ 59)
    (hss2 : ss ≤ 59) (sep : Char) (hsep : sep.isDigit = false) :
    mrun [.dY, .lit '-', .dm, .lit '-', .dd, .lit sep, .dH, .lit ':', .dM,
        .lit ':', .dS]
      (padDigits 4 y ++ '-' :: (padDigits 2 m ++ '-' :: (padDigits 2 d ++
        sep :: (padDigits 2 hh ++ ':' :: (padDigits 2 mm ++ ':' ::
          padDigits 2 ss))))) =
      some { y := some (padDigits 4 y), m := some (padDigits 2 m),
             d := some (padDigits 2 d), hh := some (padDigits 2 hh),
             mm := some (padDigits 2 mm), ss := some (padDigits 2 ss) } := by
  rw [mrun_dY_step, mrun_lit, mrun_dm_lit m hm1 hm2 '-' (by decide),
    mrun_lit, mrun_dd_lit d hd1 hd2 sep hsep, mrun_lit,
    mrun_dH_lit hh hh2 ':' (by decide), mrun_lit,
    mrun_dM_lit mm hmm2 ':' (by decide), mrun_lit, mrun_dS_end ss hss2]
  rfl

theorem mrun_full_frac (y m d hh mm ss : Nat) (ds : List Char)
    (hm1 : 1 ≤ m) (hm2 : m ≤ 12) (hd1 : 1 ≤ d) (hd2 : d ≤ 31) (hh2 : hh ≤ 23)
    (hmm2 : mm ≤ 59) (hss2 : ss ≤ 59) (sep : Char) (hsep : sep.isDigit = false)
    (hne : ds ≠ []) (h6 : ds.length ≤ 6) (hd : ∀ c ∈ ds, c.isDigit = true) :
    mrun [.dY, .lit '-', .dm, .lit '-', .dd, .lit sep, .dH, .lit ':', .dM,
        .lit ':', .dS, .lit '.', .df]
      (padDigits 4 y ++ '-' :: (padDigits 2 m ++ '-' :: (padDigits 2 d ++
        sep :: (padDigits 2 hh ++ ':' :: (padDigits 2 mm ++ ':' ::
          (padDigits 2 ss ++ '.' :: ds)))))) =
      some { y := some (padDigits 4 y), m := some (padDigits 2 m),
             d := some (padDigits 2 d), hh := some (padDigits 2 hh),
             mm := some (padDigits 2 mm), ss := some (padDigits 2 ss),
             f := some ds } := by
  rw [mrun_dY_step, mrun_lit, mrun_dm_lit m hm1 hm2 '-' (by decide),
    mrun_lit, mrun_dd_lit d hd1 hd2 sep hsep, mrun_lit,
    mrun_dH_lit hh hh2 ':' (by decide), mrun_lit,
    mrun_dM_lit mm hmm2 ':' (by decide), mrun_lit,
    mrun_dS_lit ss hss2 '.' (by decide), mrun_lit, mrun_df_end ds hne h6 hd]
  rfl

theorem mrun_sep_mismatch (y m d : Nat) (hm1 : 1 ≤ m) (hm2 : m ≤ 12)
    (hd1 : 1 ≤ d) (hd2 : d ≤ 31) (fsep c : Char) (hfsep : fsep.isDigit = false)
    (hne : (fsep = c) = False) (ts : List FmtTok) (tail : List Char) :
    mrun (.dY :: .lit '-' :: .dm :: .lit '-' :: .dd :: .lit fsep :: ts)
      (padDigits 4 y ++ '-' :: (padDigits 2 m ++ '-' ::
        (padDigits 2 d ++ c :: tail))) = none := by
  rw [mrun_dY_step, mrun_lit, mrun_dm_lit m hm1 hm2 '-' (by decide),
    mrun_lit, mrun_dd_lit d hd1 hd2 fsep hfsep, mrun_lit_ne hne]
  rfl

theorem mrun_nofrac_on_frac (y m d hh mm ss : Nat) (ds : List Char)
    (hm1 : 1 ≤ m) (hm2 : m ≤ 12) (hd1 : 1 ≤ d) (hd2 : d ≤ 31) (hh2 : hh ≤ 23)
    (hmm2 : mm ≤ 59) (hss2 : ss ≤ 59) (sep : Char)
    (hsep : sep.isDigit = false) :
    mrun [.dY, .lit '-', .dm, .lit '-', .dd, .lit sep, .dH, .lit ':', .dM,
        .lit ':', .dS]
      (padDigits 4 y ++ '-' :: (padDigits 2 m ++ '-' :: (padDigits 2 d ++
        sep :: (padDigits 2 hh ++ ':' :: (padDigits 2 mm ++ ':' ::
          (padDigits 2 ss ++ '.' :: ds)))))) = none := by
  rw [mrun_dY_step, mrun_lit, mrun_dm_lit m hm1 hm2 '-' (by decide),
    mrun_lit, mrun_dd_lit d hd1 hd2 sep hsep, mrun_lit,
    mrun_dH_lit hh hh2 ':' (by decide), mrun_lit,
    mrun_dM_lit mm hmm2 ':' (by decide), mrun_lit,
    mrun_dS_end_more ss hss2 '.' ds]
  rfl

/-- The time tuple `strptimeModel` builds from a raw match (the body of
its `let`). -/
def rawDT (raw : RawMatch) : DT :=
  { y := (raw.y.map valDigits).getD 1900
    m := (raw.m.map valDigits).getD 1
    d := (raw.d.map valDigits).getD 1
    hh := (raw.hh.map valDigits).getD 0
    mm := (raw.mm.map valDigits).getD 0
    ss := (raw.ss.map valDigits).getD 0
    micro := microOfRaw raw.f }

theorem strptimeModel_run (fmt : String) (toks : List FmtTok)
    (htk : tokenizeFmt fmt.data = some toks) (cs : List Char) :
    strptimeModel fmt ⟨cs⟩ = (mrun toks cs).bind fun raw =>
      if validDT (rawDT raw) then some (rawDT raw) else none := by
  rw [strptimeModel, htk]
  rfl

theorem strptime_none (fmt : String) (toks : List FmtTok)
    (htk : tokenizeFmt fmt.data = some toks) (cs : List Char)
    (hm : mrun toks cs = none) : strptimeModel fmt ⟨cs⟩ = none := by
  rw [strptimeModel_run fmt toks htk cs, hm]
  rfl

theorem daysInMonth_le (y m : Nat) : daysInMonth y m ≤ 31 := by
  rw [daysInMonth]
  split
  · split <;> omega
  · split <;> omega

theorem rawDT_date (y m d : Nat) (hy : y ≤ 9999) (hm : m ≤ 12) (hd : d ≤ 31) :
    rawDT { y := some (padDigits 4 y), m := some (padDigits 2 m),
            d := some (padDigits 2 d) } = ⟨y, m, d, 0, 0, 0, 0⟩ := by
  rw [rawDT]
  simp only [Option.map_some', Option.getD_some, Option.map_none',
    Option.getD_none, microOfRaw]
  rw [valDigits_padDigits 4 y (by omega), valDigits_padDigits 2 m (by omega),
    valDigits_padDigits 2 d (by omega)]

theorem rawDT_nofrac (y m d hh mm ss : Nat) (hy : y ≤ 9999) (hm : m ≤ 12)
    (hd : d ≤ 31) (hhh : hh ≤ 23) (hmm : mm ≤ 59) (hss : ss ≤ 59) :
    rawDT { y := some (padDigits 4 y), m := some (padDigits 2 m),
            d := some (padDigits 2 d), hh := some (padDigits 2 hh),
            mm := some (padDigits 2 mm), ss := some (padDigits 2 ss) } =
      ⟨y, m, d, hh, mm, ss, 0⟩ := by
  rw [rawDT]
  simp only [Option.map_some', Option.getD_some, Option.map_none',
    Option.getD_none, microOfRaw]
  rw [valDigits_padDigits 4 y (by omega), valDigits_padDigits 2 m (by omega),
    valDigits_padDigits 2 d (by omega), valDigits_padDigits 2 hh (by omega),
    valDigits_padDigits 2 mm (by omega), valDigits_padDigits 2 ss (by omega)]

theorem microOfRaw_canon (mic p : Nat) (hmic : mic ≤ 999999) (hp1 : 1 ≤ p)
    (hp6 : p ≤ 6) (hz : mic % 10 ^ (6 - p) = 0) :
    microOfRaw (some ((padDigits 6 mic).take p)) = mic := by
  have h6 : p + (6 - p) = 6 := by omega
  have hsplit : padDigits 6 mic =
      padDigits p (mic / 10 ^ (6 - p)) ++ padDigits (6 - p) (mic % 10 ^ (6 - p)) := by
    calc padDigits 6 mic = padDigits (p + (6 - p)) mic := by rw [h6]
    _ = _ := padDigits_split p (6 - p) mic
  have htake : (padDigits 6 mic).take p = padDigits p (mic / 10 ^ (6 - p)) := by
    rw [hsplit]
    have hta := List.take_left (padDigits p (mic / 10 ^ (6 - p)))
      (padDigits (6 - p) (mic % 10 ^ (6 - p)))
    rw [padDigits_length] at hta
    exact hta
  have hlen : ((padDigits 6 mic).take p).length = p := by
    rw [htake, padDigits_length]
  simp only [microOfRaw]
  rw [hlen, htake, ← padDigits_zero, ← hz, ← hsplit]
  exact valDigits_padDigits 6 mic (by omega)

theorem rawDT_frac (y m d hh mm ss mic p : Nat) (hy : y ≤ 9999) (hm : m ≤ 12)
    (hd : d ≤ 31) (hhh : hh ≤ 23) (hmm : mm ≤ 59) (hss : ss ≤ 59)
    (hmic : mic ≤ 999999) (hp1 : 1 ≤ p) (hp6 : p ≤ 6)
    (hz : mic % 10 ^ (6 - p) = 0) :
    rawDT { y := some (padDigits 4 y), m := some (padDigits 2 m),
            d := some (padDigits 2 d), hh := some (padDigits 2 hh),
            mm := some (padDigits 2 mm), ss := some (padDigits 2 ss),
            f := some ((padDigits 6 mic).take p) } =
      ⟨y, m, d, hh, mm, ss, mic⟩ := by
  rw [rawDT]
  simp only [Option.map_some', Option.getD_some]
  rw [valDigits_padDigits 4 y (by omega), valDigits_padDigits 2 m (by omega),
    valDigits_padDigits 2 d (by omega), valDigits_padDigits 2 hh (by omega),
    valDigits_padDigits 2 mm (by omega), valDigits_padDigits 2 ss (by omega),
    microOfRaw_canon mic p hmic hp1 hp6 hz]

theorem tok_F0 : tokenizeFmt ("%Y-%m-%d" : String).data =
    some [.dY, .lit '-', .dm, .lit '-', .dd] := rfl

theorem tok_FT : tokenizeFmt ("%Y-%m-%dT%H:%M:%S" : String).data =
    some [.dY, .lit '-', .dm, .lit '-', .dd, .lit 'T', .dH, .lit ':', .dM,
      .lit ':', .dS] := rfl

theorem tok_FTf : tokenizeFmt ("%Y-%m-%dT%H:%M:%S.%f" : String).data =
    some [.dY, .lit '-', .dm, .lit '-', .dd, .lit 'T', .dH, .lit ':', .dM,
      .lit ':', .dS, .lit '.', .df] := rfl

theorem tok_FS : tokenizeFmt ("%Y-%m-%d %H:%M:%S" : String).data =
    some [.dY, .lit '-', .dm, .lit '-', .dd, .lit ' ', .dH, .lit ':', .dM,
      .lit ':', .dS] := rfl

theorem tok_FSf : tokenizeFmt ("%Y-%m-%d %H:%M:%S.%f" : String).data =
    some [.dY, .lit '-', .dm, .lit '-', .dd, .lit ' ', .dH, .lit ':', .dM,
      .lit ':', .dS, .lit '.', .df] := rfl

set_option maxHeartbeats 1600000 in
/-- C3 (amended): the round-trip law holds on canonically rendered
timestamps — zero-padded fields, a four-digit year 1000–9999, date
alone or date plus `T`- or blank-separated time, optionally a
`1–6`-digit fraction showing the whole microsecond value, optionally a
trailing `Z`.  For every such string `s`,
`str(datetime_from_string(s, formats=DateTimeFormats.candidates)) = s`:
the matched candidate format, the inferred fractional-digit count and
the `Z` suffix are all reproduced.  (The unamended claim is refuted by
`C3_counterexample_nonpadded`: `strptime`'s tolerance for unpadded
fields makes serialization canonicalize such inputs.) -/
theorem C3_roundtrip_amended (t : DT) (sh : CanonShape) (z : Bool)
    (hv : validDT t = true) (hy : 1000 ≤ t.y) (hsh : shapeOK t sh) :
    (datetime_from_string (canonStr t sh z) DateTimeFormats.candidates none
        none).map ParsedDatetime.toStr = .ok (canonStr t sh z) := by
  obtain ⟨y, m, d, hh, mm, ss, mic⟩ := t
  have hnorm := normalize_canon ⟨y, m, d, hh, mm, ss, mic⟩ sh z
  have hb := hv
  simp only [validDT, Bool.and_eq_true, decide_eq_true_eq] at hb
  obtain ⟨⟨⟨hy1, hy2, hm1, hm2, hd1⟩, hdays⟩, hh2, hmm2, hss2, hmic⟩ := hb
  have hd2 : d ≤ 31 := le_trans hdays (daysInMonth_le y m)
  cases sh with
  | dateOnly =>
      obtain ⟨rfl, rfl, rfl, rfl⟩ : hh = 0 ∧ mm = 0 ∧ ss = 0 ∧ mic = 0 := hsh
      have hchars : canonChars ⟨y, m, d, 0, 0, 0, 0⟩ .dateOnly =
          padDigits 4 y ++ '-' :: (padDigits 2 m ++ '-' :: padDigits 2 d) := rfl
      have hs0 : strptimeModel "%Y-%m-%d"
          ⟨canonChars ⟨y, m, d, 0, 0, 0, 0⟩ .dateOnly⟩ =
          some ⟨y, m, d, 0, 0, 0, 0⟩ := by
        rw [strptimeModel_run _ _ tok_F0, hchars,
          mrun_date_end y m d hm1 hm2 hd1 hd2]
        simp only [Option.some_bind]
        rw [rawDT_date y m d (by omega) (by omega) (by omega), if_pos hv]
      have hfp : firstParse DateTimeFormats.candidates
          ⟨canonChars ⟨y, m, d, 0, 0, 0, 0⟩ .dateOnly⟩ =
          some ("%Y-%m-%d", ⟨y, m, d, 0, 0, 0, 0⟩) := by
        simp only [DateTimeFormats.candidates, firstParse,
          show removeSuffixZ "%Y-%m-%d" = "%Y-%m-%d" from rfl, hs0]
      have hinfer : infer_ms_precision
          ⟨canonChars ⟨y, m, d, 0, 0, 0, 0⟩ .dateOnly⟩ = 0 := by
        rw [infer_ms_precision, string_data_mk, findFrac_canon_date]
        rfl
      have hdfs : datetime_from_string (canonStr ⟨y, m, d, 0, 0, 0, 0⟩ .dateOnly z)
          DateTimeFormats.candidates none none =
          .ok ⟨⟨y, m, d, 0, 0, 0, 0⟩, some "%Y-%m-%d", 0, some "strptime", z⟩ := by
        rw [datetime_from_string]
        simp only [hnorm, hfp, hinfer]
      rw [hdfs]
      simp only [Except.map]
      rw [ParsedDatetime.toStr]
      simp only [show removeSuffixZ "%Y-%m-%d" = "%Y-%m-%d" from rfl,
        strfprecisetime, tok_F0, Option.map_some', List.flatMap_cons,
        List.flatMap_nil, renderTok, List.append_nil, List.singleton_append]
      rw [canonStr, hchars]
      cases z <;> rfl
  | dateTime sepT p =>
      obtain ⟨hp6, hp0, hpz⟩ :
          p ≤ 6 ∧ (p = 0 → mic = 0) ∧ (1 ≤ p → mic % 10 ^ (6 - p) = 0) := hsh
      cases sepT with
      | true =>
          rcases Nat.eq_zero_or_pos p with rfl | hp1
          · obtain rfl : mic = 0 := hp0 rfl
            have hchars : canonChars ⟨y, m, d, hh, mm, ss, 0⟩ (.dateTime true 0) =
                padDigits 4 y ++ '-' :: (padDigits 2 m ++ '-' :: (padDigits 2 d ++
                  'T' :: (padDigits 2 hh ++ ':' :: (padDigits 2 mm ++ ':' ::
                    padDigits 2 ss)))) := by
              rw [show canonChars ⟨y, m, d, hh, mm, ss, 0⟩ (.dateTime true 0) =
                padDigits 4 y ++ '-' :: (padDigits 2 m ++ '-' :: (padDigits 2 d ++
                  'T' :: (padDigits 2 hh ++ ':' :: (padDigits 2 mm ++ ':' ::
                    (padDigits 2 ss ++ []))))) from rfl, List.append_nil]
            have hs0 : strptimeModel "%Y-%m-%d"
                ⟨canonChars ⟨y, m, d, hh, mm, ss, 0⟩ (.dateTime true 0)⟩ = none := by
              refine strptime_none _ _ tok_F0 _ ?_
              rw [hchars]
              exact mrun_date_end_more y m d hm1 hm2 hd1 hd2 'T' _
            have hs1 : strptimeModel "%Y-%m-%dT%H:%M:%S"
                ⟨canonChars ⟨y, m, d, hh, mm, ss, 0⟩ (.dateTime true 0)⟩ =
                some ⟨y, m, d, hh, mm, ss, 0⟩ := by
              rw [strptimeModel_run _ _ tok_FT, hchars,
                mrun_full_nofrac y m d hh mm ss hm1 hm2 hd1 hd2 hh2 hmm2 hss2
                  'T' (by decide)]
              simp only [Option.some_bind]
              rw [rawDT_nofrac y m d hh mm ss (by omega) (by omega) (by omega)
                (by omega) (by omega) (by omega), if_pos hv]
            have hfp : firstParse DateTimeFormats.candidates
                ⟨canonChars ⟨y, m, d, hh, mm, ss, 0⟩ (.dateTime true 0)⟩ =
                some ("%Y-%m-%dT%H:%M:%S", ⟨y, m, d, hh, mm, ss, 0⟩) := by
              simp only [DateTimeFormats.candidates, firstParse,
                show removeSuffixZ "%Y-%m-%d" = "%Y-%m-%d" from rfl,
                show removeSuffixZ "%Y-%m-%dT%H:%M:%S" = "%Y-%m-%dT%H:%M:%S"
                  from rfl, hs0, hs1]
            have hinfer : infer_ms_precision
                ⟨canonChars ⟨y, m, d, hh, mm, ss, 0⟩ (.dateTime true 0)⟩ = 0 := by
              rw [infer_ms_precision, string_data_mk, findFrac_canon_p0]
              rfl
            have hdfs : datetime_from_string
                (canonStr ⟨y, m, d, hh, mm, ss, 0⟩ (.dateTime true 0) z)
                DateTimeFormats.candidates none none =
                .ok ⟨⟨y, m, d, hh, mm, ss, 0⟩, some "%Y-%m-%dT%H:%M:%S", 0,
                  some "strptime", z⟩ := by
              rw [datetime_from_string]
              simp only [hnorm, hfp, hinfer]
            rw [hdfs]
            simp only [Except.map]
            rw [ParsedDatetime.toStr]
            simp only [show removeSuffixZ "%Y-%m-%dT%H:%M:%S" =
                "%Y-%m-%dT%H:%M:%S" from rfl,
              strfprecisetime, tok_FT, Option.map_some', List.flatMap_cons,
              List.flatMap_nil, renderTok, List.append_nil,
              List.singleton_append]
            rw [canonStr, hchars]
            cases z <;> rfl
          · have hz := hpz hp1
            have hclamp : clampMsPrecision p = p := by
              rw [clampMsPrecision, if_neg (by omega)]
            have hlen : ((padDigits 6 mic).take p).length = p := by
              rw [List.length_take, padDigits_length]
              omega
            have hchars : canonChars ⟨y, m, d, hh, mm, ss, mic⟩ (.dateTime true p) =
                padDigits 4 y ++ '-' :: (padDigits 2 m ++ '-' :: (padDigits 2 d ++
                  'T' :: (padDigits 2 hh ++ ':' :: (padDigits 2 mm ++ ':' ::
                    (padDigits 2 ss ++ '.' :: (padDigits 6 mic).take p))))) := by
              rw [show canonChars ⟨y, m, d, hh, mm, ss, mic⟩ (.dateTime true p) =
                padDigits 4 y ++ '-' :: (padDigits 2 m ++ '-' :: (padDigits 2 d ++
                  'T' :: (padDigits 2 hh ++ ':' :: (padDigits 2 mm ++ ':' ::
                    (padDigits 2 ss ++
                      timeTail ⟨y, m, d, hh, mm, ss, mic⟩ p))))) from rfl,
                timeTail, if_neg (by omega)]
            have hs0 : strptimeModel "%Y-%m-%d"
                ⟨canonChars ⟨y, m, d, hh, mm, ss, mic⟩ (.dateTime true p)⟩ = none := by
              refine strptime_none _ _ tok_F0 _ ?_
              rw [hchars]
              exact mrun_date_end_more y m d hm1 hm2 hd1 hd2 'T' _
            have hs1 : strptimeModel "%Y-%m-%dT%H:%M:%S"
                ⟨canonChars ⟨y, m, d, hh, mm, ss, mic⟩ (.dateTime true p)⟩ = none := by
              refine strptime_none _ _ tok_FT _ ?_
              rw [hchars]
              exact mrun_nofrac_on_frac y m d hh mm ss _ hm1 hm2 hd1 hd2 hh2
                hmm2 hss2 'T' (by decide)
            have hs3 : strptimeModel "%Y-%m-%dT%H:%M:%S.%f"
                ⟨canonChars ⟨y, m, d, hh, mm, ss, mic⟩ (.dateTime true p)⟩ =
                some ⟨y, m, d, hh, mm, ss, mic⟩ := by
              rw [strptimeModel_run _ _ tok_FTf, hchars,
                mrun_full_frac y m d hh mm ss _ hm1 hm2 hd1 hd2 hh2 hmm2 hss2
                  'T' (by decide)
                  (take_pad_ne_nil p 6 mic hp1 (by omega))
                  (by rw [hlen]; omega)
                  (take_pad_digits p 6 mic)]
              simp only [Option.some_bind]
              rw [rawDT_frac y m d hh mm ss mic p (by omega) (by omega)
                (by omega) (by omega) (by omega) (by omega) (by omega) hp1 hp6 hz,
                if_pos hv]
            have hfp : firstParse DateTimeFormats.candidates
                ⟨canonChars ⟨y, m, d, hh, mm, ss, mic⟩ (.dateTime true p)⟩ =
                some ("%Y-%m-%dT%H:%M:%S.%f", ⟨y, m, d, hh, mm, ss, mic⟩) := by
              simp only [DateTimeFormats.candidates, firstParse,
                show removeSuffixZ "%Y-%m-%d" = "%Y-%m-%d" from rfl,
                show removeSuffixZ "%Y-%m-%dT%H:%M:%S" = "%Y-%m-%dT%H:%M:%S"
                  from rfl,
                show removeSuffixZ "%Y-%m-%dT%H:%M:%SZ" = "%Y-%m-%dT%H:%M:%S"
                  from rfl,
                show removeSuffixZ "%Y-%m-%dT%H:%M:%S.%f" =
                  "%Y-%m-%dT%H:%M:%S.%f" from rfl, hs0, hs1, hs3]
            have hinfer : infer_ms_precision
                ⟨canonChars ⟨y, m, d, hh, mm, ss, mic⟩ (.dateTime true p)⟩ = p := by
              rw [infer_ms_precision, string_data_mk,
                findFrac_canon_frac _ _ p hp1]
              simp only [Option.getD_some]
              rw [hlen, hclamp]
            have hdfs : datetime_from_string
                (canonStr ⟨y, m, d, hh, mm, ss, mic⟩ (.dateTime true p) z)
                DateTimeFormats.candidates none none =
                .ok ⟨⟨y, m, d, hh, mm, ss, mic⟩, some "%Y-%m-%dT%H:%M:%S.%f", p,
                  some "strptime", z⟩ := by
              rw [datetime_from_string]
              simp only [hnorm, hfp, hinfer]
            rw [hdfs]
            simp only [Except.map]
            rw [ParsedDatetime.toStr]
            simp only [show removeSuffixZ "%Y-%m-%dT%H:%M:%S.%f" =
                "%Y-%m-%dT%H:%M:%S.%f" from rfl, strfprecisetime]
            rw [tok_FTf]
            simp only [Option.map_some', List.flatMap_cons, List.flatMap_nil,
              renderTok, hclamp, List.append_nil, List.singleton_append]
            rw [canonStr, hchars]
            cases z <;> rfl
      | false =>
          rcases Nat.eq_zero_or_pos p with rfl | hp1
          · obtain rfl : mic = 0 := hp0 rfl
            have hchars : canonChars ⟨y, m, d, hh, mm, ss, 0⟩ (.dateTime false 0) =
                padDigits 4 y ++ '-' :: (padDigits 2 m ++ '-' :: (padDigits 2 d ++
                  ' ' :: (padDigits 2 hh ++ ':' :: (padDigits 2 mm ++ ':' ::
                    padDigits 2 ss)))) := by
              rw [show canonChars ⟨y, m, d, hh, mm, ss, 0⟩ (.dateTime false 0) =
                padDigits 4 y ++ '-' :: (padDigits 2 m ++ '-' :: (padDigits 2 d ++
                  ' ' :: (padDigits 2 hh ++ ':' :: (padDigits 2 mm ++ ':' ::
                    (padDigits 2 ss ++ []))))) from rfl, List.append_nil]
            have hs0 : strptimeModel "%Y-%m-%d"
                ⟨canonChars ⟨y, m, d, hh, mm, ss, 0⟩ (.dateTime false 0)⟩ = none := by
              refine strptime_none _ _ tok_F0 _ ?_
              rw [hchars]
              exact mrun_date_end_more y m d hm1 hm2 hd1 hd2 ' ' _
            have hs1 : strptimeModel "%Y-%m-%dT%H:%M:%S"
                ⟨canonChars ⟨y, m, d, hh, mm, ss, 0⟩ (.dateTime false 0)⟩ = none := by
              refine strptime_none _ _ tok_FT _ ?_
              rw [hchars]
              exact mrun_sep_mismatch y m d hm1 hm2 hd1 hd2 'T' ' ' (by decide)
                (by decide) _ _
            have hs3 : strptimeModel "%Y-%m-%dT%H:%M:%S.%f"
                ⟨canonChars ⟨y, m, d, hh, mm, ss, 0⟩ (.dateTime false 0)⟩ = none := by
              refine strptime_none _ _ tok_FTf _ ?_
              rw [hchars]
              exact mrun_sep_mismatch y m d hm1 hm2 hd1 hd2 'T' ' ' (by decide)
                (by decide) _ _
            have hs5 : strptimeModel "%Y-%m-%d %H:%M:%S"
                ⟨canonChars ⟨y, m, d, hh, mm, ss, 0⟩ (.dateTime false 0)⟩ =
                some ⟨y, m, d, hh, mm, ss, 0⟩ := by
              rw [strptimeModel_run _ _ tok_FS, hchars,
                mrun_full_nofrac y m d hh mm ss hm1 hm2 hd1 hd2 hh2 hmm2 hss2
                  ' ' (by decide)]
              simp only [Option.some_bind]
              rw [rawDT_nofrac y m d hh mm ss (by omega) (by omega) (by omega)
                (by omega) (by omega) (by omega), if_pos hv]
            have hfp : firstParse DateTimeFormats.candidates
                ⟨canonChars ⟨y, m, d, hh, mm, ss, 0⟩ (.dateTime false 0)⟩ =
                some ("%Y-%m-%d %H:%M:%S", ⟨y, m, d, hh, mm, ss, 0⟩) := by
              simp only [DateTimeFormats.candidates, firstParse,
                show removeSuffixZ "%Y-%m-%d" = "%Y-%m-%d" from rfl,
                show removeSuffixZ "%Y-%m-%dT%H:%M:%S" = "%Y-%m-%dT%H:%M:%S"
                  from rfl,
                show removeSuffixZ "%Y-%m-%dT%H:%M:%SZ" = "%Y-%m-%dT%H:%M:%S"
                  from rfl,
                show removeSuffixZ "%Y-%m-%dT%H:%M:%S.%f" =
                  "%Y-%m-%dT%H:%M:%S.%f" from rfl,
                show removeSuffixZ "%Y-%m-%dT%H:%M:%S.%fZ" =
                  "%Y-%m-%dT%H:%M:%S.%f" from rfl,
                show removeSuffixZ "%Y-%m-%d %H:%M:%S" = "%Y-%m-%d %H:%M:%S"
                  from rfl, hs0, hs1, hs3, hs5]
            have hinfer : infer_ms_precision
                ⟨canonChars ⟨y, m, d, hh, mm, ss, 0⟩ (.dateTime false 0)⟩ = 0 := by
              rw [infer_ms_precision, string_data_mk, findFrac_canon_p0]
              rfl
            have hdfs : datetime_from_string
                (canonStr ⟨y, m, d, hh, mm, ss, 0⟩ (.dateTime false 0) z)
                DateTimeFormats.candidates none none =
                .ok ⟨⟨y, m, d, hh, mm, ss, 0⟩, some "%Y-%m-%d %H:%M:%S", 0,
                  some "strptime", z⟩ := by
              rw [datetime_from_string]
              simp only [hnorm, hfp, hinfer]
            rw [hdfs]
            simp only [Except.map]
            rw [ParsedDatetime.toStr]
            simp only [show removeSuffixZ "%Y-%m-%d %H:%M:%S" =
                "%Y-%m-%d %H:%M:%S" from rfl,
              strfprecisetime, tok_FS, Option.map_some', List.flatMap_cons,
              List.flatMap_nil, renderTok, List.append_nil,
              List.singleton_append]
            rw [canonStr, hchars]
            cases z <;> rfl
          · have hz := hpz hp1
            have hclamp : clampMsPrecision p = p := by
              rw [clampMsPrecision, if_neg (by omega)]
            have hlen : ((padDigits 6 mic).take p).length = p := by
              rw [List.length_take, padDigits_length]
              omega
            have hchars : canonChars ⟨y, m, d, hh, mm, ss, mic⟩ (.dateTime false p) =
                padDigits 4 y ++ '-' :: (padDigits 2 m ++ '-' :: (padDigits 2 d ++
                  ' ' :: (padDigits 2 hh ++ ':' :: (padDigits 2 mm ++ ':' ::
                    (padDigits 2 ss ++ '.' :: (padDigits 6 mic).take p))))) := by
              rw [show canonChars ⟨y, m, d, hh, mm, ss, mic⟩ (.dateTime false p) =
                padDigits 4 y ++ '-' :: (padDigits 2 m ++ '-' :: (padDigits 2 d ++
                  ' ' :: (padDigits 2 hh ++ ':' :: (padDigits 2 mm ++ ':' ::
                    (padDigits 2 ss ++
                      timeTail ⟨y, m, d, hh, mm, ss, mic⟩ p))))) from rfl,
                timeTail, if_neg (by omega)]
            have hs0 : strptimeModel "%Y-%m-%d"
                ⟨canonChars ⟨y, m, d, hh, mm, ss, mic⟩ (.dateTime false p)⟩ = none := by
              refine strptime_none _ _ tok_F0 _ ?_
              rw [hchars]
              exact mrun_date_end_more y m d hm1 hm2 hd1 hd2 ' ' _
            have hs1 : strptimeModel "%Y-%m-%dT%H:%M:%S"
                ⟨canonChars ⟨y, m, d, hh, mm, ss, mic⟩ (.dateTime false p)⟩ = none := by
              refine strptime_none _ _ tok_FT _ ?_
              rw [hchars]
              exact mrun_sep_mismatch y m d hm1 hm2 hd1 hd2 'T' ' ' (by decide)
                (by decide) _ _
            have hs3 : strptimeModel "%Y-%m-%dT%H:%M:%S.%f"
                ⟨canonChars ⟨y, m, d, hh, mm, ss, mic⟩ (.dateTime false p)⟩ = none := by
              refine strptime_none _ _ tok_FTf _ ?_
              rw [hchars]
              exact mrun_sep_mismatch y m d hm1 hm2 hd1 hd2 'T' ' ' (by decide)
                (by decide) _ _
            have hs5 : strptimeModel "%Y-%m-%d %H:%M:%S"
                ⟨canonChars ⟨y, m, d, hh, mm, ss, mic⟩ (.dateTime false p)⟩ = none := by
              refine strptime_none _ _ tok_FS _ ?_
              rw [hchars]
              exact mrun_nofrac_on_frac y m d hh mm ss _ hm1 hm2 hd1 hd2 hh2
                hmm2 hss2 ' ' (by decide)
            have hs7 : strptimeModel "%Y-%m-%d %H:%M:%S.%f"
                ⟨canonChars ⟨y, m, d, hh, mm, ss, mic⟩ (.dateTime false p)⟩ =
                some ⟨y, m, d, hh, mm, ss, mic⟩ := by
              rw [strptimeModel_run _ _ tok_FSf, hchars,
                mrun_full_frac y m d hh mm ss _ hm1 hm2 hd1 hd2 hh2 hmm2 hss2
                  ' ' (by decide)
                  (take_pad_ne_nil p 6 mic hp1 (by omega))
                  (by rw [hlen]; omega)
                  (take_pad_digits p 6 mic)]
              simp only [Option.some_bind]
              rw [rawDT_frac y m d hh mm ss mic p (by omega) (by omega)
                (by omega) (by omega) (by omega) (by omega) (by omega) hp1 hp6 hz,
                if_pos hv]
            have hfp : firstParse DateTimeFormats.candidates
                ⟨canonChars ⟨y, m, d, hh, mm, ss, mic⟩ (.dateTime false p)⟩ =
                some ("%Y-%m-%d %H:%M:%S.%f", ⟨y, m, d, hh, mm, ss, mic⟩) := by
              simp only [DateTimeFormats.candidates, firstParse,
                show removeSuffixZ "%Y-%m-%d" = "%Y-%m-%d" from rfl,
                show removeSuffixZ "%Y-%m-%dT%H:%M:%S" = "%Y-%m-%dT%H:%M:%S"
                  from rfl,
                show removeSuffixZ "%Y-%m-%dT%H:%M:%SZ" = "%Y-%m-%dT%H:%M:%S"
                  from rfl,
                show removeSuffixZ "%Y-%m-%dT%H:%M:%S.%f" =
                  "%Y-%m-%dT%H:%M:%S.%f" from rfl,
                show removeSuffixZ "%Y-%m-%dT%H:%M:%S.%fZ" =
                  "%Y-%m-%dT%H:%M:%S.%f" from rfl,
                show removeSuffixZ "%Y-%m-%d %H:%M:%S" = "%Y-%m-%d %H:%M:%S"
                  from rfl,
                show removeSuffixZ "%Y-%m-%d %H:%M:%SZ" = "%Y-%m-%d %H:%M:%S"
                  from rfl,
                show removeSuffixZ "%Y-%m-%d %H:%M:%S.%f" =
                  "%Y-%m-%d %H:%M:%S.%f" from rfl, hs0, hs1, hs3, hs5, hs7]
            have hinfer : infer_ms_precision
                ⟨canonChars ⟨y, m, d, hh, mm, ss, mic⟩ (.dateTime false p)⟩ = p := by
              rw [infer_ms_precision, string_data_mk,
                findFrac_canon_frac _ _ p hp1]
              simp only [Option.getD_some]
              rw [hlen, hclamp]
            have hdfs : datetime_from_string
                (canonStr ⟨y, m, d, hh, mm, ss, mic⟩ (.dateTime false p) z)
                DateTimeFormats.candidates none none =
                .ok ⟨⟨y, m, d, hh, mm, ss, mic⟩, some "%Y-%m-%d %H:%M:%S.%f", p,
                  some "strptime", z⟩ := by
              rw [datetime_from_string]
              simp only [hnorm, hfp, hinfer]
            rw [hdfs]
            simp only [Except.map]
            rw [ParsedDatetime.toStr]
            simp only [show removeSuffixZ "%Y-%m-%d %H:%M:%S.%f" =
                "%Y-%m-%d %H:%M:%S.%f" from rfl, strfprecisetime]
            rw [tok_FSf]
            simp only [Option.map_some', List.flatMap_cons, List.flatMap_nil,
              renderTok, hclamp, List.append_nil, List.singleton_append]
            rw [canonStr, hchars]
            cases z <;> rfl

/-- Witness for the amended C3 law at
`"2024-01-02T03:04:05.123Z"` (a `T`-separated timestamp with a
three-digit fraction and a `Z` suffix). -/
theorem C3_roundtrip_amended_witness :
    canonStr ⟨2024, 1, 2, 3, 4, 5, 123000⟩ (.dateTime true 3) true =
      "2024-01-02T03:04:05.123Z" ∧
    (datetime_from_string "2024-01-02T03:04:05.123Z"
        DateTimeFormats.candidates none none).map ParsedDatetime.toStr =
      .ok "2024-01-02T03:04:05.123Z" := by
  refine ⟨rfl, ?_⟩
  exact C3_roundtrip_amended ⟨2024, 1, 2, 3, 4, 5, 123000⟩ (.dateTime true 3)
    true (by decide) (by decide) ⟨by decide, by decide, fun _ => by decide⟩

end Tassapi
